import Mathlib

/-! # kilo: terminal input decoding, document load, viewport and rendering

A shallow embedding of `kilo.c` and theorems about it.

Conventions of the embedding.

* A C `int` is a Lean `Int`.  Signed overflow is undefined in C, so the
  definitions describe the executions in which every intermediate value is
  representable; where a fact depends on the width of `int` (the size of a
  formatted number) the 32-bit range `isInt32` is stated.
* A byte is represented by the value of the `char` object it is stored in
  (an `Int`); `isChar` is the range of such values, covering both a signed and
  an unsigned `char`.
* The global `E` is threaded explicitly: every operation takes the editor
  state and returns the new one.
* Terminal input is a list of the results of the successive `read` calls on
  standard input.  When the list is exhausted every further `read` times out
  (returns 0), which is what a terminal in raw mode with `VMIN = 0`,
  `VTIME = 1` does when no more keys arrive.
* Allocation (`malloc`, `realloc`) is assumed to succeed.
* Where C leaves an operation on memory undefined (a negative length handed
  to `memcpy`, an index outside `E.rows`) the process does not survive: it is
  killed, or what it does from there on is not defined.  The functions that
  render are given twice: total (`appendToBuffer`, `editorDrawRows`,
  `editorRefreshScreen`), for the states in which nothing of the kind
  happens, and with the fault in them (`appendToBufferRun`,
  `editorDrawRowsRun`, `editorRefreshScreenRun`), yielding nothing when the
  process does not survive the call; `runLoop` and `main` are built on the
  latter.
* What the system answers (`tcgetattr`, `tcsetattr`, `ioctl`, `fopen`, the
  completeness of a `write`) is an argument of the function that asks; a whole
  run of `main` takes them together as an `Env` and yields the events of the
  process in order (`Run`).
-/

namespace Kilo

/-! ## Defines -/

/-- Range of the values of a C `char` object, signed or unsigned. -/
def isChar (c : Int) : Prop := -128 ≤ c ∧ c ≤ 255

instance (c : Int) : Decidable (isChar c) := by unfold isChar; infer_instance

/-- Range of a 32-bit C `int`. -/
def isInt32 (i : Int) : Prop := -2147483648 ≤ i ∧ i ≤ 2147483647

instance (i : Int) : Decidable (isInt32 i) := by unfold isInt32; infer_instance

/-- The version string `KILO_VERSION`, "0.0.1". -/
def KILO_VERSION : List Int := [48, 46, 48, 46, 49]

/-- The macro `CTRL_KEY(k)`, `(k) & 0x1f`. -/
def CTRL_KEY (k : Int) : Int := Int.land k 31

def ARROW_LEFT : Int := 1000
def ARROW_RIGHT : Int := 1001
def ARROW_UP : Int := 1002
def ARROW_DOWN : Int := 1003
def DEL_KEY : Int := 1004
def HOME_KEY : Int := 1005
def END_KEY : Int := 1006
def PAGE_UP : Int := 1007
def PAGE_DOWN : Int := 1008

/-- The escape byte `'\x1b'`. -/
def ESC : Int := 27

/-- The value of `EAGAIN` in `errno.h` (Linux). -/
def EAGAIN : Int := 11

/-! ## Data -/

/-- A document row, `struct row`: the byte count and the bytes. -/
structure row where
  size : Int
  chars : List Int
deriving DecidableEq, Repr

/-- The saved terminal attributes, `struct termios`, as far as the program touches them. -/
structure termios where
  c_iflag : Nat
  c_oflag : Nat
  c_cflag : Nat
  c_lflag : Nat
  vmin : Nat
  vtime : Nat
deriving DecidableEq, Repr

/-- The global `struct editorState E`. -/
structure editorState where
  cursorX : Int
  cursorY : Int
  rowOffset : Int
  screenRows : Int
  screenColumns : Int
  totalRows : Int
  rows : List row
  originalTermios : termios
deriving DecidableEq, Repr

/-! ## Terminal -/

/-- What the process has done when it ends: the payloads of its `write` calls on
standard output in order, the label given to `perror` if any, and the exit status. -/
structure Exit where
  writes : List (List Int)
  diagnostic : Option String
  status : Int
deriving DecidableEq, Repr

/-- The routine `die`: write `ESC[2J`, write `ESC[H`, `perror(s)`, `exit(1)`. -/
def die (s : String) : Exit :=
  { writes := [[27, 91, 50, 74], [27, 91, 72]], diagnostic := some s, status := 1 }

/-- Result of one `read(STDIN_FILENO, &c, 1)`. -/
inductive ReadResult where
  /-- The call returned 1 and stored the byte. -/
  | byte (c : Int)
  /-- The call returned 0: no byte arrived within the timeout. -/
  | timeout
  /-- The call returned -1 with the given `errno`. -/
  | failed (errno : Int)
deriving DecidableEq, Repr

/-- Result of `editorReadKey`. -/
inductive KeyResult where
  /-- The function returned the key; `rest` is the input not yet read. -/
  | key (c : Int) (rest : List ReadResult)
  /-- The function called `die`. -/
  | died (x : Exit)
  /-- The wait loop never receives a byte: the function does not return. -/
  | waiting
deriving DecidableEq, Repr

/-- The loop `while ((nread = read(STDIN_FILENO, &c, 1)) != 1)` at the head of
`editorReadKey`, with its body `if (nread == -1 && errno != EAGAIN) die("read")`. -/
def waitByte : List ReadResult → KeyResult
  | [] => .waiting
  | .byte c :: rest => .key c rest
  | .timeout :: rest => waitByte rest
  | .failed e :: rest => if e ≠ EAGAIN then .died (die "read") else waitByte rest

/-- One follow-on `read(STDIN_FILENO, &seq[i], 1)`: the byte when the call
returned 1, nothing when it returned anything else; and the remaining input. -/
def readSeq : List ReadResult → Option Int × List ReadResult
  | [] => (none, [])
  | .byte c :: rest => (some c, rest)
  | .timeout :: rest => (none, rest)
  | .failed _ :: rest => (none, rest)

/-- The `switch (seq[1])` after `ESC [ digit ~`. -/
def tildeKey (s1 : Int) : Int :=
  if s1 = 49 then HOME_KEY
  else if s1 = 51 then DEL_KEY
  else if s1 = 52 then END_KEY
  else if s1 = 53 then PAGE_UP
  else if s1 = 54 then PAGE_DOWN
  else if s1 = 55 then HOME_KEY
  else if s1 = 56 then END_KEY
  else ESC

/-- The `switch (seq[1])` after `ESC [` and a byte that is not a digit. -/
def bracketKey (s1 : Int) : Int :=
  if s1 = 65 then ARROW_UP
  else if s1 = 66 then ARROW_DOWN
  else if s1 = 67 then ARROW_RIGHT
  else if s1 = 68 then ARROW_LEFT
  else if s1 = 72 then HOME_KEY
  else if s1 = 70 then END_KEY
  else ESC

/-- The `switch (seq[1])` after `ESC O`. -/
def oKey (s1 : Int) : Int :=
  if s1 = 72 then HOME_KEY
  else if s1 = 70 then END_KEY
  else ESC

/-- The body of `editorReadKey` after the wait loop has stored the byte `c`. -/
def decodeAfter (c : Int) (rest : List ReadResult) : KeyResult :=
  if c = ESC then
    match readSeq rest with
    | (none, r1) => .key ESC r1
    | (some s0, r1) =>
      match readSeq r1 with
      | (none, r2) => .key ESC r2
      | (some s1, r2) =>
        if s0 = 91 then
          if 48 ≤ s1 ∧ s1 ≤ 57 then
            match readSeq r2 with
            | (none, r3) => .key ESC r3
            | (some s2, r3) =>
              if s2 = 126 then .key (tildeKey s1) r3 else .key ESC r3
          else .key (bracketKey s1) r2
        else if s0 = 79 then .key (oKey s1) r2
        else .key ESC r2
  else .key c rest

/-- The function `editorReadKey`. -/
def editorReadKey (input : List ReadResult) : KeyResult :=
  match waitByte input with
  | .key c rest => decodeAfter c rest
  | .died x => .died x
  | .waiting => .waiting

/-! ## Reference decoding table (from the specification) -/

/-- The fifteen escape sequences of the specification's key table, each with
the named key it stands for. -/
def keyTable : List (List Int × Int) :=
  [ ([27, 91, 65], ARROW_UP), ([27, 91, 66], ARROW_DOWN), ([27, 91, 67], ARROW_RIGHT),
    ([27, 91, 68], ARROW_LEFT), ([27, 91, 72], HOME_KEY), ([27, 91, 70], END_KEY),
    ([27, 91, 49, 126], HOME_KEY), ([27, 91, 51, 126], DEL_KEY), ([27, 91, 52, 126], END_KEY),
    ([27, 91, 53, 126], PAGE_UP), ([27, 91, 54, 126], PAGE_DOWN), ([27, 91, 55, 126], HOME_KEY),
    ([27, 91, 56, 126], END_KEY),
    ([27, 79, 72], HOME_KEY), ([27, 79, 70], END_KEY) ]

/-- Whether the byte list `bs` begins with the sequence `s`. -/
def beginsWith : List Int → List Int → Bool
  | [], _ => true
  | _ :: _, [] => false
  | a :: s, b :: bs => b = a && beginsWith s bs

/-- The key the specification's table assigns to an input that begins with the
bytes `bs`: the first byte when it is not ESC, the named key of the table
sequence the input begins with, and the literal ESC otherwise. -/
def tableKey (bs : List Int) : Int :=
  if bs.headD ESC ≠ ESC then bs.headD ESC
  else match keyTable.find? (fun e => beginsWith e.1 bs) with
    | some e => e.2
    | none => ESC

/-- The bytes at the head of the input: the results of the reads up to the
first one that delivers no byte. -/
def leadingBytes : List ReadResult → List Int
  | .byte c :: rest => c :: leadingBytes rest
  | _ => []

/-- The number of bytes the specification's decoder asks for, given the bytes
at the head of the input: one; three when the first is ESC; four when they
begin ESC `[` digit. -/
def bytesAsked (bs : List Int) : Nat :=
  if bs.headD 0 ≠ ESC then 1
  else if bs.getD 1 0 = 91 ∧ 48 ≤ bs.getD 2 0 ∧ bs.getD 2 0 ≤ 57 then 4
  else 3

/-- Every byte the decoder asks for is available: the input starts with at
least as many bytes as are asked for. -/
def allAvailable (input : List ReadResult) : Prop :=
  bytesAsked (leadingBytes input) ≤ (leadingBytes input).length

instance (input : List ReadResult) : Decidable (allAvailable input) := by
  unfold allAvailable; infer_instance

/-- A key value is one of the named keys of `enum editorKey`. -/
def isNamedKey (k : Int) : Prop := 1000 ≤ k ∧ k ≤ 1008

instance (k : Int) : Decidable (isNamedKey k) := by unfold isNamedKey; infer_instance

/-! ## Row operations -/

/-- The function `editorAppendRow`: store `length` and a copy of the first
`length` bytes of `s` at index `E.totalRows` of the row array, then count it.
The array `E.rows` is the list of its `E.totalRows` elements. -/
def editorAppendRow (s : List Int) (length : Nat) (E : editorState) : editorState :=
  { E with rows := E.rows ++ [{ size := length, chars := s.take length }],
           totalRows := E.totalRows + 1 }

/-! ## File i/o -/

/-- One line of the stream for `getline`: the bytes up to and including the
first `'\n'` (or up to the end when there is none), and what follows. -/
def readLine : List Int → List Int × List Int
  | [] => ([], [])
  | c :: cs => if c = 10 then ([c], cs) else ((c :: (readLine cs).1), (readLine cs).2)

/-- The library call `getline(&line, &linecap, fp)` on a stream holding the
bytes `fp`: nothing (the call returns -1) at end of file, else the line read,
delimiter included, and the rest of the stream. -/
def getline (fp : List Int) : Option (List Int × List Int) :=
  match fp with
  | [] => none
  | _ :: _ => some (readLine fp)

/-- The inner loop of `editorOpen`,
`while (linelen > 0 && (line[linelen-1] == '\n' || line[linelen-1] == '\r')) linelen--`,
as a function of `linelen`. -/
def stripLen (line : List Int) : Nat → Nat
  | 0 => 0
  | n + 1 => if line.getD n 0 = 10 ∨ line.getD n 0 = 13 then stripLen line n else n + 1

/-- The outer loop of `editorOpen`, `while ((linelen = getline(...)) != -1)`,
run for at most `fuel` iterations. -/
def readRows : Nat → List Int → editorState → editorState
  | 0, _, E => E
  | fuel + 1, fp, E =>
    match getline fp with
    | none => E
    | some (line, rest) =>
      readRows fuel rest (editorAppendRow line (stripLen line line.length) E)

/-- The function `editorOpen`.  The argument is what `fopen` finds: nothing when
the file cannot be opened, else its content.  Every `getline` that returns a
line consumes at least one byte, so the loop ends within `length + 1` rounds. -/
def editorOpen (file : Option (List Int)) (E : editorState) : Except Exit editorState :=
  match file with
  | none => .error (die "fopen")
  | some fp => .ok (readRows (fp.length + 1) fp E)

/-! ## Append buffer -/

/-- The function `appendToBuffer` for `len ≥ 0`: the buffer grows by the first
`len` bytes of `s` (`realloc` is assumed to succeed).  What the call does with
`len < 0` is in `appendToBufferRun`; where that one yields a buffer it is the
one given here. -/
def appendToBuffer (buf : List Int) (s : List Int) (len : Int) : List Int :=
  buf ++ s.take len.toNat

/-- The function `appendToBuffer` with its faults; nothing stands for a call the
process does not survive.  `realloc` is asked for `buf->len + len` bytes, an
`int` converted to `size_t`.
* `len ≥ 0`: `realloc` is assumed to succeed and `memcpy` copies `len` bytes,
  which `s` must hold.
* `len < 0` and `buf->len + len < 0`: the size asked for is above 2^63, which
  no `realloc` grants; `new == NULL` and the function returns with the buffer
  as it was.
* `len < 0` and `buf->len + len > 0`: `realloc` shrinks the block and `memcpy`
  gets `len` as a `size_t`, a copy of more than 2^63 bytes: the process is
  killed.
* `len < 0` and `buf->len + len = 0`: `realloc(b, 0)` frees the block; either
  it returns null and `buf->b` is left pointing to freed memory for the next
  call, or `memcpy` runs as in the case before. -/
def appendToBufferRun (buf : List Int) (s : List Int) (len : Int) : Option (List Int) :=
  if 0 ≤ len then
    if len.toNat ≤ s.length then some (buf ++ s.take len.toNat) else none
  else if (buf.length : Int) + len < 0 then some buf
  else none

/-! ## Formatting (library) -/

/-- Decimal digits of `n`, most significant first, as character codes. -/
def decDigits : Nat → Nat → List Int
  | 0, _ => []
  | fuel + 1, n => if n < 10 then [48 + (n : Int)]
                   else decDigits fuel (n / 10) ++ [48 + ((n % 10 : Nat) : Int)]

/-- The conversion `%d` of `printf`. -/
def fmtInt (i : Int) : List Int :=
  if i < 0 then 45 :: decDigits (i.natAbs + 1) i.natAbs else decDigits (i.toNat + 1) i.toNat

/-- The content `snprintf(dst, size, ...)` leaves in `dst` before the
terminating NUL, given the full formatted text: at most `size - 1` bytes. -/
def snprintf (size : Nat) (text : List Int) : List Int := text.take (size - 1)

/-- The library call `strlen`: the number of bytes before the first NUL. -/
def strlen (s : List Int) : Nat := (s.takeWhile (fun c => c ≠ 0)).length

/-- Number of times the body of `while (n--)` runs for a 32-bit counter `n`:
`n` times when `n ≥ 0`; a negative counter is decremented until it wraps. -/
def whileCount (n : Int) : Nat := (n % 4294967296).toNat

/-! ## Output -/

/-- The function `editorScroll`. -/
def editorScroll (E : editorState) : editorState :=
  let E1 := if E.cursorY < E.rowOffset then { E with rowOffset := E.cursorY } else E
  if E1.cursorY ≥ E1.rowOffset + E1.screenRows then
    { E1 with rowOffset := E1.cursorY - E1.screenRows + 1 }
  else E1

/-- The array access `E.rows[i]` for an index inside the array.  An index
outside it is undefined in C (the process reads foreign memory or is killed);
the empty row given here for that case stands for nothing, and
`drawRowContentRun` yields nothing for such a read. -/
def rowAt (E : editorState) (i : Int) : row :=
  if 0 ≤ i then E.rows.getD i.toNat { size := 0, chars := [] } else { size := 0, chars := [] }

/-- The format string of the welcome line up to `%s`: "kilo editor -- version ". -/
def welcomeFormat : List Int :=
  [107, 105, 108, 111, 32, 101, 100, 105, 116, 111, 114, 32, 45, 45, 32,
   118, 101, 114, 115, 105, 111, 110, 32]

/-- The loop `while (padding--) appendToBuffer(buf, " ", 1)`, for `n` rounds. -/
def appendSpaces : Nat → List Int → List Int
  | 0, buf => buf
  | n + 1, buf => appendSpaces n (appendToBuffer buf [32] 1)

/-- The first part of the body of the loop of `editorDrawRows`, for screen row
`y`: the welcome line, a tilde, or the visible bytes of a document row. -/
def drawRowContent (E : editorState) (y : Int) (buf : List Int) : List Int :=
  let fileRow := y + E.rowOffset
  if fileRow ≥ E.totalRows then
    if E.totalRows = 0 ∧ y = E.screenRows.tdiv 3 then
      let welcome := snprintf 80 (welcomeFormat ++ KILO_VERSION)
      let welcomelen : Int := ((welcomeFormat ++ KILO_VERSION).length : Int)
      let welcomelen := if welcomelen > E.screenColumns then E.screenColumns else welcomelen
      let padding := (E.screenColumns - welcomelen).tdiv 2
      let buf1 := if padding ≠ 0 then appendToBuffer buf [126] 1 else buf
      let padding1 := if padding ≠ 0 then padding - 1 else padding
      let buf2 := appendSpaces (whileCount padding1) buf1
      appendToBuffer buf2 welcome welcomelen
    else appendToBuffer buf [126] 1
  else
    let len := (rowAt E fileRow).size
    let len := if len > E.screenColumns then E.screenColumns else len
    appendToBuffer buf (rowAt E fileRow).chars len

/-- The whole body of the loop of `editorDrawRows` for screen row `y`: the
content, then `ESC[K`, then `"\r\n"` unless the row is the last. -/
def drawRow (E : editorState) (y : Int) (buf : List Int) : List Int :=
  let buf1 := drawRowContent E y buf
  let buf2 := appendToBuffer buf1 [27, 91, 75] 3
  if y < E.screenRows - 1 then appendToBuffer buf2 [13, 10] 2 else buf2

/-- The loop `for (y = ...; y < E.screenRows; y++)` with `n` rounds to go. -/
def drawRowsFrom (E : editorState) : Nat → Int → List Int → List Int
  | 0, _, buf => buf
  | n + 1, y, buf => drawRowsFrom E n (y + 1) (drawRow E y buf)

/-- The function `editorDrawRows`. -/
def editorDrawRows (E : editorState) (buf : List Int) : List Int :=
  drawRowsFrom E E.screenRows.toNat 0 buf

/-- The function `editorRefreshScreen`: the state after `editorScroll` and the
payloads of the `write` calls made, in order. -/
def editorRefreshScreen (E : editorState) : editorState × List (List Int) :=
  let E1 := editorScroll E
  let buf := appendToBuffer [] [27, 91, 63, 50, 53, 108] 6
  let buf := appendToBuffer buf [27, 91, 72] 3
  let buf := editorDrawRows E1 buf
  let cursorPosition := snprintf 32
    ([27, 91] ++ fmtInt (E1.cursorY - E1.rowOffset + 1) ++ [59] ++ fmtInt (E1.cursorX + 1) ++ [72])
  let buf := appendToBuffer buf cursorPosition (strlen cursorPosition)
  let buf := appendToBuffer buf [27, 91, 63, 50, 53, 104] 6
  (E1, [buf])

/-- The loop `while (padding--) appendToBuffer(buf, " ", 1)` with its faults. -/
def appendSpacesRun : Nat → List Int → Option (List Int)
  | 0, buf => some buf
  | n + 1, buf => (appendToBufferRun buf [32] 1).bind (appendSpacesRun n)

/-- The first part of the body of the loop of `editorDrawRows` with its
faults: as `drawRowContent`, each call of `appendToBuffer` being one that can
fail, and the read `E.rows[fileRow]` failing outside the array. -/
def drawRowContentRun (E : editorState) (y : Int) (buf : List Int) : Option (List Int) :=
  let fileRow := y + E.rowOffset
  if fileRow ≥ E.totalRows then
    if E.totalRows = 0 ∧ y = E.screenRows.tdiv 3 then
      let welcome := snprintf 80 (welcomeFormat ++ KILO_VERSION)
      let welcomelen : Int := ((welcomeFormat ++ KILO_VERSION).length : Int)
      let welcomelen := if welcomelen > E.screenColumns then E.screenColumns else welcomelen
      let padding := (E.screenColumns - welcomelen).tdiv 2
      let buf1 := if padding ≠ 0 then appendToBufferRun buf [126] 1 else some buf
      let padding1 := if padding ≠ 0 then padding - 1 else padding
      (buf1.bind (appendSpacesRun (whileCount padding1))).bind
        (fun buf2 => appendToBufferRun buf2 welcome welcomelen)
    else appendToBufferRun buf [126] 1
  else
    if 0 ≤ fileRow ∧ fileRow.toNat < E.rows.length then
      let len := (rowAt E fileRow).size
      let len := if len > E.screenColumns then E.screenColumns else len
      appendToBufferRun buf (rowAt E fileRow).chars len
    else none

/-- The whole body of the loop of `editorDrawRows` with its faults. -/
def drawRowRun (E : editorState) (y : Int) (buf : List Int) : Option (List Int) :=
  ((drawRowContentRun E y buf).bind (fun buf1 => appendToBufferRun buf1 [27, 91, 75] 3)).bind
    (fun buf2 => if y < E.screenRows - 1 then appendToBufferRun buf2 [13, 10] 2 else some buf2)

/-- The loop of `editorDrawRows` with `n` rounds to go, with its faults. -/
def drawRowsFromRun (E : editorState) : Nat → Int → List Int → Option (List Int)
  | 0, _, buf => some buf
  | n + 1, y, buf => (drawRowRun E y buf).bind (drawRowsFromRun E n (y + 1))

/-- The function `editorDrawRows` with its faults. -/
def editorDrawRowsRun (E : editorState) (buf : List Int) : Option (List Int) :=
  drawRowsFromRun E E.screenRows.toNat 0 buf

/-- The function `editorRefreshScreen` with its faults: the state after
`editorScroll` and the payloads of the `write` calls made, or nothing when the
process is killed while the buffer is assembled, which is before the `write`. -/
def editorRefreshScreenRun (E : editorState) : Option (editorState × List (List Int)) :=
  let E1 := editorScroll E
  (appendToBufferRun [] [27, 91, 63, 50, 53, 108] 6).bind fun buf =>
  (appendToBufferRun buf [27, 91, 72] 3).bind fun buf =>
  (editorDrawRowsRun E1 buf).bind fun buf =>
  let cursorPosition := snprintf 32
    ([27, 91] ++ fmtInt (E1.cursorY - E1.rowOffset + 1) ++ [59] ++ fmtInt (E1.cursorX + 1) ++ [72])
  (appendToBufferRun buf cursorPosition (strlen cursorPosition)).bind fun buf =>
  (appendToBufferRun buf [27, 91, 63, 50, 53, 104] 6).bind fun buf =>
  some (E1, [buf])

/-! ## Input -/

/-- The function `editorMoveCursor`. -/
def editorMoveCursor (key : Int) (E : editorState) : editorState :=
  if key = ARROW_LEFT then
    if E.cursorX ≠ 0 then { E with cursorX := E.cursorX - 1 } else E
  else if key = ARROW_RIGHT then
    if E.cursorX ≠ E.screenColumns - 1 then { E with cursorX := E.cursorX + 1 } else E
  else if key = ARROW_UP then
    if E.cursorY ≠ 0 then { E with cursorY := E.cursorY - 1 } else E
  else if key = ARROW_DOWN then
    if E.cursorY ≠ E.totalRows then { E with cursorY := E.cursorY + 1 } else E
  else E

/-- The loop `while (times--) editorMoveCursor(key)`, for `n` rounds. -/
def moveTimes (key : Int) : Nat → editorState → editorState
  | 0, E => E
  | n + 1, E => moveTimes key n (editorMoveCursor key E)

/-- Result of `editorProcessKeypress`. -/
inductive StepResult where
  /-- The function returned to the main loop. -/
  | running (E : editorState) (rest : List ReadResult)
  /-- The process ended. -/
  | exited (x : Exit)
  /-- The function never returns: no key arrives. -/
  | waiting
deriving DecidableEq, Repr

/-- The `switch (c)` of `editorProcessKeypress` on the key `c` just read. -/
def processKey (c : Int) (E : editorState) (rest : List ReadResult) : StepResult :=
  if c = CTRL_KEY 113 then
    .exited { writes := (editorRefreshScreen E).2, diagnostic := none, status := 0 }
  else if c = HOME_KEY then .running { E with cursorX := 0 } rest
  else if c = END_KEY then .running { E with cursorX := E.screenColumns - 1 } rest
  else if c = PAGE_UP ∨ c = PAGE_DOWN then
    .running (moveTimes (if c = PAGE_UP then ARROW_UP else ARROW_DOWN)
      (whileCount E.screenRows) E) rest
  else if c = ARROW_UP ∨ c = ARROW_DOWN ∨ c = ARROW_LEFT ∨ c = ARROW_RIGHT then
    .running (editorMoveCursor c E) rest
  else .running E rest

/-- The function `editorProcessKeypress`. -/
def editorProcessKeypress (input : List ReadResult) (E : editorState) : StepResult :=
  match editorReadKey input with
  | .key c rest => processKey c E rest
  | .died x => .exited x
  | .waiting => .waiting

/-! ## Init -/

/-- The function `initEditor`; `size` is what `getWindowSize` reports, nothing
when it returns -1. -/
def initEditor (E : editorState) (size : Option (Int × Int)) : Except Exit editorState :=
  match size with
  | none => .error (die "getWindowSize")
  | some (r, c) =>
    .ok { E with cursorX := 0, cursorY := 0, rowOffset := 0, totalRows := 0, rows := [],
                 screenRows := r, screenColumns := c }

/-- A terminal configuration, for examples. -/
def someTermios : termios :=
  { c_iflag := 0, c_oflag := 0, c_cflag := 0, c_lflag := 0, vmin := 0, vtime := 0 }

/-- The editor state right after `initEditor` on a terminal of `r` rows and `c` columns. -/
def startState (r c : Int) : editorState :=
  { cursorX := 0, cursorY := 0, rowOffset := 0, screenRows := r, screenColumns := c,
    totalRows := 0, rows := [], originalTermios := someTermios }

/-- A state with the two-row document "a", "hello" on a 3 by 3 screen, scrolled
down by one row. -/
def twoRowState : editorState :=
  { cursorX := 0, cursorY := 1, rowOffset := 1, screenRows := 3, screenColumns := 3,
    totalRows := 2, rows := [⟨1, [97]⟩, ⟨5, [104, 101, 108, 108, 111]⟩],
    originalTermios := someTermios }

/-! ## Lines of a file (from the specification) -/

/-- A line-ending byte, `'\n'` or `'\r'`. -/
def isEol (c : Int) : Bool := c = 10 || c = 13

/-- A line with every trailing `'\n'` and `'\r'` byte removed. -/
def stripEol (line : List Int) : List Int := line.rdropWhile isEol

/-- The document row the specification makes of a line: its bytes without the
trailing line-ending bytes, and their count. -/
def lineRow (line : List Int) : row :=
  { size := ((stripEol line).length : Int), chars := stripEol line }

/-- The list `lines` is the division of `content` into lines delimited by
`'\n'`: the lines are not empty and in order make up the content, a line has no
`'\n'` before its last byte, and every line but the last ends with `'\n'`. -/
def IsLines (content : List Int) (lines : List (List Int)) : Prop :=
  lines.flatten = content ∧
  (∀ l ∈ lines, l ≠ [] ∧ 10 ∉ l.dropLast) ∧
  (∀ l ∈ lines.dropLast, l.getLast? = some 10)

/-! ## Decimal numerals (from the specification) -/

/-- The number a string of decimal digit characters stands for. -/
def digitsValue (ds : List Int) : Nat :=
  ds.foldl (fun a c => 10 * a + (c - 48).toNat) 0

/-- The integer a decimal numeral with an optional leading `'-'` stands for. -/
def decimalValue (s : List Int) : Int :=
  if s.head? = some 45 then -((digitsValue s.tail : Nat) : Int) else ((digitsValue s : Nat) : Int)

/-! ## Welcome line (from the specification) -/

/-- The welcome text truncated to the screen width. -/
def welcomeText (cols : Int) : List Int := (welcomeFormat ++ KILO_VERSION).take cols.toNat

/-- The left padding of the welcome line, `(screenColumns - textLen) / 2`. -/
def welcomePadding (cols : Int) : Int := (cols - ((welcomeText cols).length : Int)) / 2

/-- The welcome line: with positive padding one `'~'`, `padding - 1` spaces and
the text; else the text alone. -/
def welcomeLine (cols : Int) : List Int :=
  if 0 < welcomePadding cols then
    [126] ++ List.replicate (welcomePadding cols - 1).toNat 32 ++ welcomeText cols
  else welcomeText cols

/-! ## Type invariant -/

/-- The `int` fields of the editor state hold 32-bit values. -/
def int32Fields (E : editorState) : Prop :=
  isInt32 E.cursorX ∧ isInt32 E.cursorY ∧ isInt32 E.rowOffset ∧ isInt32 E.screenRows ∧
  isInt32 E.screenColumns ∧ isInt32 E.totalRows

instance (E : editorState) : Decidable (int32Fields E) := by unfold int32Fields; infer_instance

/-! ## Invariants named by the specification -/

/-- The viewport invariant: the cursor row is inside the visible window. -/
def inWindow (E : editorState) : Prop :=
  E.rowOffset ≤ E.cursorY ∧ E.cursorY < E.rowOffset + E.screenRows

instance (E : editorState) : Decidable (inWindow E) := by unfold inWindow; infer_instance

/-- The cursor bounds: column in `[0, screenColumns-1]`, row in `[0, totalRows]`. -/
def cursorInBounds (E : editorState) : Prop :=
  0 ≤ E.cursorX ∧ E.cursorX ≤ E.screenColumns - 1 ∧ 0 ≤ E.cursorY ∧ E.cursorY ≤ E.totalRows

instance (E : editorState) : Decidable (cursorInBounds E) := by
  unfold cursorInBounds; infer_instance

/-! ## Window size -/

/-- Outcome of a size probe (`getCursorPosition`, `getWindowSize`): the value
returned, the values of `*rows` and `*cols` afterwards, the input left, and
the payloads written in full to standard output. -/
structure Probe where
  ret : Int
  rows : Int
  cols : Int
  rest : List ReadResult
  writes : List (List Int)
deriving DecidableEq, Repr

/-- The loop of `getCursorPosition`, with room for `n` more bytes in `buf`:
each round reads one byte into `buf[i]` and stops when the read does not
deliver a byte or the byte is `'R'`.  Gives the bytes kept in `buf[0..i)` and
the input left. -/
def readReply : Nat → List ReadResult → List Int × List ReadResult
  | 0, input => ([], input)
  | n + 1, input =>
    match readSeq input with
    | (none, rest) => ([], rest)
    | (some c, rest) =>
      if c = 82 then ([], rest) else (c :: (readReply n rest).1, (readReply n rest).2)

/-- White space for `scanf`: space, and tab to carriage return. -/
def isSpace (c : Int) : Bool := c = 32 || (9 ≤ c && c ≤ 13)

/-- A decimal digit character. -/
def isDigit (c : Int) : Bool := 48 ≤ c && c ≤ 57

/-- The digits at the head of a string, accumulated into `acc`, and the rest
of the string. -/
def scanDigits : List Int → Nat → Nat × List Int
  | [], acc => (acc, [])
  | c :: cs, acc =>
    if isDigit c then scanDigits cs (10 * acc + (c - 48).toNat) else (acc, c :: cs)

/-- What `%d` of `scanf` stores in the `int` for a number read as `v`.  The C
library converts the digits as `strtol` does, which stops at the ends of the
range of `long` (64 bits), and assigns the result to the `int`, which keeps
the low 32 bits: a number in the range of `int` is stored as it is, and
99999999999 is stored as 1215752191.  (The C standard leaves the conversion
of a number that does not fit undefined; this is what the GNU C library
does.) -/
def storeInt (v : Int) : Int :=
  let l := if v < -9223372036854775808 then -9223372036854775808
           else if v > 9223372036854775807 then 9223372036854775807 else v
  (l + 2147483648) % 4294967296 - 2147483648

/-- The conversion `%d` of `scanf`: white space is skipped, then an optional
sign and at least one digit are read.  Gives the value stored in the `int`
and the rest of the string, or nothing when no number is there. -/
def scanInt (s : List Int) : Option (Int × List Int) :=
  let s1 := s.dropWhile isSpace
  let neg := s1.head? = some 45
  let s2 := if s1.head? = some 45 ∨ s1.head? = some 43 then s1.tail else s1
  if s2.head?.all isDigit ∧ s2 ≠ [] then
    some (storeInt (if neg then -((scanDigits s2 0).1 : Int) else ((scanDigits s2 0).1 : Int)),
      (scanDigits s2 0).2)
  else none

/-- The library call `sscanf(s, "%d;%d", rows, cols)`: the value returned (the
number of conversions made, or EOF, -1, when the string ends before the first)
and the values of `*rows` and `*cols` afterwards. -/
def sscanf2 (s : List Int) (rows cols : Int) : Int × Int × Int :=
  match scanInt s with
  | none => (if s.dropWhile isSpace = [] then -1 else 0, rows, cols)
  | some (r, s1) =>
    if s1.head? = some 59 then
      match scanInt s1.tail with
      | none => (1, r, cols)
      | some (c, _) => (2, r, c)
    else (1, r, cols)

/-- The function `getCursorPosition`; `queryOk` tells whether the `write` of
`ESC[6n` returns 4.  The array `buf` has 32 bytes, so the loop stores at most
31 and the terminating NUL goes to `buf[i]`. -/
def getCursorPosition (queryOk : Bool) (input : List ReadResult) (rows cols : Int) : Probe :=
  if queryOk = false then
    { ret := -1, rows := rows, cols := cols, rest := input, writes := [] }
  else
    let buf := (readReply 31 input).1
    let rest := (readReply 31 input).2
    if buf.getD 0 0 ≠ 27 ∨ buf.getD 1 0 ≠ 91 then
      { ret := -1, rows := rows, cols := cols, rest := rest, writes := [[27, 91, 54, 110]] }
    else
      let r := sscanf2 ((buf.drop 2).takeWhile (fun c => c ≠ 0)) rows cols
      { ret := if r.1 ≠ 2 then -1 else 0, rows := r.2.1, cols := r.2.2, rest := rest,
        writes := [[27, 91, 54, 110]] }

/-- The function `getWindowSize`; `ioctl` is what `ioctl(TIOCGWINSZ)` reports
(`ws_row`, `ws_col`), nothing when it returns -1; `moveOk` tells whether the
`write` of `ESC[999C ESC[999B` returns 12. -/
def getWindowSize (ioctl : Option (Nat × Nat)) (moveOk queryOk : Bool)
    (input : List ReadResult) (rows cols : Int) : Probe :=
  if ioctl.all (fun ws => ws.2 = 0) then
    if moveOk = false then
      { ret := -1, rows := rows, cols := cols, rest := input, writes := [] }
    else
      let p := getCursorPosition queryOk input rows cols
      { p with writes := [27, 91, 57, 57, 57, 67, 27, 91, 57, 57, 57, 66] :: p.writes }
  else
    { ret := 0, rows := ((ioctl.getD (0, 0)).1 : Int), cols := ((ioctl.getD (0, 0)).2 : Int),
      rest := input, writes := [] }

/-! ## Raw mode and the end of the process -/

/-- Input flag `IXON` of `termios.h` (Linux). -/
def IXON : Nat := 1024
/-- Input flag `ICRNL`. -/
def ICRNL : Nat := 256
/-- Input flag `BRKINT`. -/
def BRKINT : Nat := 2
/-- Input flag `INPCK`. -/
def INPCK : Nat := 16
/-- Input flag `ISTRIP`. -/
def ISTRIP : Nat := 32
/-- Output flag `OPOST`. -/
def OPOST : Nat := 1
/-- Control flag `CS8`. -/
def CS8 : Nat := 48
/-- Local flag `ECHO`. -/
def ECHO : Nat := 8
/-- Local flag `ICANON`. -/
def ICANON : Nat := 2
/-- Local flag `ISIG`. -/
def ISIG : Nat := 1
/-- Local flag `IEXTEN`. -/
def IEXTEN : Nat := 32768

/-- The operation `flags &= ~(mask)` on a 32-bit `tcflag_t`. -/
def clearFlags (flags mask : Nat) : Nat := flags &&& (4294967295 - mask)

/-- The attributes `raw` that `enableRawMode` builds from the saved ones. -/
def rawAttrs (t : termios) : termios :=
  { c_iflag := clearFlags t.c_iflag (IXON ||| ICRNL ||| BRKINT ||| INPCK ||| ISTRIP),
    c_oflag := clearFlags t.c_oflag OPOST,
    c_cflag := t.c_cflag ||| CS8,
    c_lflag := clearFlags t.c_lflag (ECHO ||| ICANON ||| ISIG ||| IEXTEN),
    vmin := 0,
    vtime := 1 }

/-- Something the process does that can be seen from outside. -/
inductive Event where
  /-- A `write` to standard output with this payload. -/
  | write (payload : List Int)
  /-- A call of `perror` with this label. -/
  | perror (label : String)
  /-- A call `tcsetattr(STDIN_FILENO, TCSAFLUSH, attrs)` and whether it succeeded. -/
  | tcsetattr (attrs : termios) (ok : Bool)
  /-- A call of `exit` with this status. -/
  | exit (status : Int)
deriving DecidableEq, Repr

/-- What `enableRawMode` leaves behind: the editor state, the attributes of the
terminal, whether `disableRawMode` is registered with `atexit`, the events of
the function before it returns or calls `die` (its `tcsetattr`, if it gets
that far), and the fatal exit if the function called `die`. -/
structure RawMode where
  E : editorState
  tty : termios
  hooked : Bool
  events : List Event
  fatal : Option Exit
deriving DecidableEq, Repr

/-- The function `enableRawMode` on a terminal with the attributes `tty`;
`getOk` and `setOk` tell whether `tcgetattr` and `tcsetattr` succeed. -/
def enableRawMode (E : editorState) (tty : termios) (getOk setOk : Bool) : RawMode :=
  if getOk = false then
    { E := E, tty := tty, hooked := false, events := [], fatal := some (die "tcgetattr") }
  else if setOk = false then
    { E := { E with originalTermios := tty }, tty := tty, hooked := true,
      events := [.tcsetattr (rawAttrs tty) false], fatal := some (die "tcsetattr") }
  else
    { E := { E with originalTermios := tty }, tty := rawAttrs tty, hooked := true,
      events := [.tcsetattr (rawAttrs tty) true], fatal := none }

/-- The function `disableRawMode`; `ok` tells whether `tcsetattr` succeeds.
Gives the attributes the terminal is set to, or the fatal exit. -/
def disableRawMode (E : editorState) (ok : Bool) : Except Exit termios :=
  if ok = false then .error (die "tcsetattr") else .ok E.originalTermios

/-- The events recorded in an `Exit`, in the order they happen: the writes, the
report if any, the call of `exit`. -/
def exitEvents (x : Exit) : List Event :=
  x.writes.map Event.write ++
    (match x.diagnostic with
     | some s => [Event.perror s]
     | none => []) ++ [Event.exit x.status]

/-- The process once it has ended: all its events in order, the attributes the
terminal is left with, and the exit status. -/
structure Ended where
  events : List Event
  tty : termios
  status : Int
deriving DecidableEq, Repr

/-- The library call `exit` reached through `x` after the events `before`: the
handlers registered with `atexit` run, here `disableRawMode` when `hooked`,
and the process ends.  When the handler itself calls `die`, `exit` is entered
a second time, which the C standard leaves undefined; the C library then ends
the process with the later status, and so does the model. -/
def runExit (E : editorState) (hooked restoreOk : Bool) (tty : termios)
    (before : List Event) (x : Exit) : Ended :=
  if hooked = false then
    { events := before ++ exitEvents x, tty := tty, status := x.status }
  else
    match disableRawMode E restoreOk with
    | .ok t =>
      { events := before ++ exitEvents x ++ [Event.tcsetattr t true], tty := t,
        status := x.status }
    | .error y =>
      { events := before ++ exitEvents x ++ [Event.tcsetattr E.originalTermios false] ++
          exitEvents y,
        tty := tty, status := y.status }

/-! ## Main -/

/-- The editor state in which `editorProcessKeypress` leaves the process when
it does not return: the state after the last `editorRefreshScreen` on the quit
key, the state as it was when `editorReadKey` called `die`. -/
def lastState (input : List ReadResult) (E : editorState) : editorState :=
  match editorReadKey input with
  | .key c _ => if c = CTRL_KEY 113 then (editorRefreshScreen E).1 else E
  | .died _ => E
  | .waiting => E

/-- The loop `while (1) { editorRefreshScreen(); editorProcessKeypress(); }` of
`main`, run for at most `n` rounds: the frames written, the editor state
reached, and how the last round ended (`running` when all `n` rounds returned
to the loop).  The rendering is the total one; `runLoop` is the loop with the
faults of the rendering. -/
def mainLoop : Nat → List ReadResult → editorState →
    List (List Int) × editorState × StepResult
  | 0, input, E => ([], E, .running E input)
  | n + 1, input, E =>
    match editorProcessKeypress input (editorRefreshScreen E).1 with
    | .running E2 rest =>
      ((editorRefreshScreen E).2 ++ (mainLoop n rest E2).1, (mainLoop n rest E2).2.1,
        (mainLoop n rest E2).2.2)
    | .exited x =>
      ((editorRefreshScreen E).2, lastState input (editorRefreshScreen E).1, .exited x)
    | .waiting => ((editorRefreshScreen E).2, (editorRefreshScreen E).1, .waiting)

/-- Whether the process survives the `editorRefreshScreen` that
`editorProcessKeypress` calls: only the quit key draws. -/
def keypressDefined (input : List ReadResult) (E : editorState) : Prop :=
  match editorReadKey input with
  | .key c _ => c = CTRL_KEY 113 → (editorRefreshScreenRun E).isSome = true
  | .died _ => True
  | .waiting => True

instance (input : List ReadResult) (E : editorState) : Decidable (keypressDefined input E) := by
  unfold keypressDefined
  split <;> infer_instance

/-- How a run of the main loop stands: stopped, with the frames written, the
editor state reached and the way the last round ended (as `mainLoop` gives
them), or killed in a call of `editorRefreshScreen`, with the frames written
before it. -/
inductive LoopRun where
  | stopped (frames : List (List Int)) (E : editorState) (r : StepResult)
  | killed (frames : List (List Int))
deriving DecidableEq, Repr

/-- The loop of `main` with the faults of the rendering, run for at most `n`
rounds.  A round is killed in its own `editorRefreshScreen`, before the frame
is written, or in the one called on the quit key, after it. -/
def runLoop : Nat → List ReadResult → editorState → LoopRun
  | 0, input, E => .stopped [] E (.running E input)
  | n + 1, input, E =>
    match editorRefreshScreenRun E with
    | none => .killed []
    | some (E1, frames) =>
      if ¬ keypressDefined input E1 then .killed frames
      else
        match editorProcessKeypress input E1 with
        | .running E2 rest =>
          match runLoop n rest E2 with
          | .stopped more Elast r => .stopped (frames ++ more) Elast r
          | .killed more => .killed (frames ++ more)
        | .exited x => .stopped frames (lastState input E1) (.exited x)
        | .waiting => .stopped frames E1 .waiting

/-- How a run of the program stands after at most so many rounds of its loop. -/
inductive Run where
  /-- The process has ended through `exit`. -/
  | ended (e : Ended)
  /-- The process did not survive a call of `editorRefreshScreen` (it was
  killed while the buffer was assembled): its events so far and the attributes
  the terminal is left with. -/
  | killed (events : List Event) (tty : termios)
  /-- The process is still in its loop, or waits for a key that never comes. -/
  | unfinished
deriving DecidableEq, Repr

/-- The part of `main` between `enableRawMode` and the loop: `initEditor`,
then `editorOpen(argv[1])` when there is an argument.  `arg` is nothing when
`argc < 2`, else what `fopen` finds for `argv[1]`. -/
def setup (E : editorState) (size : Option (Int × Int)) (arg : Option (Option (List Int))) :
    Except Exit editorState :=
  match initEditor E size with
  | .error x => .error x
  | .ok E1 =>
    match arg with
    | none => .ok E1
    | some file => editorOpen file E1

/-- The surroundings of one run of the program. -/
structure Env where
  /-- The attributes of the terminal when the program starts. -/
  tty : termios
  /-- Whether `tcgetattr` succeeds. -/
  getOk : Bool
  /-- Whether the `tcsetattr` of `enableRawMode` succeeds. -/
  rawOk : Bool
  /-- Whether the `tcsetattr` of `disableRawMode` succeeds. -/
  restoreOk : Bool
  /-- What `ioctl(TIOCGWINSZ)` reports, nothing when it fails. -/
  ioctl : Option (Nat × Nat)
  /-- Whether the `write` of `ESC[999C ESC[999B` is complete. -/
  moveOk : Bool
  /-- Whether the `write` of `ESC[6n` is complete. -/
  queryOk : Bool
  /-- Nothing when `argc < 2`, else what `fopen(argv[1])` finds. -/
  arg : Option (Option (List Int))
  /-- The results of the reads on standard input. -/
  input : List ReadResult
deriving DecidableEq, Repr

/-- The global `E` before `main` runs: all zero. -/
def zeroState : editorState :=
  { cursorX := 0, cursorY := 0, rowOffset := 0, screenRows := 0, screenColumns := 0,
    totalRows := 0, rows := [],
    originalTermios :=
      { c_iflag := 0, c_oflag := 0, c_cflag := 0, c_lflag := 0, vmin := 0, vtime := 0 } }

/-- The function `main` with its loop run for at most `fuel` rounds. -/
def main (fuel : Nat) (env : Env) : Run :=
  let m := enableRawMode zeroState env.tty env.getOk env.rawOk
  match m.fatal with
  | some x => .ended (runExit m.E m.hooked env.restoreOk m.tty m.events x)
  | none =>
    let p := getWindowSize env.ioctl env.moveOk env.queryOk env.input m.E.screenRows
      m.E.screenColumns
    let before := m.events ++ p.writes.map Event.write
    match setup m.E (if p.ret = -1 then none else some (p.rows, p.cols)) env.arg with
    | .error x => .ended (runExit m.E m.hooked env.restoreOk m.tty before x)
    | .ok E2 =>
      match runLoop fuel p.rest E2 with
      | .killed frames => .killed (before ++ frames.map Event.write) m.tty
      | .stopped frames Elast (.exited x) =>
        .ended (runExit Elast m.hooked env.restoreOk m.tty (before ++ frames.map Event.write) x)
      | .stopped _ _ (.running _ _) => .unfinished
      | .stopped _ _ .waiting => .unfinished

/-- A run on a terminal of one row and four columns in which the first read of
the main loop fails with errno 5. -/
def readErrorEnv : Env :=
  { tty := { c_iflag := 1280, c_oflag := 5, c_cflag := 191, c_lflag := 35387, vmin := 1,
             vtime := 0 },
    getOk := true, rawOk := true, restoreOk := true, ioctl := some (1, 4), moveOk := true,
    queryOk := true, arg := none, input := [.failed 5] }

/-- How the run `readErrorEnv` ends: raw mode is set, one frame is written, the
read fails, `die("read")` clears the screen, reports and calls `exit(1)`, and
only then the handler restores the attributes. -/
def readErrorEnd : Ended :=
  { events :=
      [ .tcsetattr { c_iflag := 0, c_oflag := 4, c_cflag := 191, c_lflag := 2608, vmin := 0,
                     vtime := 1 } true,
        .write [27, 91, 63, 50, 53, 108, 27, 91, 72, 107, 105, 108, 111, 27, 91, 75,
                27, 91, 49, 59, 49, 72, 27, 91, 63, 50, 53, 104],
        .write [27, 91, 50, 74],
        .write [27, 91, 72],
        .perror "read",
        .exit 1,
        .tcsetattr { c_iflag := 1280, c_oflag := 5, c_cflag := 191, c_lflag := 35387, vmin := 1,
                     vtime := 0 } true ],
    tty := { c_iflag := 1280, c_oflag := 5, c_cflag := 191, c_lflag := 35387, vmin := 1,
             vtime := 0 },
    status := 1 }

/-- A run in which the `tcsetattr` of `enableRawMode` fails. -/
def rawFailEnv : Env :=
  { tty := { c_iflag := 1280, c_oflag := 5, c_cflag := 191, c_lflag := 35387, vmin := 1,
             vtime := 0 },
    getOk := true, rawOk := false, restoreOk := true, ioctl := some (1, 4), moveOk := true,
    queryOk := true, arg := none, input := [] }

/-- How the run `rawFailEnv` ends: the `tcsetattr` that fails, `die("tcsetattr")`,
and the handler setting the attributes the terminal still has. -/
def rawFailEnd : Ended :=
  { events :=
      [ .tcsetattr { c_iflag := 0, c_oflag := 4, c_cflag := 191, c_lflag := 2608, vmin := 0,
                     vtime := 1 } false,
        .write [27, 91, 50, 74],
        .write [27, 91, 72],
        .perror "tcsetattr",
        .exit 1,
        .tcsetattr { c_iflag := 1280, c_oflag := 5, c_cflag := 191, c_lflag := 35387, vmin := 1,
                     vtime := 0 } true ],
    tty := { c_iflag := 1280, c_oflag := 5, c_cflag := 191, c_lflag := 35387, vmin := 1,
             vtime := 0 },
    status := 1 }

/-- A run in which `ioctl` fails and the terminal answers the cursor position
query with `ESC [ 5 ; - 3 R`: five rows and -3 columns. -/
def negativeColumnsEnv : Env :=
  { tty := { c_iflag := 1280, c_oflag := 5, c_cflag := 191, c_lflag := 35387, vmin := 1,
             vtime := 0 },
    getOk := true, rawOk := true, restoreOk := true, ioctl := none, moveOk := true,
    queryOk := true, arg := none,
    input := [.byte 27, .byte 91, .byte 53, .byte 59, .byte 45, .byte 51, .byte 82] }

/-- The editor state with which the run `negativeColumnsEnv` enters its loop. -/
def negativeColumnsState : editorState :=
  { cursorX := 0, cursorY := 0, rowOffset := 0, screenRows := 5, screenColumns := -3,
    totalRows := 0, rows := [],
    originalTermios := { c_iflag := 1280, c_oflag := 5, c_cflag := 191, c_lflag := 35387,
                         vmin := 1, vtime := 0 } }

/-! ## Reply to the cursor position query (from the specification) -/

/-- The reply `ESC [ rows ; cols R` whose numbers are written with the digit
strings `ds1` and `ds2`. -/
def dsrReply (ds1 ds2 : List Int) : List Int := [27, 91] ++ ds1 ++ [59] ++ ds2 ++ [82]

/-- A digit string: not empty and made of decimal digits only. -/
def isNumeral (ds : List Int) : Prop := ds ≠ [] ∧ ∀ c ∈ ds, 48 ≤ c ∧ c ≤ 57

/-- The text begins with an integer in the sense of `%d`: white space, an
optional sign, at least one digit. -/
def beginsInt (s tail : List Int) : Prop :=
  ∃ ws sign ds, s = ws ++ sign ++ ds ++ tail ∧ (∀ c ∈ ws, isSpace c = true) ∧
    (sign = [] ∨ sign = [45] ∨ sign = [43]) ∧ isNumeral ds

/-- The text holds two integers separated by `';'` at its head. -/
def twoInts (s : List Int) : Prop :=
  ∃ t1 t2, beginsInt s (59 :: t1) ∧ beginsInt t1 t2

/-- A state of the program started on a screen of 2 rows and 3 columns with the
four-row document "a", "b", "c", "d". -/
def fourRowState (cursorY rowOffset : Int) : editorState :=
  { cursorX := 0, cursorY := cursorY, rowOffset := rowOffset, screenRows := 2,
    screenColumns := 3, totalRows := 4,
    rows := [⟨1, [97]⟩, ⟨1, [98]⟩, ⟨1, [99]⟩, ⟨1, [100]⟩],
    originalTermios := zeroState.originalTermios }

/-! ## Invariants of the main loop -/

/-- A row array as `editorAppendRow` builds it: `totalRows` rows, each with
its `size` bytes. -/
def rowsValid (E : editorState) : Prop :=
  (E.rows.length : Int) = E.totalRows ∧ ∀ r ∈ E.rows, r.size = (r.chars.length : Int)

instance (E : editorState) : Decidable (rowsValid E) := by
  unfold rowsValid; infer_instance

/-- What keeps the rendering inside what C defines: a number of columns that
is not negative, a row array as `editorAppendRow` builds it, and an offset and
a cursor row that are not negative. -/
def drawValid (E : editorState) : Prop :=
  0 ≤ E.screenColumns ∧ rowsValid E ∧ 0 ≤ E.rowOffset ∧ 0 ≤ E.cursorY

instance (E : editorState) : Decidable (drawValid E) := by
  unfold drawValid; infer_instance

/-- The bounds on the scroll offset and the cursor row: both in `[0, totalRows]`. -/
def viewInvariant (E : editorState) : Prop :=
  0 ≤ E.rowOffset ∧ E.rowOffset ≤ E.totalRows ∧ 0 ≤ E.cursorY ∧ E.cursorY ≤ E.totalRows

instance (E : editorState) : Decidable (viewInvariant E) := by
  unfold viewInvariant; infer_instance

/-- What holds of every state of the main loop: the bounds on the offset and on
the cursor, a screen of at least one row and one column, and a row array of
`totalRows` elements. -/
def loopInvariant (E : editorState) : Prop :=
  viewInvariant E ∧ cursorInBounds E ∧ 1 ≤ E.screenRows ∧ 1 ≤ E.screenColumns ∧
  (E.rows.length : Int) = E.totalRows

/-! ## Keys and input counts named by the specification -/

/-- The keys `editorProcessKeypress` acts on: the quit key, HOME, END, the two
page keys and the four arrows. -/
def actionKeys : List Int :=
  [CTRL_KEY 113, HOME_KEY, END_KEY, PAGE_UP, PAGE_DOWN, ARROW_UP, ARROW_DOWN, ARROW_LEFT,
   ARROW_RIGHT]

/-- The number of bytes among the results of a run of `read` calls. -/
def byteCount : List ReadResult → Nat
  | [] => 0
  | .byte _ :: rest => byteCount rest + 1
  | .timeout :: rest => byteCount rest
  | .failed _ :: rest => byteCount rest

/-! ## Key decoding: lemmas -/

theorem tableKey_esc (s0 s1 : Int) (tl : List Int) :
    tableKey (27 :: s0 :: s1 :: tl) =
      if s0 = 91 then
        if 48 ≤ s1 ∧ s1 ≤ 57 then
          (if tl.head? = some 126 then tildeKey s1 else ESC)
        else bracketKey s1
      else if s0 = 79 then oKey s1 else ESC := by
  by_cases h0 : s0 = 91
  · subst h0
    by_cases hd : 48 ≤ s1 ∧ s1 ≤ 57
    · obtain ⟨hlo, hhi⟩ := hd
      rcases tl with _ | ⟨s2, tl⟩
      · interval_cases s1 <;> simp [tableKey, keyTable, beginsWith, ESC, tildeKey]
      · by_cases h2 : s2 = 126
        · subst h2
          interval_cases s1 <;> simp [tableKey, keyTable, beginsWith, ESC, tildeKey]
        · interval_cases s1 <;> simp [tableKey, keyTable, beginsWith, ESC, tildeKey, h2]
    · have h49 : s1 ≠ 49 := fun h => hd (by omega)
      have h51 : s1 ≠ 51 := fun h => hd (by omega)
      have h52 : s1 ≠ 52 := fun h => hd (by omega)
      have h53 : s1 ≠ 53 := fun h => hd (by omega)
      have h54 : s1 ≠ 54 := fun h => hd (by omega)
      have h55 : s1 ≠ 55 := fun h => hd (by omega)
      have h56 : s1 ≠ 56 := fun h => hd (by omega)
      rw [if_pos rfl, if_neg hd]
      by_cases hA : s1 = 65
      · subst hA; simp [tableKey, keyTable, beginsWith, ESC, bracketKey]
      by_cases hB : s1 = 66
      · subst hB; simp [tableKey, keyTable, beginsWith, ESC, bracketKey]
      by_cases hC : s1 = 67
      · subst hC; simp [tableKey, keyTable, beginsWith, ESC, bracketKey]
      by_cases hD : s1 = 68
      · subst hD; simp [tableKey, keyTable, beginsWith, ESC, bracketKey]
      by_cases hH : s1 = 72
      · subst hH; simp [tableKey, keyTable, beginsWith, ESC, bracketKey]
      by_cases hF : s1 = 70
      · subst hF; simp [tableKey, keyTable, beginsWith, ESC, bracketKey]
      simp [tableKey, keyTable, beginsWith, ESC, bracketKey, hA, hB, hC, hD, hH, hF, h49, h51,
        h52, h53, h54, h55, h56]
  · rw [if_neg h0]
    by_cases hO : s0 = 79
    · subst hO
      by_cases hH : s1 = 72
      · subst hH; simp [tableKey, keyTable, beginsWith, ESC, oKey]
      by_cases hF : s1 = 70
      · subst hF; simp [tableKey, keyTable, beginsWith, ESC, oKey]
      simp [tableKey, keyTable, beginsWith, ESC, oKey, hH, hF]
    · simp [tableKey, keyTable, beginsWith, ESC, h0, hO]

theorem keyTable_named : ∀ e ∈ keyTable, isNamedKey e.2 := by decide

theorem keyTable_startsEsc (bs : List Int) :
    ∀ e ∈ keyTable, beginsWith e.1 bs = true → bs.headD ESC = ESC := by
  intro e he hb
  rcases bs with _ | ⟨b, bs⟩
  · rfl
  · simp only [keyTable, List.mem_cons, List.mem_singleton, List.not_mem_nil, or_false] at he
    rcases he with h | h | h | h | h | h | h | h | h | h | h | h | h | h | h <;>
      (subst h; simp only [beginsWith, Bool.and_eq_true, decide_eq_true_eq] at hb
       simp [ESC, hb.1])

theorem tableKey_named_iff (bs : List Int) (hchar : isChar (bs.headD ESC)) :
    isNamedKey (tableKey bs) ↔ ∃ e ∈ keyTable, beginsWith e.1 bs = true := by
  unfold tableKey
  by_cases hh : bs.headD ESC = ESC
  · rw [if_neg (by simpa using hh)]
    cases hf : keyTable.find? (fun e => beginsWith e.1 bs) with
    | none =>
      simp only [List.find?_eq_none] at hf
      constructor
      · intro h; exact absurd h (by decide)
      · rintro ⟨e, he, hb⟩; exact absurd hb (hf e he)
    | some e =>
      have hmem := List.mem_of_find?_eq_some hf
      have hp := List.find?_some hf
      exact ⟨fun _ => ⟨e, hmem, hp⟩, fun _ => keyTable_named e hmem⟩
  · rw [if_pos hh]
    constructor
    · intro h
      exfalso
      unfold isNamedKey at h
      unfold isChar at hchar
      omega
    · rintro ⟨e, he, hb⟩
      exact absurd (keyTable_startsEsc bs e he hb) hh

theorem leadingBytes_length_pos {t : List ReadResult} (h : 0 < (leadingBytes t).length) :
    ∃ c t1, t = .byte c :: t1 := by
  rcases t with _ | ⟨r, t1⟩
  · simp [leadingBytes] at h
  · cases r with
    | byte c => exact ⟨c, t1, rfl⟩
    | timeout => simp [leadingBytes] at h
    | failed e => simp [leadingBytes] at h

/-- Decoding when every byte asked for is there: the key is the one of the table. -/
theorem editorReadKey_available (input : List ReadResult) (havail : allAvailable input) :
    ∃ rest, editorReadKey input = .key (tableKey (leadingBytes input)) rest := by
  unfold allAvailable at havail
  obtain ⟨c, t, rfl⟩ := leadingBytes_length_pos (t := input) (by
    have : 1 ≤ bytesAsked (leadingBytes input) := by unfold bytesAsked; split_ifs <;> omega
    omega)
  by_cases hc : c = 27
  · subst hc
    have h3 : 3 ≤ bytesAsked (leadingBytes (.byte 27 :: t)) := by
      simp only [bytesAsked, leadingBytes, List.headD, ESC]
      split_ifs <;> simp_all
    simp only [leadingBytes, List.length_cons] at havail h3
    obtain ⟨s0, t1, rfl⟩ := leadingBytes_length_pos (t := t) (by omega)
    simp only [leadingBytes, List.length_cons] at havail h3
    obtain ⟨s1, t2, rfl⟩ := leadingBytes_length_pos (t := t1) (by omega)
    simp only [leadingBytes, tableKey_esc]
    by_cases h0 : s0 = 91
    · subst h0
      by_cases hd : 48 ≤ s1 ∧ s1 ≤ 57
      · have h4 : bytesAsked (27 :: 91 :: s1 :: leadingBytes t2) = 4 := by
          simp [bytesAsked, ESC, hd]
        simp only [leadingBytes, List.length_cons, h4] at havail
        obtain ⟨s2, t3, rfl⟩ := leadingBytes_length_pos (t := t2) (by omega)
        by_cases h2 : s2 = 126
        · subst h2
          exact ⟨t3, by simp [editorReadKey, waitByte, decodeAfter, readSeq, ESC, hd, leadingBytes]⟩
        · exact ⟨t3, by
            simp [editorReadKey, waitByte, decodeAfter, readSeq, ESC, hd, leadingBytes, h2]⟩
      · exact ⟨t2, by simp [editorReadKey, waitByte, decodeAfter, readSeq, ESC, hd]⟩
    · by_cases hO : s0 = 79
      · subst hO
        exact ⟨t2, by simp [editorReadKey, waitByte, decodeAfter, readSeq, ESC]⟩
      · exact ⟨t2, by simp [editorReadKey, waitByte, decodeAfter, readSeq, ESC, h0, hO]⟩
  · exact ⟨t, by simp [editorReadKey, waitByte, decodeAfter, tableKey, leadingBytes, ESC, hc]⟩

/-- No-data results in front of the input are skipped by the wait loop. -/
theorem waitByte_skip (pre input : List ReadResult)
    (hpre : ∀ r ∈ pre, r = .timeout ∨ r = .failed EAGAIN) :
    waitByte (pre ++ input) = waitByte input := by
  induction pre with
  | nil => rfl
  | cons r pre ih =>
    have hr := hpre r (List.mem_cons_self _ _)
    have ih1 := ih (fun x hx => hpre x (List.mem_cons_of_mem _ hx))
    rcases hr with rfl | rfl
    · simpa [waitByte] using ih1
    · simpa [waitByte] using ih1

/-- A follow-on read that meets no byte delivers nothing. -/
theorem readSeq_none {t : List ReadResult} (h : leadingBytes t = []) :
    ∃ r1, readSeq t = (none, r1) := by
  rcases t with _ | ⟨r, t1⟩
  · exact ⟨[], rfl⟩
  · cases r with
    | byte c => simp [leadingBytes] at h
    | timeout => exact ⟨t1, rfl⟩
    | failed e => exact ⟨t1, rfl⟩

theorem readSeq_byte (c : Int) (t : List ReadResult) : readSeq (.byte c :: t) = (some c, t) := rfl

/-- A follow-on read that meets a byte delivers it. -/
theorem leadingBytes_cons {t : List ReadResult} {c : Int} {bs : List Int}
    (h : leadingBytes t = c :: bs) : ∃ t1, t = .byte c :: t1 ∧ leadingBytes t1 = bs := by
  rcases t with _ | ⟨r, t1⟩
  · simp [leadingBytes] at h
  · cases r with
    | byte c1 =>
      simp only [leadingBytes, List.cons.injEq] at h
      exact ⟨t1, by rw [h.1], h.2⟩
    | timeout => simp [leadingBytes] at h
    | failed e => simp [leadingBytes] at h

/-- After ESC, a sequence cut short decodes to the literal ESC. -/
theorem decodeAfter_stalled (t : List ReadResult)
    (hstall : leadingBytes t = [] ∨ (∃ s0, leadingBytes t = [s0]) ∨
      (∃ d, 48 ≤ d ∧ d ≤ 57 ∧ leadingBytes t = [91, d])) :
    ∃ rest, decodeAfter ESC t = .key ESC rest := by
  rcases hstall with h | ⟨s0, h⟩ | ⟨d, hlo, hhi, h⟩
  · obtain ⟨r1, hr⟩ := readSeq_none h
    refine ⟨r1, ?_⟩
    unfold decodeAfter
    rw [if_pos rfl, hr]
  · obtain ⟨t1, rfl, h1⟩ := leadingBytes_cons h
    obtain ⟨r1, hr⟩ := readSeq_none h1
    refine ⟨r1, ?_⟩
    unfold decodeAfter
    rw [if_pos rfl, readSeq_byte]
    simp only
    rw [hr]
  · obtain ⟨t1, rfl, h1⟩ := leadingBytes_cons h
    obtain ⟨t2, rfl, h2⟩ := leadingBytes_cons h1
    obtain ⟨r1, hr⟩ := readSeq_none h2
    refine ⟨r1, ?_⟩
    unfold decodeAfter
    rw [if_pos rfl, readSeq_byte]
    simp only
    rw [readSeq_byte]
    simp only
    rw [if_pos trivial, if_pos ⟨hlo, hhi⟩, hr]

/-! ## Key decoding: the claims -/

/-- C1: when every byte the decoder asks for is available, `editorReadKey`
returns the key of the reference table for the bytes at the head of the input
(the first byte itself when it is not ESC, the named key of the table sequence
the input begins with, the literal ESC for every other sequence starting with
ESC), and so the key returned is a named key (1000..1008) exactly when the
input begins with one of the fifteen sequences of the table. -/
theorem editorReadKey_eq_table (input : List ReadResult) (havail : allAvailable input)
    (hchar : ∀ c ∈ leadingBytes input, isChar c) :
    (∃ rest, editorReadKey input = .key (tableKey (leadingBytes input)) rest) ∧
    (∀ k rest, editorReadKey input = .key k rest →
      (isNamedKey k ↔ ∃ e ∈ keyTable, beginsWith e.1 (leadingBytes input) = true)) := by
  obtain ⟨rest, hrest⟩ := editorReadKey_available input havail
  refine ⟨⟨rest, hrest⟩, ?_⟩
  intro k rest1 hk
  rw [hrest] at hk
  injection hk with hk1 _
  rw [← hk1]
  apply tableKey_named_iff
  rcases hb : leadingBytes input with _ | ⟨b, bs⟩
  · simp [ESC, isChar]
  · exact hchar b (by rw [hb]; exact List.mem_cons_self _ _)

theorem editorReadKey_eq_table_witness :
    allAvailable [.byte 27, .byte 91, .byte 53, .byte 126, .byte 113] ∧
    (∃ rest, editorReadKey [.byte 27, .byte 91, .byte 53, .byte 126, .byte 113] =
      .key PAGE_UP rest) ∧
    (∀ k rest, editorReadKey [.byte 27, .byte 91, .byte 53, .byte 126, .byte 113] = .key k rest →
      (isNamedKey k ↔ ∃ e ∈ keyTable, beginsWith e.1 [27, 91, 53, 126, 113] = true)) :=
  ⟨by decide,
   editorReadKey_eq_table [.byte 27, .byte 91, .byte 53, .byte 126, .byte 113] (by decide)
     (by decide)⟩

/-- C8: when the first byte is ESC (after any no-data results) and a follow-on
read delivers no byte, at the first follow-on byte, at the second, or at the
byte after ESC `[` digit, `editorReadKey` returns the literal ESC, 27; it
neither calls `die` nor fails to return. -/
theorem editorReadKey_partial_escape (pre t : List ReadResult)
    (hpre : ∀ r ∈ pre, r = .timeout ∨ r = .failed EAGAIN)
    (hstall : leadingBytes t = [] ∨ (∃ s0, leadingBytes t = [s0]) ∨
      (∃ d, 48 ≤ d ∧ d ≤ 57 ∧ leadingBytes t = [91, d])) :
    ∃ rest, editorReadKey (pre ++ .byte ESC :: t) = .key 27 rest := by
  obtain ⟨rest, hrest⟩ := decodeAfter_stalled t hstall
  refine ⟨rest, ?_⟩
  unfold editorReadKey
  rw [waitByte_skip pre _ hpre]
  simpa [waitByte, ESC] using hrest

theorem editorReadKey_partial_escape_witness :
    (∀ r ∈ [ReadResult.timeout], r = .timeout ∨ r = .failed EAGAIN) ∧
    (∃ d : Int, 48 ≤ d ∧ d ≤ 57 ∧ leadingBytes [.byte 91, .byte 53, .timeout, .byte 126] = [91, d]) ∧
    ∃ rest, editorReadKey ([.timeout] ++ .byte ESC :: [.byte 91, .byte 53, .timeout, .byte 126]) =
      .key 27 rest :=
  ⟨by decide, ⟨53, by decide, by decide, by decide⟩,
   editorReadKey_partial_escape [.timeout] [.byte 91, .byte 53, .timeout, .byte 126] (by decide)
     (Or.inr (Or.inr ⟨53, by decide, by decide, by decide⟩))⟩

/-- C9, as the code has it: no-data results (a read returning 0 or failing with
EAGAIN) in front of the first byte are retried and leave the result of
`editorReadKey` unchanged; a read that fails with another error while waiting
for the first byte ends the program through `die("read")` with status 1; a
follow-on read after ESC that fails, with whatever error, counts as no byte
and makes `editorReadKey` return the literal ESC. -/
theorem editorReadKey_read_errors (pre : List ReadResult)
    (hpre : ∀ r ∈ pre, r = .timeout ∨ r = .failed EAGAIN) :
    (∀ input, editorReadKey (pre ++ input) = editorReadKey input) ∧
    (∀ e rest, e ≠ EAGAIN →
      editorReadKey (pre ++ .failed e :: rest) = .died (die "read") ∧
      (die "read").status = 1) ∧
    (∀ e rest, editorReadKey (pre ++ .byte ESC :: .failed e :: rest) = .key ESC rest) ∧
    (∀ e s0 rest,
      editorReadKey (pre ++ .byte ESC :: .byte s0 :: .failed e :: rest) = .key ESC rest) ∧
    (∀ e d rest, 48 ≤ d → d ≤ 57 →
      editorReadKey (pre ++ .byte ESC :: .byte 91 :: .byte d :: .failed e :: rest) =
        .key ESC rest) := by
  have hskip : ∀ input, editorReadKey (pre ++ input) = editorReadKey input := by
    intro input
    unfold editorReadKey
    rw [waitByte_skip pre input hpre]
  refine ⟨hskip, ?_, ?_, ?_, ?_⟩
  · intro e rest he
    rw [hskip]
    exact ⟨by simp [editorReadKey, waitByte, he], rfl⟩
  · intro e rest
    rw [hskip]
    simp [editorReadKey, waitByte, decodeAfter, readSeq]
  · intro e s0 rest
    rw [hskip]
    simp [editorReadKey, waitByte, decodeAfter, readSeq]
  · intro e d rest hlo hhi
    rw [hskip]
    simp [editorReadKey, waitByte, decodeAfter, readSeq, hlo, hhi]

theorem editorReadKey_read_errors_witness :
    (∀ r ∈ [ReadResult.timeout, .failed EAGAIN], r = .timeout ∨ r = .failed EAGAIN) ∧
    editorReadKey ([.timeout, .failed EAGAIN] ++ [.byte 113]) = editorReadKey [.byte 113] ∧
    editorReadKey ([.timeout, .failed EAGAIN] ++ .failed 5 :: []) = .died (die "read") ∧
    editorReadKey ([.timeout, .failed EAGAIN] ++ .byte ESC :: .byte 91 :: .byte 53 ::
      .failed 5 :: []) = .key ESC [] :=
  ⟨by decide,
   (editorReadKey_read_errors [.timeout, .failed EAGAIN] (by decide)).1 [.byte 113],
   ((editorReadKey_read_errors [.timeout, .failed EAGAIN] (by decide)).2.1 5 [] (by decide)).1,
   (editorReadKey_read_errors [.timeout, .failed EAGAIN] (by decide)).2.2.2.2 5 53 []
     (by decide) (by decide)⟩

/-- C9, counterexample: the read of the first follow-on byte fails with errno 5
(`EIO`, not `EAGAIN`) and `editorReadKey` returns the literal ESC instead of
ending the program. -/
theorem editorReadKey_followon_error_not_fatal :
    (5 : Int) ≠ EAGAIN ∧
    editorReadKey [.byte 27, .failed 5, .byte 65] = .key ESC [.byte 65] ∧
    editorReadKey [.byte 27, .failed 5, .byte 65] ≠ .died (die "read") := by
  decide

/-! ## Scrolling and cursor movement -/

theorem editorScroll_inWindow (E : editorState) (h : 1 ≤ E.screenRows) :
    inWindow (editorScroll E) := by
  unfold inWindow editorScroll
  by_cases h1 : E.cursorY < E.rowOffset
  · simp only [h1, if_true]
    split_ifs with h2
    · simp only; omega
    · simp only at h2 ⊢; omega
  · simp only [h1, if_false]
    split_ifs with h2
    · simp only; omega
    · omega

theorem editorScroll_frame (E : editorState) :
    (editorScroll E).cursorX = E.cursorX ∧
    (editorScroll E).cursorY = E.cursorY ∧
    (editorScroll E).screenRows = E.screenRows ∧
    (editorScroll E).screenColumns = E.screenColumns ∧
    (editorScroll E).totalRows = E.totalRows ∧
    (editorScroll E).rows = E.rows ∧
    (editorScroll E).originalTermios = E.originalTermios := by
  unfold editorScroll
  by_cases h1 : E.cursorY < E.rowOffset
  · simp only [h1, if_true]
    split_ifs <;> simp
  · simp only [h1, if_false]
    split_ifs <;> simp

theorem editorMoveCursor_frame (key : Int) (E : editorState) :
    (editorMoveCursor key E).rowOffset = E.rowOffset ∧
    (editorMoveCursor key E).screenRows = E.screenRows ∧
    (editorMoveCursor key E).screenColumns = E.screenColumns ∧
    (editorMoveCursor key E).totalRows = E.totalRows ∧
    (editorMoveCursor key E).rows = E.rows ∧
    (editorMoveCursor key E).originalTermios = E.originalTermios := by
  unfold editorMoveCursor
  split_ifs <;> simp

theorem moveTimes_frame (key : Int) (n : Nat) (E : editorState) :
    (moveTimes key n E).rowOffset = E.rowOffset ∧
    (moveTimes key n E).screenRows = E.screenRows ∧
    (moveTimes key n E).screenColumns = E.screenColumns ∧
    (moveTimes key n E).totalRows = E.totalRows ∧
    (moveTimes key n E).rows = E.rows ∧
    (moveTimes key n E).originalTermios = E.originalTermios := by
  induction n generalizing E with
  | zero => simp [moveTimes]
  | succ n ih =>
    have h1 := ih (editorMoveCursor key E)
    have h2 := editorMoveCursor_frame key E
    simp only [moveTimes]
    refine ⟨h1.1.trans h2.1, h1.2.1.trans h2.2.1, h1.2.2.1.trans h2.2.2.1,
      h1.2.2.2.1.trans h2.2.2.2.1, h1.2.2.2.2.1.trans h2.2.2.2.2.1,
      h1.2.2.2.2.2.trans h2.2.2.2.2.2⟩

/-- Every key but the quit key makes `processKey` return to the main loop with
the screen size, the offset and the document as they were. -/
theorem processKey_running (c : Int) (E : editorState) (rest : List ReadResult)
    (hq : c ≠ CTRL_KEY 113) :
    ∃ E1, processKey c E rest = .running E1 rest ∧
      E1.rowOffset = E.rowOffset ∧ E1.screenRows = E.screenRows ∧
      E1.screenColumns = E.screenColumns ∧ E1.totalRows = E.totalRows ∧ E1.rows = E.rows := by
  unfold processKey
  rw [if_neg hq]
  by_cases h1 : c = HOME_KEY
  · rw [if_pos h1]; exact ⟨_, rfl, rfl, rfl, rfl, rfl, rfl⟩
  rw [if_neg h1]
  by_cases h2 : c = END_KEY
  · rw [if_pos h2]; exact ⟨_, rfl, rfl, rfl, rfl, rfl, rfl⟩
  rw [if_neg h2]
  by_cases h3 : c = PAGE_UP ∨ c = PAGE_DOWN
  · rw [if_pos h3]
    have h := moveTimes_frame (if c = PAGE_UP then ARROW_UP else ARROW_DOWN)
      (whileCount E.screenRows) E
    exact ⟨_, rfl, h.1, h.2.1, h.2.2.1, h.2.2.2.1, h.2.2.2.2.1⟩
  rw [if_neg h3]
  by_cases h4 : c = ARROW_UP ∨ c = ARROW_DOWN ∨ c = ARROW_LEFT ∨ c = ARROW_RIGHT
  · rw [if_pos h4]
    have h := editorMoveCursor_frame c E
    exact ⟨_, rfl, h.1, h.2.1, h.2.2.1, h.2.2.2.1, h.2.2.2.2.1⟩
  rw [if_neg h4]
  exact ⟨_, rfl, rfl, rfl, rfl, rfl, rfl⟩

theorem editorMoveCursor_bounds (key : Int) (E : editorState) (hb : cursorInBounds E) :
    cursorInBounds (editorMoveCursor key E) := by
  unfold cursorInBounds at hb ⊢
  unfold editorMoveCursor
  split_ifs <;> (try simp only) <;> omega

theorem moveTimes_bounds (key : Int) (n : Nat) (E : editorState) (hb : cursorInBounds E) :
    cursorInBounds (moveTimes key n E) := by
  induction n generalizing E with
  | zero => simpa [moveTimes] using hb
  | succ n ih => exact ih _ (editorMoveCursor_bounds key E hb)

theorem processKey_bounds (c : Int) (E : editorState) (rest : List ReadResult)
    (hq : c ≠ CTRL_KEY 113) (hcols : 1 ≤ E.screenColumns) (hb : cursorInBounds E) :
    ∃ E1, processKey c E rest = .running E1 rest ∧ cursorInBounds E1 := by
  unfold processKey
  rw [if_neg hq]
  by_cases h1 : c = HOME_KEY
  · rw [if_pos h1]
    refine ⟨_, rfl, ?_⟩
    unfold cursorInBounds at hb ⊢
    simp only
    omega
  rw [if_neg h1]
  by_cases h2 : c = END_KEY
  · rw [if_pos h2]
    refine ⟨_, rfl, ?_⟩
    unfold cursorInBounds at hb ⊢
    simp only
    omega
  rw [if_neg h2]
  by_cases h3 : c = PAGE_UP ∨ c = PAGE_DOWN
  · rw [if_pos h3]
    exact ⟨_, rfl, moveTimes_bounds _ _ E hb⟩
  rw [if_neg h3]
  by_cases h4 : c = ARROW_UP ∨ c = ARROW_DOWN ∨ c = ARROW_LEFT ∨ c = ARROW_RIGHT
  · rw [if_pos h4]
    exact ⟨_, rfl, editorMoveCursor_bounds c E hb⟩
  rw [if_neg h4]
  exact ⟨_, rfl, hb⟩

/-- An arrow key is dispatched to `editorMoveCursor`. -/
theorem processKey_arrow (c : Int) (E : editorState) (rest : List ReadResult)
    (hc : c = ARROW_UP ∨ c = ARROW_DOWN ∨ c = ARROW_LEFT ∨ c = ARROW_RIGHT) :
    processKey c E rest = .running (editorMoveCursor c E) rest := by
  rcases hc with h | h | h | h <;> subst h <;> rfl

theorem editorProcessKeypress_key {input : List ReadResult} {c : Int} {rest : List ReadResult}
    (h : editorReadKey input = .key c rest) (E : editorState) :
    editorProcessKeypress input E = processKey c E rest := by
  unfold editorProcessKeypress
  rw [h]

/-! ## Scrolling and cursor movement: the claims -/

/-- C2: in a state where the cursor row is inside the window,
`rowOffset ≤ cursorY < rowOffset + screenRows`, after any single cursor move
(an arrow through `editorMoveCursor`, or an arrow, HOME, END, PAGE_UP or
PAGE_DOWN dispatched by `editorProcessKeypress`) `editorScroll` yields a state
in which the cursor row is inside the window again. -/
theorem scroll_invariant_after_move (E : editorState) (hinv : inWindow E) :
    (∀ key, key = ARROW_UP ∨ key = ARROW_DOWN ∨ key = ARROW_LEFT ∨ key = ARROW_RIGHT →
      inWindow (editorScroll (editorMoveCursor key E))) ∧
    (∀ input c rest, editorReadKey input = .key c rest →
      c = ARROW_UP ∨ c = ARROW_DOWN ∨ c = ARROW_LEFT ∨ c = ARROW_RIGHT ∨
        c = HOME_KEY ∨ c = END_KEY ∨ c = PAGE_UP ∨ c = PAGE_DOWN →
      ∃ E1, editorProcessKeypress input E = .running E1 rest ∧
        inWindow (editorScroll E1)) := by
  have hrows : 1 ≤ E.screenRows := by unfold inWindow at hinv; omega
  constructor
  · intro key _
    apply editorScroll_inWindow
    rw [(editorMoveCursor_frame key E).2.1]
    exact hrows
  · intro input c rest hkey hc
    have hq : c ≠ CTRL_KEY 113 := by
      rcases hc with h | h | h | h | h | h | h | h <;> subst h <;> decide
    obtain ⟨E1, h1, _, h2, _⟩ := processKey_running c E rest hq
    refine ⟨E1, by rw [editorProcessKeypress_key hkey, h1], ?_⟩
    apply editorScroll_inWindow
    rw [h2]
    exact hrows

theorem scroll_invariant_after_move_witness :
    inWindow { startState 2 80 with totalRows := 9, cursorY := 1 } ∧
    inWindow (editorScroll
      (editorMoveCursor ARROW_DOWN { startState 2 80 with totalRows := 9, cursorY := 1 })) ∧
    ∃ E1, editorProcessKeypress [.byte 27, .byte 91, .byte 54, .byte 126]
        { startState 2 80 with totalRows := 9, cursorY := 1 } = .running E1 [] ∧
      inWindow (editorScroll E1) :=
  ⟨by decide,
   (scroll_invariant_after_move { startState 2 80 with totalRows := 9, cursorY := 1 }
     (by decide)).1 ARROW_DOWN (Or.inr (Or.inl rfl)),
   (scroll_invariant_after_move { startState 2 80 with totalRows := 9, cursorY := 1 }
     (by decide)).2 [.byte 27, .byte 91, .byte 54, .byte 126] PAGE_DOWN [] (by decide)
     (by decide)⟩

/-- C3: in a state with `screenColumns ≥ 1`, `0 ≤ cursorX ≤ screenColumns-1`
and `0 ≤ cursorY ≤ totalRows`, every key other than the quit key makes
`editorProcessKeypress` return to the main loop in a state that satisfies the
same bounds (for the same screen width and document length); ARROW_RIGHT at
`cursorX = screenColumns-1`, ARROW_LEFT at `cursorX = 0`, ARROW_UP at
`cursorY = 0` and ARROW_DOWN at `cursorY = totalRows` leave the state as it is. -/
theorem cursor_bounds_preserved (E : editorState) (hcols : 1 ≤ E.screenColumns)
    (hb : cursorInBounds E) :
    (∀ input c rest, editorReadKey input = .key c rest → c ≠ CTRL_KEY 113 →
      ∃ E1, editorProcessKeypress input E = .running E1 rest ∧ cursorInBounds E1 ∧
        E1.screenColumns = E.screenColumns ∧ E1.totalRows = E.totalRows) ∧
    (∀ input rest, editorReadKey input = .key ARROW_RIGHT rest →
      E.cursorX = E.screenColumns - 1 → editorProcessKeypress input E = .running E rest) ∧
    (∀ input rest, editorReadKey input = .key ARROW_LEFT rest →
      E.cursorX = 0 → editorProcessKeypress input E = .running E rest) ∧
    (∀ input rest, editorReadKey input = .key ARROW_UP rest →
      E.cursorY = 0 → editorProcessKeypress input E = .running E rest) ∧
    (∀ input rest, editorReadKey input = .key ARROW_DOWN rest →
      E.cursorY = E.totalRows → editorProcessKeypress input E = .running E rest) := by
  refine ⟨?_, ?_, ?_, ?_, ?_⟩
  · intro input c rest hkey hq
    obtain ⟨E1, h1, hb1⟩ := processKey_bounds c E rest hq hcols hb
    obtain ⟨E2, h2, _, _, hc2, ht2, _⟩ := processKey_running c E rest hq
    have : E2 = E1 := by
      rw [h1] at h2
      injection h2 with h2 _
      exact h2.symm
    subst this
    exact ⟨E2, by rw [editorProcessKeypress_key hkey, h1], hb1, hc2, ht2⟩
  · intro input rest hkey hx
    rw [editorProcessKeypress_key hkey, processKey_arrow _ _ _ (by simp)]
    simp [editorMoveCursor, ARROW_RIGHT, ARROW_LEFT, hx]
  · intro input rest hkey hx
    rw [editorProcessKeypress_key hkey, processKey_arrow _ _ _ (by simp)]
    simp [editorMoveCursor, hx]
  · intro input rest hkey hy
    rw [editorProcessKeypress_key hkey, processKey_arrow _ _ _ (by simp)]
    simp [editorMoveCursor, ARROW_RIGHT, ARROW_LEFT, ARROW_UP, hy]
  · intro input rest hkey hy
    rw [editorProcessKeypress_key hkey, processKey_arrow _ _ _ (by simp)]
    simp [editorMoveCursor, ARROW_RIGHT, ARROW_LEFT, ARROW_UP, ARROW_DOWN, hy]

theorem cursor_bounds_preserved_witness :
    1 ≤ (startState 24 40).screenColumns ∧
    cursorInBounds { startState 24 40 with cursorX := 39 } ∧
    (∃ E1, editorProcessKeypress [.byte 27, .byte 91, .byte 70]
        { startState 24 40 with cursorX := 39 } = .running E1 [] ∧ cursorInBounds E1 ∧
        E1.screenColumns = 40 ∧ E1.totalRows = 0) ∧
    editorProcessKeypress [.byte 27, .byte 91, .byte 67] { startState 24 40 with cursorX := 39 } =
      .running { startState 24 40 with cursorX := 39 } [] ∧
    editorProcessKeypress [.byte 27, .byte 91, .byte 66] { startState 24 40 with cursorX := 39 } =
      .running { startState 24 40 with cursorX := 39 } [] :=
  ⟨by decide, by decide,
   (cursor_bounds_preserved { startState 24 40 with cursorX := 39 } (by decide) (by decide)).1
     [.byte 27, .byte 91, .byte 70] END_KEY [] (by decide) (by decide),
   (cursor_bounds_preserved { startState 24 40 with cursorX := 39 } (by decide) (by decide)).2.1
     [.byte 27, .byte 91, .byte 67] [] (by decide) (by decide),
   (cursor_bounds_preserved { startState 24 40 with cursorX := 39 } (by decide)
     (by decide)).2.2.2.2 [.byte 27, .byte 91, .byte 66] [] (by decide) (by decide)⟩

/-- C10, as the code has it: `editorScroll` changes nothing but `rowOffset`.
The new `rowOffset` is `cursorY - screenRows + 1` when
`cursorY ≥ rowOffset + screenRows`, the old one when
`rowOffset ≤ cursorY < rowOffset + screenRows`, and, when
`cursorY < rowOffset`, it is `cursorY` provided `screenRows ≥ 1`; with
`screenRows ≤ 0` the second rule fires on the offset the first rule has just
set and the result is `cursorY - screenRows + 1`. -/
theorem editorScroll_rules (E : editorState) :
    (E.cursorY < E.rowOffset → 1 ≤ E.screenRows → (editorScroll E).rowOffset = E.cursorY) ∧
    (E.cursorY < E.rowOffset → E.screenRows ≤ 0 →
      (editorScroll E).rowOffset = E.cursorY - E.screenRows + 1) ∧
    (E.cursorY ≥ E.rowOffset + E.screenRows →
      (editorScroll E).rowOffset = E.cursorY - E.screenRows + 1) ∧
    (E.rowOffset ≤ E.cursorY → E.cursorY < E.rowOffset + E.screenRows →
      (editorScroll E).rowOffset = E.rowOffset) ∧
    (editorScroll E).cursorX = E.cursorX ∧
    (editorScroll E).cursorY = E.cursorY ∧
    (editorScroll E).screenRows = E.screenRows ∧
    (editorScroll E).screenColumns = E.screenColumns ∧
    (editorScroll E).totalRows = E.totalRows ∧
    (editorScroll E).rows = E.rows := by
  have hf := editorScroll_frame E
  refine ⟨?_, ?_, ?_, ?_, hf.1, hf.2.1, hf.2.2.1, hf.2.2.2.1, hf.2.2.2.2.1, hf.2.2.2.2.2.1⟩
  · intro h1 h2
    unfold editorScroll
    simp only [h1, if_true]
    rw [if_neg (by omega)]
  · intro h1 h2
    unfold editorScroll
    simp only [h1, if_true]
    rw [if_pos (by omega)]
  · intro h1
    unfold editorScroll
    by_cases h : E.cursorY < E.rowOffset
    · simp only [h, if_true]
      rw [if_pos (by omega)]
    · simp only [h, if_false]
      rw [if_pos (by omega)]
  · intro h1 h2
    unfold editorScroll
    have h : ¬ E.cursorY < E.rowOffset := by omega
    simp only [h, if_false]
    rw [if_neg (by omega)]

theorem editorScroll_rules_witness :
    (editorScroll { startState 10 80 with totalRows := 50, cursorY := 3, rowOffset := 7 }).rowOffset
      = 3 ∧
    (editorScroll { startState 0 80 with rowOffset := 1 }).rowOffset = 1 ∧
    (editorScroll { startState 10 80 with totalRows := 50, cursorY := 30, rowOffset := 7 }).rowOffset
      = 21 ∧
    (editorScroll { startState 10 80 with totalRows := 50, cursorY := 9, rowOffset := 7 }).rowOffset
      = 7 :=
  ⟨(editorScroll_rules
      { startState 10 80 with totalRows := 50, cursorY := 3, rowOffset := 7 }).1
      (by decide) (by decide),
   (editorScroll_rules { startState 0 80 with rowOffset := 1 }).2.1 (by decide) (by decide),
   (editorScroll_rules
      { startState 10 80 with totalRows := 50, cursorY := 30, rowOffset := 7 }).2.2.1
      (by decide),
   (editorScroll_rules
      { startState 10 80 with totalRows := 50, cursorY := 9, rowOffset := 7 }).2.2.2.1
      (by decide) (by decide)⟩

/-- C10, counterexample: with `screenRows = 0`, `cursorY = 0` and
`rowOffset = 1` the cursor is above the window, yet the new `rowOffset` is 1,
not `cursorY`. -/
theorem editorScroll_above_zero_rows :
    (startState 0 80).cursorY < ({ startState 0 80 with rowOffset := 1 } : editorState).rowOffset ∧
    (editorScroll { startState 0 80 with rowOffset := 1 }).rowOffset = 1 ∧
    (editorScroll { startState 0 80 with rowOffset := 1 }).rowOffset ≠
      ({ startState 0 80 with rowOffset := 1 } : editorState).cursorY := by
  decide

/-! ## Document load -/

theorem stripLen_le (line : List Int) (n : Nat) : stripLen line n ≤ n := by
  induction n with
  | zero => simp [stripLen]
  | succ n ih =>
    unfold stripLen
    split_ifs
    · omega
    · omega

theorem take_stripLen (ln : List Int) (n : Nat) (hn : n ≤ ln.length) :
    ln.take (stripLen ln n) = stripEol (ln.take n) := by
  induction n with
  | zero => simp [stripLen, stripEol]
  | succ n ih =>
    have hlt : n < ln.length := by omega
    have hget : ln.getD n 0 = ln[n] := by
      simp [List.getD, List.getElem?_eq_getElem hlt]
    have htake : ln.take (n + 1) = ln.take n ++ [ln[n]] := by
      rw [List.take_succ, List.getElem?_eq_getElem hlt]
      rfl
    unfold stripLen
    rw [htake, hget]
    unfold stripEol
    rw [List.rdropWhile_concat]
    by_cases h : ln[n] = 10 ∨ ln[n] = 13
    · have hp : isEol ln[n] = true := by
        unfold isEol
        rcases h with h | h <;> simp [h]
      rw [if_pos h, if_pos hp]
      exact ih (by omega)
    · have hp : ¬ isEol ln[n] = true := by
        unfold isEol
        simpa using h
      rw [if_neg h, if_neg hp, ← htake]

theorem readLine_spec (c : Int) (cs : List Int) :
    (readLine (c :: cs)).1 ++ (readLine (c :: cs)).2 = c :: cs ∧
    (readLine (c :: cs)).1 ≠ [] ∧
    10 ∉ (readLine (c :: cs)).1.dropLast ∧
    ((readLine (c :: cs)).2 ≠ [] → (readLine (c :: cs)).1.getLast? = some 10) ∧
    (readLine (c :: cs)).2.length < (c :: cs).length := by
  induction cs generalizing c with
  | nil =>
    unfold readLine
    split_ifs <;> simp [readLine]
  | cons d ds ih =>
    obtain ⟨h1, h2, h3, h4, h5⟩ := ih d
    unfold readLine
    by_cases hc : c = 10
    · rw [if_pos hc]
      simp [hc]
    · rw [if_neg hc]
      simp only
      obtain ⟨x, xs, hx⟩ := List.exists_cons_of_ne_nil h2
      refine ⟨by rw [List.cons_append, h1], by simp, ?_, ?_, ?_⟩
      · rw [hx, List.dropLast_cons₂]
        rw [hx] at h3
        simp only [List.mem_cons, not_or]
        exact ⟨fun h => hc h.symm, h3⟩
      · intro hne
        rw [hx, List.getLast?_cons_cons, ← hx]
        exact h4 hne
      · simp only [List.length_cons] at h5 ⊢
        omega

theorem readRows_spec (fuel : Nat) (fp : List Int) (E : editorState) (hfuel : fp.length < fuel) :
    ∃ lines, IsLines fp lines ∧
      readRows fuel fp E =
        { E with rows := E.rows ++ lines.map lineRow,
                 totalRows := E.totalRows + (lines.length : Int) } := by
  induction fuel generalizing fp E with
  | zero => omega
  | succ fuel ih =>
    rcases fp with _ | ⟨c, cs⟩
    · exact ⟨[], ⟨rfl, by simp, by simp⟩, by simp [readRows, getline]⟩
    · obtain ⟨h1, h2, h3, h4, h5⟩ := readLine_spec c cs
      obtain ⟨lines, ⟨hl1, hl2, hl3⟩, hrows⟩ := ih (readLine (c :: cs)).2
        (editorAppendRow (readLine (c :: cs)).1
          (stripLen (readLine (c :: cs)).1 (readLine (c :: cs)).1.length) E)
        (by simp only [List.length_cons] at h5 hfuel ⊢; omega)
      refine ⟨(readLine (c :: cs)).1 :: lines, ⟨?_, ?_, ?_⟩, ?_⟩
      · rw [List.flatten_cons, hl1, h1]
      · intro l hl
        rcases List.mem_cons.mp hl with rfl | hl
        · exact ⟨h2, h3⟩
        · exact hl2 l hl
      · rcases lines with _ | ⟨l0, ls⟩
        · simp
        · rw [List.dropLast_cons₂]
          intro l hl
          rcases List.mem_cons.mp hl with rfl | hl
          · apply h4
            rw [← hl1]
            have := (hl2 l0 (List.mem_cons_self _ _)).1
            obtain ⟨x, xs, hx⟩ := List.exists_cons_of_ne_nil this
            simp [hx]
          · exact hl3 l hl
      · simp only [readRows, getline]
        rw [hrows]
        have htk := take_stripLen (readLine (c :: cs)).1 (readLine (c :: cs)).1.length
          (le_refl _)
        rw [List.take_length] at htk
        have hlen : ((stripLen (readLine (c :: cs)).1 (readLine (c :: cs)).1.length : Nat) : Int)
            = ((stripEol (readLine (c :: cs)).1).length : Int) := by
          rw [← htk, List.length_take]
          have := stripLen_le (readLine (c :: cs)).1 (readLine (c :: cs)).1.length
          congr 1
          omega
        simp only [editorAppendRow, lineRow, List.map_cons, htk, hlen, List.append_assoc,
          List.singleton_append, List.length_cons, Nat.cast_add, Nat.cast_one]
        congr 1
        omega

theorem stripEol_props (l : List Int) :
    (stripEol l).getLast? ≠ some 10 ∧ (stripEol l).getLast? ≠ some 13 ∧
    (10 ∉ l.dropLast → 10 ∉ stripEol l) := by
  have hlast : ∀ c, isEol c = true → (stripEol l).getLast? ≠ some c := by
    intro c hc hl
    have hne : stripEol l ≠ [] := by
      intro h
      rw [h] at hl
      simp at hl
    have := List.rdropWhile_last_not isEol l hne
    rw [List.getLast?_eq_getLast _ hne] at hl
    injection hl with hl
    unfold stripEol at hl
    rw [hl] at this
    exact this hc
  refine ⟨hlast 10 (by decide), hlast 13 (by decide), ?_⟩
  intro h10
  rcases List.eq_nil_or_concat l with rfl | ⟨l1, x, rfl⟩
  · simp [stripEol]
  · rw [List.concat_eq_append] at h10 ⊢
    rw [List.dropLast_concat] at h10
    unfold stripEol
    rw [List.rdropWhile_concat]
    by_cases hx : isEol x = true
    · rw [if_pos hx]
      intro hmem
      exact h10 ((List.rdropWhile_prefix isEol l1).subset hmem)
    · rw [if_neg hx]
      intro hmem
      rcases List.mem_append.mp hmem with hm | hm
      · exact h10 hm
      · simp only [List.mem_singleton] at hm
        subst hm
        exact hx (by decide)

theorem stripEol_dropped (l : List Int) :
    ∀ c ∈ l.drop (stripEol l).length, c = 10 ∨ c = 13 := by
  have h : l = stripEol l ++ (l.reverse.takeWhile isEol).reverse := by
    unfold stripEol List.rdropWhile
    rw [← List.reverse_append, List.takeWhile_append_dropWhile, List.reverse_reverse]
  have hdrop : l.drop (stripEol l).length = (l.reverse.takeWhile isEol).reverse := by
    have := congrArg (List.drop (stripEol l).length) h
    rwa [List.drop_left] at this
  intro c hc
  rw [hdrop, List.mem_reverse] at hc
  have := List.mem_takeWhile_imp hc
  simpa [isEol] using this

/-- C4: `editorOpen` appends one row per line of the file, in file order; the
lines are the pieces of the content delimited by `'\n'`; each row holds its
line without the trailing `'\n'` and `'\r'` bytes, the other bytes as they
are, and its `size` is the number of those bytes; a row does not end in
`'\n'` or `'\r'` and contains no `'\n'`.  The content "foo\r\nbar\nbaz" gives
the rows "foo", "bar", "baz", and an empty file leaves the state as it is, so
`totalRows` stays 0 after `initEditor`. -/
theorem editorOpen_rows (content : List Int) (E : editorState) :
    (∃ lines, IsLines content lines ∧
      editorOpen (some content) E =
        .ok { E with rows := E.rows ++ lines.map lineRow,
                     totalRows := E.totalRows + (lines.length : Int) } ∧
      ∀ l ∈ lines, (lineRow l).chars = stripEol l ∧
        (lineRow l).chars <+: l ∧
        (∀ c ∈ l.drop (lineRow l).chars.length, c = 10 ∨ c = 13) ∧
        (lineRow l).size = ((lineRow l).chars.length : Int) ∧
        (lineRow l).chars.getLast? ≠ some 10 ∧ (lineRow l).chars.getLast? ≠ some 13 ∧
        10 ∉ (lineRow l).chars) ∧
    editorOpen (some [102, 111, 111, 13, 10, 98, 97, 114, 10, 98, 97, 122]) E =
      .ok { E with rows := E.rows ++ [⟨3, [102, 111, 111]⟩, ⟨3, [98, 97, 114]⟩,
                                       ⟨3, [98, 97, 122]⟩],
                   totalRows := E.totalRows + 3 } ∧
    editorOpen (some []) E = .ok E ∧
    (∀ r c, ∃ E1, initEditor E (some (r, c)) = .ok E1 ∧ editorOpen (some []) E1 = .ok E1 ∧
      E1.totalRows = 0) := by
  refine ⟨?_, ?_, ?_, ?_⟩
  · obtain ⟨lines, hlines, hrows⟩ := readRows_spec (content.length + 1) content E (by omega)
    refine ⟨lines, hlines, by simp only [editorOpen, hrows], ?_⟩
    intro l hl
    obtain ⟨h1, h2, h3⟩ := stripEol_props l
    exact ⟨rfl, List.rdropWhile_prefix isEol l, stripEol_dropped l, rfl, h1, h2,
      h3 (hlines.2.1 l hl).2⟩
  · have h : readRows 13 [102, 111, 111, 13, 10, 98, 97, 114, 10, 98, 97, 122] E =
        editorAppendRow [98, 97, 122] 3 (editorAppendRow [98, 97, 114, 10] 3
          (editorAppendRow [102, 111, 111, 13, 10] 3 E)) := rfl
    simp [editorOpen, h, editorAppendRow, add_assoc]
  · simp [editorOpen, readRows, getline]
  · intro r c
    exact ⟨_, rfl, by simp [editorOpen, readRows, getline], rfl⟩

/-! ## Rendering: lemmas -/

theorem appendToBuffer_eq (buf s : List Int) (len : Int) :
    appendToBuffer buf s len = buf ++ s.take len.toNat := rfl

theorem appendSpaces_eq (n : Nat) (buf : List Int) :
    appendSpaces n buf = buf ++ List.replicate n 32 := by
  induction n generalizing buf with
  | zero => simp [appendSpaces]
  | succ n ih =>
    simp only [appendSpaces, ih, appendToBuffer_eq]
    simp [List.replicate_succ]

/-- The content of a screen row does not depend on what the buffer holds. -/
theorem drawRowContent_append (E : editorState) (y : Int) (buf : List Int) :
    drawRowContent E y buf = buf ++ drawRowContent E y [] := by
  unfold drawRowContent
  simp only [appendToBuffer_eq, appendSpaces_eq]
  split_ifs <;> simp

theorem drawRow_nil (E : editorState) (y : Int) :
    drawRow E y [] = drawRowContent E y [] ++ [27, 91, 75] ++
      (if y < E.screenRows - 1 then [13, 10] else []) := by
  unfold drawRow
  simp only [appendToBuffer_eq]
  split_ifs <;> simp

theorem drawRow_append (E : editorState) (y : Int) (buf : List Int) :
    drawRow E y buf = buf ++ drawRow E y [] := by
  unfold drawRow
  simp only [appendToBuffer_eq]
  rw [drawRowContent_append]
  split_ifs <;> simp

theorem drawRowsFrom_eq (E : editorState) (n : Nat) (y : Int) (buf : List Int) :
    drawRowsFrom E n y buf =
      buf ++ ((List.range n).map (fun (k : Nat) => drawRow E (y + (k : Int)) [])).flatten := by
  induction n generalizing y buf with
  | zero => simp [drawRowsFrom]
  | succ n ih =>
    simp only [drawRowsFrom]
    rw [ih, drawRow_append, List.range_succ_eq_map]
    simp only [List.map_cons, List.map_map, List.flatten_cons, Nat.cast_zero, add_zero,
      List.append_assoc]
    congr 3
    apply List.map_congr_left
    intro k _
    simp only [Function.comp, Nat.cast_succ]
    congr 1
    omega

theorem decDigits_digit (fuel n : Nat) : ∀ c ∈ decDigits fuel n, 48 ≤ c ∧ c ≤ 57 := by
  induction fuel generalizing n with
  | zero => simp [decDigits]
  | succ fuel ih =>
    intro c hc
    unfold decDigits at hc
    split_ifs at hc with h
    · simp only [List.mem_singleton] at hc
      omega
    · rcases List.mem_append.mp hc with h1 | h1
      · exact ih _ c h1
      · simp only [List.mem_singleton] at h1
        omega

theorem decDigits_length (fuel n k : Nat) (hn : n < 10 ^ (k + 1)) :
    (decDigits fuel n).length ≤ k + 1 := by
  induction fuel generalizing n k with
  | zero => simp [decDigits]
  | succ fuel ih =>
    unfold decDigits
    split_ifs with h
    · simp
    · rcases k with _ | k
      · simp at hn; omega
      · have : n / 10 < 10 ^ (k + 1) := by
          rw [Nat.div_lt_iff_lt_mul (by decide)]
          rw [pow_succ] at hn
          exact hn
        have := ih (n / 10) k this
        simp only [List.length_append, List.length_singleton]
        omega

theorem decDigits_value (fuel n : Nat) (hfuel : n < fuel) :
    digitsValue (decDigits fuel n) = n := by
  induction fuel generalizing n with
  | zero => omega
  | succ fuel ih =>
    unfold decDigits
    split_ifs with h
    · simp [digitsValue]
    · have hrec := ih (n / 10) (by omega)
      unfold digitsValue at hrec ⊢
      rw [List.foldl_append, hrec]
      simp only [List.foldl_cons, List.foldl_nil, add_sub_cancel_left, Int.toNat_ofNat]
      omega

/-- The numeral `fmtInt i` stands for `i`: the digits are all printed. -/
theorem decimalValue_fmtInt (i : Int) : decimalValue (fmtInt i) = i := by
  unfold fmtInt decimalValue
  by_cases hneg : i < 0
  · rw [if_pos hneg, if_pos (by rfl), List.tail_cons, decDigits_value _ _ (by omega)]
    omega
  · have hne : decDigits (i.toNat + 1) i.toNat ≠ [] := by
      unfold decDigits
      split_ifs <;> simp
    obtain ⟨x, xs, hx⟩ := List.exists_cons_of_ne_nil hne
    have hd := decDigits_digit (i.toNat + 1) i.toNat x (by rw [hx]; exact List.mem_cons_self _ _)
    have h45 : (decDigits (i.toNat + 1) i.toNat).head? ≠ some 45 := by
      rw [hx]
      simp only [List.head?_cons, ne_eq, Option.some.injEq]
      omega
    rw [if_neg hneg, if_neg h45, decDigits_value _ _ (by omega)]
    omega

theorem fmtInt_nonzero (i : Int) : ∀ c ∈ fmtInt i, c ≠ 0 := by
  intro c hc
  unfold fmtInt at hc
  split_ifs at hc
  · rcases List.mem_cons.mp hc with h | h
    · omega
    · have := decDigits_digit _ _ c h; omega
  · have := decDigits_digit _ _ c hc; omega

theorem fmtInt_length (i : Int) (h : -10 ^ 10 < i ∧ i < 10 ^ 10) : (fmtInt i).length ≤ 11 := by
  unfold fmtInt
  split_ifs with hneg
  · have := decDigits_length (i.natAbs + 1) i.natAbs 9 (by omega)
    simp only [List.length_cons]
    omega
  · have := decDigits_length (i.toNat + 1) i.toNat 9 (by omega)
    omega

/-- A cursor escape whose numbers are short fits the 32-byte array and holds no
NUL, so `snprintf` and `strlen` leave it whole. -/
theorem cursorEscape_whole (r c : Int) (hr : -10 ^ 10 < r ∧ r < 10 ^ 10)
    (hc : -10 ^ 10 < c ∧ c < 10 ^ 10) (buf : List Int) :
    appendToBuffer buf (snprintf 32 ([27, 91] ++ fmtInt r ++ [59] ++ fmtInt c ++ [72]))
      (strlen (snprintf 32 ([27, 91] ++ fmtInt r ++ [59] ++ fmtInt c ++ [72]))) =
      buf ++ ([27, 91] ++ fmtInt r ++ [59] ++ fmtInt c ++ [72]) := by
  have h1 := fmtInt_length r hr
  have h2 := fmtInt_length c hc
  have hlen : ([27, 91] ++ fmtInt r ++ [59] ++ fmtInt c ++ [72]).length ≤ 31 := by
    simp only [List.length_append, List.length_cons, List.length_nil]
    omega
  have hsn : snprintf 32 ([27, 91] ++ fmtInt r ++ [59] ++ fmtInt c ++ [72]) =
      [27, 91] ++ fmtInt r ++ [59] ++ fmtInt c ++ [72] := by
    unfold snprintf
    exact List.take_of_length_le hlen
  have hnz : ∀ x ∈ [27, 91] ++ fmtInt r ++ [59] ++ fmtInt c ++ [72], x ≠ 0 := by
    intro x hx
    simp only [List.mem_append, List.mem_cons, List.mem_singleton, List.not_mem_nil,
      or_false] at hx
    rcases hx with (((h | h) | h) | h) | h
    · rcases h with h | h <;> omega
    · exact fmtInt_nonzero r x h
    · omega
    · exact fmtInt_nonzero c x h
    · omega
  have hstr : strlen ([27, 91] ++ fmtInt r ++ [59] ++ fmtInt c ++ [72]) =
      ([27, 91] ++ fmtInt r ++ [59] ++ fmtInt c ++ [72]).length := by
    unfold strlen
    rw [List.takeWhile_eq_self_iff.mpr]
    intro x hx
    simpa using hnz x hx
  rw [hsn, hstr, appendToBuffer_eq]
  simp only [Int.toNat_ofNat, List.take_length]

theorem editorScroll_rowOffset (E : editorState) :
    (editorScroll E).rowOffset = E.rowOffset ∨ (editorScroll E).rowOffset = E.cursorY ∨
    (editorScroll E).rowOffset = E.cursorY - E.screenRows + 1 := by
  unfold editorScroll
  by_cases h1 : E.cursorY < E.rowOffset
  · simp only [h1, if_true]
    split_ifs <;> simp
  · simp only [h1, if_false]
    split_ifs <;> simp

theorem editorDrawRows_eq (E : editorState) (buf : List Int) :
    editorDrawRows E buf = buf ++ ((List.range E.screenRows.toNat).map (fun (y : Nat) =>
      drawRowContent E y [] ++ [27, 91, 75] ++
        (if (y : Int) < E.screenRows - 1 then [13, 10] else []))).flatten := by
  unfold editorDrawRows
  rw [drawRowsFrom_eq]
  congr 2
  apply List.map_congr_left
  intro k _
  rw [zero_add, drawRow_nil]

theorem welcome_length : (welcomeFormat ++ KILO_VERSION).length = 28 := by decide

/-! ## Rendering: the claims -/

/-- The welcome branch of `drawRowContent` draws the welcome line of the
specification. -/
theorem drawRowContent_welcome (E : editorState) (y : Int) (buf : List Int)
    (hempty : E.totalRows = 0) (hy : y = E.screenRows.tdiv 3) (hfile : 0 ≤ y + E.rowOffset)
    (hcols : 0 ≤ E.screenColumns) (hint : isInt32 E.screenColumns) :
    drawRowContent E y buf = buf ++ welcomeLine E.screenColumns := by
  have hlen := welcome_length
  have hsn : snprintf 80 (welcomeFormat ++ KILO_VERSION) = welcomeFormat ++ KILO_VERSION := by
    unfold snprintf
    exact List.take_of_length_le (by rw [hlen]; decide)
  unfold isInt32 at hint
  unfold drawRowContent
  simp only [hempty, hsn, hlen, appendToBuffer_eq, appendSpaces_eq]
  rw [if_pos (by omega), if_pos ⟨trivial, hy⟩]
  unfold welcomeLine welcomePadding welcomeText
  by_cases hw : ((28 : Nat) : Int) > E.screenColumns
  · have hmin : ((List.take E.screenColumns.toNat (welcomeFormat ++ KILO_VERSION)).length : Int)
        = E.screenColumns := by
      rw [List.length_take, hlen]
      omega
    simp only [hw, if_true, hmin, sub_self, Int.tdiv_zero, Int.zero_tdiv, Int.zero_ediv]
    simp [whileCount]
  · have hmin : ((List.take E.screenColumns.toNat (welcomeFormat ++ KILO_VERSION)).length : Int)
        = 28 := by
      rw [List.length_take, hlen]
      omega
    have htake : List.take E.screenColumns.toNat (welcomeFormat ++ KILO_VERSION) =
        List.take (28 : Int).toNat (welcomeFormat ++ KILO_VERSION) := by
      rw [List.take_of_length_le (by rw [hlen]; omega),
        List.take_of_length_le (by rw [hlen]; decide)]
    simp only [hw, if_false, hmin]
    rw [Int.tdiv_eq_ediv (by omega) (by decide)]
    have hnn : 0 ≤ (E.screenColumns - 28) / 2 := by omega
    by_cases hp : (E.screenColumns - 28) / 2 = 0
    · simp [hp, htake, whileCount]
    · have hpos : 0 < (E.screenColumns - 28) / 2 := by omega
      have hcount : whileCount ((E.screenColumns - 28) / 2 - 1) =
          ((E.screenColumns - 28) / 2 - 1).toNat := by
        unfold whileCount
        rw [Int.emod_eq_of_lt (by omega) (by omega)]
      simp [hp, hpos, htake, hcount]

/-- C6: for an empty document (`totalRows = 0`) and `screenColumns ≥ 0` (a
32-bit value), in a state of the program that has a row to draw
(`screenRows ≥ 1`, and `rowOffset ≥ 0` as the main loop keeps it), the screen
row `y = screenRows/3` is one of the rows `editorDrawRows` draws, and what is
drawn for it is the welcome line (the 28-byte text
"kilo editor -- version 0.0.1" truncated to `screenColumns`; with
`padding = (screenColumns - textLen)/2 > 0` one `'~'`, `padding - 1` spaces and
the text, else the text alone), followed by `ESC[K` (and by `"\r\n"` unless it
is the last row).  For `screenColumns = 80` it is `'~'`, 25 spaces and the
28-byte message. -/
theorem welcome_row (E : editorState) (buf : List Int) (hempty : E.totalRows = 0)
    (hcols : 0 ≤ E.screenColumns) (hint : isInt32 E.screenColumns)
    (hrows : 1 ≤ E.screenRows) (hoff : 0 ≤ E.rowOffset) :
    drawRow E (E.screenRows.tdiv 3) buf =
      buf ++ welcomeLine E.screenColumns ++ [27, 91, 75] ++
        (if E.screenRows.tdiv 3 < E.screenRows - 1 then [13, 10] else []) ∧
    (E.screenColumns = 80 →
      drawRow E (E.screenRows.tdiv 3) [] =
        [126] ++ List.replicate 25 32 ++ (welcomeFormat ++ KILO_VERSION) ++ [27, 91, 75] ++
          (if E.screenRows.tdiv 3 < E.screenRows - 1 then [13, 10] else [])) ∧
    (welcomeFormat ++ KILO_VERSION).length = 28 ∧
    (0 ≤ E.screenRows.tdiv 3 ∧ E.screenRows.tdiv 3 < E.screenRows) ∧
    editorDrawRows E [] =
      ((List.range E.screenRows.toNat).map (fun (k : Nat) => drawRow E (k : Int) [])).flatten ∧
    ((List.range E.screenRows.toNat).map (fun (k : Nat) => drawRow E (k : Int) [])).get?
        (E.screenRows.tdiv 3).toNat =
      some (welcomeLine E.screenColumns ++ [27, 91, 75] ++
        (if E.screenRows.tdiv 3 < E.screenRows - 1 then [13, 10] else [])) := by
  have h3 : 0 ≤ E.screenRows.tdiv 3 ∧ E.screenRows.tdiv 3 < E.screenRows := by
    rw [Int.tdiv_eq_ediv (by omega) (by decide)]
    omega
  have hfile : 0 ≤ E.screenRows.tdiv 3 + E.rowOffset := by omega
  have hrow : ∀ b, drawRow E (E.screenRows.tdiv 3) b =
      b ++ welcomeLine E.screenColumns ++ [27, 91, 75] ++
        (if E.screenRows.tdiv 3 < E.screenRows - 1 then [13, 10] else []) := by
    intro b
    rw [drawRow_append, drawRow_nil,
      drawRowContent_welcome E _ [] hempty rfl hfile hcols hint]
    simp
  refine ⟨hrow buf, ?_, welcome_length, h3, ?_, ?_⟩
  · intro h80
    rw [hrow, h80]
    have : welcomeLine 80 =
        [126] ++ List.replicate 25 32 ++ (welcomeFormat ++ KILO_VERSION) := by
      decide
    rw [this]
    simp
  · unfold editorDrawRows
    rw [drawRowsFrom_eq]
    simp
  · have hlt : (E.screenRows.tdiv 3).toNat < E.screenRows.toNat := by omega
    rw [List.get?_eq_getElem?, List.getElem?_map, List.getElem?_range hlt]
    simp only [Option.map_some', Int.toNat_of_nonneg h3.1]
    rw [hrow]
    simp

theorem welcome_row_witness :
    (startState 24 80).totalRows = 0 ∧ 0 ≤ (startState 24 80).screenColumns ∧
    isInt32 (startState 24 80).screenColumns ∧
    1 ≤ (startState 24 80).screenRows ∧ 0 ≤ (startState 24 80).rowOffset ∧
    drawRow (startState 24 80) 8 [] =
      [126] ++ List.replicate 25 32 ++
        [107, 105, 108, 111, 32, 101, 100, 105, 116, 111, 114, 32, 45, 45, 32,
         118, 101, 114, 115, 105, 111, 110, 32, 48, 46, 48, 46, 49] ++ [27, 91, 75, 13, 10] :=
  ⟨by decide, by decide, by decide, by decide, by decide,
   ((welcome_row (startState 24 80) [] (by decide) (by decide) (by decide) (by decide)
     (by decide)).2.1 (by decide)).trans (by decide)⟩

/-- C7: with `screenColumns ≥ 0` and `rowOffset ≥ 0`, `editorDrawRows` emits the
screen rows in order, each as its content, `ESC[K` and (but for the last)
`"\r\n"`; for a screen row `y < screenRows` with `fileRow = y + rowOffset`, when
`fileRow < totalRows` the content is exactly the first
`min(size, screenColumns)` bytes of the document row `fileRow`, and when
`fileRow ≥ totalRows` and the document is not empty or `y ≠ screenRows/3` it is
a single `'~'`. -/
theorem drawRows_content (E : editorState) (hcols : 0 ≤ E.screenColumns)
    (hoff : 0 ≤ E.rowOffset) :
    (∀ buf, editorDrawRows E buf = buf ++ ((List.range E.screenRows.toNat).map (fun (y : Nat) =>
      drawRowContent E y [] ++ [27, 91, 75] ++
        (if (y : Int) < E.screenRows - 1 then [13, 10] else []))).flatten) ∧
    (∀ y : Nat, (y : Int) < E.screenRows → (y : Int) + E.rowOffset < E.totalRows →
      rowAt E ((y : Int) + E.rowOffset) =
        E.rows.getD (y + E.rowOffset.toNat) { size := 0, chars := [] } ∧
      drawRowContent E y [] =
        (rowAt E ((y : Int) + E.rowOffset)).chars.take
          (min (rowAt E ((y : Int) + E.rowOffset)).size E.screenColumns).toNat) ∧
    (∀ y : Nat, (y : Int) < E.screenRows → (y : Int) + E.rowOffset ≥ E.totalRows →
      (E.totalRows ≠ 0 ∨ (y : Int) ≠ E.screenRows.tdiv 3) →
      drawRowContent E y [] = [126]) := by
  refine ⟨editorDrawRows_eq E, ?_, ?_⟩
  · intro y _ hfile
    constructor
    · unfold rowAt
      rw [if_pos (by omega)]
      congr 1
      omega
    · unfold drawRowContent
      simp only [appendToBuffer_eq, List.nil_append]
      rw [if_neg (by omega)]
      congr 2
      by_cases h : (rowAt E (↑y + E.rowOffset)).size > E.screenColumns
      · rw [if_pos h, min_eq_right (by omega)]
      · rw [if_neg h, min_eq_left (by omega)]
  · intro y _ hfile hnw
    unfold drawRowContent
    simp only [appendToBuffer_eq, List.nil_append]
    rw [if_pos hfile, if_neg (by
      rintro ⟨h1, h2⟩
      rcases hnw with h | h
      · exact h h1
      · exact h h2)]
    rfl

theorem drawRows_content_witness :
    0 ≤ twoRowState.screenColumns ∧ 0 ≤ twoRowState.rowOffset ∧
    drawRowContent twoRowState (0 : Nat) [] = [104, 101, 108] ∧
    drawRowContent twoRowState (1 : Nat) [] = [126] :=
  ⟨by decide, by decide,
   (((drawRows_content twoRowState (by decide) (by decide)).2.1
      0 (by decide) (by decide)).2).trans (by decide),
   (drawRows_content twoRowState (by decide) (by decide)).2.2
      1 (by decide) (by decide) (by decide)⟩

/-! ## Key dispatch -/

theorem ctrl_q : CTRL_KEY 113 = 17 := by decide

theorem moveTimes_iterate (key : Int) (n : Nat) (E : editorState) :
    moveTimes key n E = (editorMoveCursor key)^[n] E := by
  induction n generalizing E with
  | zero => rfl
  | succ n ih => rw [Function.iterate_succ_apply, ← ih]; rfl

theorem moveTimes_up (n : Nat) (E : editorState) (hy : 0 ≤ E.cursorY) :
    moveTimes ARROW_UP n E = { E with cursorY := max 0 (E.cursorY - (n : Int)) } := by
  induction n generalizing E with
  | zero =>
    simp only [moveTimes, Nat.cast_zero, sub_zero, max_eq_right hy]
  | succ n ih =>
    simp only [moveTimes]
    by_cases h0 : E.cursorY = 0
    · have hstep : editorMoveCursor ARROW_UP E = E := by
        simp [editorMoveCursor, ARROW_UP, ARROW_LEFT, ARROW_RIGHT, h0]
      rw [hstep, ih E hy]
      congr 1
      rw [h0]
      simp only [zero_sub, Nat.cast_add, Nat.cast_one]
      rw [max_eq_left (by omega), max_eq_left (by omega)]
    · have hstep : editorMoveCursor ARROW_UP E = { E with cursorY := E.cursorY - 1 } := by
        simp [editorMoveCursor, ARROW_UP, ARROW_LEFT, ARROW_RIGHT, h0]
      rw [hstep, ih _ (by simp only; omega)]
      simp only [Nat.cast_add, Nat.cast_one]
      congr 1
      congr 1
      omega

theorem moveTimes_down (n : Nat) (E : editorState) (hy : E.cursorY ≤ E.totalRows) :
    moveTimes ARROW_DOWN n E =
      { E with cursorY := min E.totalRows (E.cursorY + (n : Int)) } := by
  induction n generalizing E with
  | zero =>
    simp only [moveTimes, Nat.cast_zero, add_zero, min_eq_right hy]
  | succ n ih =>
    simp only [moveTimes]
    by_cases h0 : E.cursorY = E.totalRows
    · have hstep : editorMoveCursor ARROW_DOWN E = E := by
        simp [editorMoveCursor, ARROW_UP, ARROW_LEFT, ARROW_RIGHT, ARROW_DOWN, h0]
      rw [hstep, ih E hy]
      congr 1
      rw [h0]
      simp only [Nat.cast_add, Nat.cast_one]
      rw [min_eq_left (by omega), min_eq_left (by omega)]
    · have hstep : editorMoveCursor ARROW_DOWN E = { E with cursorY := E.cursorY + 1 } := by
        simp [editorMoveCursor, ARROW_UP, ARROW_LEFT, ARROW_RIGHT, ARROW_DOWN, h0]
      rw [hstep, ih _ (by simp only; omega)]
      simp only [Nat.cast_add, Nat.cast_one]
      congr 1
      congr 1
      omega

theorem whileCount_nonneg (n : Int) (h0 : 0 ≤ n) (hint : isInt32 n) : whileCount n = n.toNat := by
  unfold isInt32 at hint
  unfold whileCount
  rw [Int.emod_eq_of_lt h0 (by omega)]

/-- C11: for `screenRows ≥ 0` (a 32-bit value) and `0 ≤ cursorY ≤ totalRows`,
dispatching PAGE_UP gives the state reached by applying
`editorMoveCursor(ARROW_UP)` `screenRows` times, which is the state with
`cursorY` replaced by `max(0, cursorY - screenRows)`; dispatching PAGE_DOWN
gives the state reached by applying `editorMoveCursor(ARROW_DOWN)`
`screenRows` times, which is the state with `cursorY` replaced by
`min(totalRows, cursorY + screenRows)`; no other field changes. -/
theorem page_keys_repeat_arrow (E : editorState) (hrows : 0 ≤ E.screenRows)
    (hint : isInt32 E.screenRows) (hy : 0 ≤ E.cursorY ∧ E.cursorY ≤ E.totalRows) :
    (∀ input rest, editorReadKey input = .key PAGE_UP rest →
      editorProcessKeypress input E =
        .running ((editorMoveCursor ARROW_UP)^[E.screenRows.toNat] E) rest) ∧
    (editorMoveCursor ARROW_UP)^[E.screenRows.toNat] E =
      { E with cursorY := max 0 (E.cursorY - E.screenRows) } ∧
    (∀ input rest, editorReadKey input = .key PAGE_DOWN rest →
      editorProcessKeypress input E =
        .running ((editorMoveCursor ARROW_DOWN)^[E.screenRows.toNat] E) rest) ∧
    (editorMoveCursor ARROW_DOWN)^[E.screenRows.toNat] E =
      { E with cursorY := min E.totalRows (E.cursorY + E.screenRows) } := by
  have hcount := whileCount_nonneg E.screenRows hrows hint
  have hcast : ((E.screenRows.toNat : Nat) : Int) = E.screenRows := Int.toNat_of_nonneg hrows
  refine ⟨?_, ?_, ?_, ?_⟩
  · intro input rest hkey
    rw [editorProcessKeypress_key hkey, ← moveTimes_iterate, ← hcount]
    simp [processKey, PAGE_UP, ctrl_q, HOME_KEY, END_KEY]
  · rw [← moveTimes_iterate, moveTimes_up _ _ hy.1, hcast]
  · intro input rest hkey
    rw [editorProcessKeypress_key hkey, ← moveTimes_iterate, ← hcount]
    simp [processKey, PAGE_UP, PAGE_DOWN, ctrl_q, HOME_KEY, END_KEY]
  · rw [← moveTimes_iterate, moveTimes_down _ _ hy.2, hcast]

theorem page_keys_repeat_arrow_witness :
    0 ≤ twoRowState.screenRows ∧ isInt32 twoRowState.screenRows ∧
    (0 ≤ twoRowState.cursorY ∧ twoRowState.cursorY ≤ twoRowState.totalRows) ∧
    editorProcessKeypress [.byte 27, .byte 91, .byte 53, .byte 126] twoRowState =
      .running ((editorMoveCursor ARROW_UP)^[twoRowState.screenRows.toNat] twoRowState) [] ∧
    (editorMoveCursor ARROW_UP)^[twoRowState.screenRows.toNat] twoRowState =
      { twoRowState with cursorY := 0 } ∧
    (editorMoveCursor ARROW_DOWN)^[twoRowState.screenRows.toNat] twoRowState =
      { twoRowState with cursorY := 2 } :=
  ⟨by decide, by decide, by decide,
   (page_keys_repeat_arrow twoRowState (by decide) (by decide) (by decide)).1
     [.byte 27, .byte 91, .byte 53, .byte 126] [] (by decide),
   (page_keys_repeat_arrow twoRowState (by decide) (by decide) (by decide)).2.1.trans
     (by decide),
   (page_keys_repeat_arrow twoRowState (by decide) (by decide) (by decide)).2.2.2.trans
     (by decide)⟩

/-- C12: in every editor state, dispatching HOME_KEY sets `cursorX` to 0 and
dispatching END_KEY sets it to `screenColumns - 1`; `cursorY`, `rowOffset`,
`screenRows`, `screenColumns`, `totalRows` and the rows stay as they are. -/
theorem home_end_set_column (E : editorState) :
    (∀ input rest, editorReadKey input = .key HOME_KEY rest →
      editorProcessKeypress input E = .running { E with cursorX := 0 } rest) ∧
    (∀ input rest, editorReadKey input = .key END_KEY rest →
      editorProcessKeypress input E =
        .running { E with cursorX := E.screenColumns - 1 } rest) := by
  constructor
  · intro input rest hkey
    rw [editorProcessKeypress_key hkey]
    simp [processKey, ctrl_q, HOME_KEY]
  · intro input rest hkey
    rw [editorProcessKeypress_key hkey]
    simp [processKey, ctrl_q, HOME_KEY, END_KEY]

theorem home_end_set_column_witness :
    editorProcessKeypress [.byte 27, .byte 79, .byte 72] { twoRowState with cursorX := 2 } =
      .running { twoRowState with cursorX := 0 } [] ∧
    editorProcessKeypress [.byte 27, .byte 91, .byte 52, .byte 126] twoRowState =
      .running { twoRowState with cursorX := 2 } [] :=
  ⟨((home_end_set_column { twoRowState with cursorX := 2 }).1 [.byte 27, .byte 79, .byte 72] []
      (by decide)).trans (by decide),
   ((home_end_set_column twoRowState).2 [.byte 27, .byte 91, .byte 52, .byte 126] []
      (by decide)).trans (by decide)⟩

/-- C13: a key returned by `editorReadKey` that is not the quit key, HOME_KEY,
END_KEY, PAGE_UP, PAGE_DOWN or an arrow key leaves the whole editor state
unchanged when `editorProcessKeypress` dispatches it; DEL_KEY, the literal ESC
and every printable byte (32..126) are such keys. -/
theorem other_keys_noop (E : editorState) :
    (∀ input c rest, editorReadKey input = .key c rest → c ∉ actionKeys →
      editorProcessKeypress input E = .running E rest) ∧
    DEL_KEY ∉ actionKeys ∧ ESC ∉ actionKeys ∧
    (∀ c : Int, 32 ≤ c → c ≤ 126 → c ∉ actionKeys) := by
  refine ⟨?_, by decide, by decide, ?_⟩
  · intro input c rest hkey hc
    simp only [actionKeys, List.mem_cons, List.mem_singleton, List.not_mem_nil, or_false,
      not_or] at hc
    obtain ⟨h1, h2, h3, h4, h5, h6, h7, h8, h9⟩ := hc
    rw [editorProcessKeypress_key hkey]
    simp [processKey, h1, h2, h3, h4, h5, h6, h7, h8, h9]
  · intro c hlo hhi hmem
    simp only [actionKeys, List.mem_cons, List.mem_singleton, List.not_mem_nil, or_false,
      CTRL_KEY, HOME_KEY, END_KEY, PAGE_UP, PAGE_DOWN, ARROW_UP, ARROW_DOWN, ARROW_LEFT,
      ARROW_RIGHT] at hmem
    have h17 : Int.land 113 31 = 17 := by decide
    rw [h17] at hmem
    omega

theorem other_keys_noop_witness :
    (120 : Int) ∉ actionKeys ∧
    editorProcessKeypress [.byte 120, .byte 121] twoRowState = .running twoRowState [.byte 121] ∧
    editorProcessKeypress [.byte 27, .byte 91, .byte 51, .byte 126] twoRowState =
      .running twoRowState [] :=
  ⟨by decide,
   (other_keys_noop twoRowState).1 [.byte 120, .byte 121] 120 [.byte 121] (by decide)
     (by decide),
   (other_keys_noop twoRowState).1 [.byte 27, .byte 91, .byte 51, .byte 126] DEL_KEY []
     (by decide) (by decide)⟩

/-- C14: `CTRL_KEY('q')` is 17; `editorProcessKeypress` ends the process on a
decoded key exactly when the key is 17; it then has written exactly one frame,
the one of `editorRefreshScreen`, reported nothing, and calls `exit(0)`; on
every other key it returns to the main loop. -/
theorem quit_key (E : editorState) (input : List ReadResult) (c : Int)
    (rest : List ReadResult) (hkey : editorReadKey input = .key c rest) :
    CTRL_KEY 113 = 17 ∧
    ((∃ x, editorProcessKeypress input E = .exited x) ↔ c = 17) ∧
    (c = 17 →
      editorProcessKeypress input E =
        .exited { writes := (editorRefreshScreen E).2, diagnostic := none, status := 0 } ∧
      ∃ frame, (editorRefreshScreen E).2 = [frame]) ∧
    (c ≠ 17 → ∃ E1, editorProcessKeypress input E = .running E1 rest) := by
  have h17 : CTRL_KEY 113 = 17 := by decide
  have hquit : c = 17 → editorProcessKeypress input E =
      .exited { writes := (editorRefreshScreen E).2, diagnostic := none, status := 0 } := by
    intro hc
    rw [editorProcessKeypress_key hkey, hc]
    simp [processKey, h17]
  have hrun : c ≠ 17 → ∃ E1, editorProcessKeypress input E = .running E1 rest := by
    intro hc
    obtain ⟨E1, h1, _⟩ := processKey_running c E rest (by rw [h17]; exact hc)
    exact ⟨E1, by rw [editorProcessKeypress_key hkey, h1]⟩
  refine ⟨h17, ⟨?_, ?_⟩, ?_, hrun⟩
  · rintro ⟨x, hx⟩
    by_contra hc
    obtain ⟨E1, h1⟩ := hrun hc
    rw [h1] at hx
    exact StepResult.noConfusion hx
  · intro hc
    exact ⟨_, hquit hc⟩
  · intro hc
    exact ⟨hquit hc, ⟨_, rfl⟩⟩

theorem quit_key_witness :
    editorReadKey [.timeout, .byte 17, .byte 120] = .key 17 [.byte 120] ∧
    editorProcessKeypress [.timeout, .byte 17, .byte 120] (startState 1 4) =
      .exited { writes := [[27, 91, 63, 50, 53, 108, 27, 91, 72, 107, 105, 108, 111, 27, 91, 75,
                            27, 91, 49, 59, 49, 72, 27, 91, 63, 50, 53, 104]],
                diagnostic := none, status := 0 } :=
  ⟨by decide,
   ((quit_key (startState 1 4) [.timeout, .byte 17, .byte 120] 17 [.byte 120]
      (by decide)).2.2.1 rfl).1.trans (by decide)⟩

/-! ## Frames -/

theorem editorDrawRows_append (E : editorState) (buf : List Int) :
    editorDrawRows E buf = buf ++ editorDrawRows E [] := by
  rw [editorDrawRows_eq E buf, editorDrawRows_eq E []]
  simp

/-- With 32-bit fields the buffer written by `editorRefreshScreen` ends with the
whole cursor escape and `ESC[?25h`. -/
theorem refresh_payload (E : editorState) (hint : int32Fields E) :
    (editorRefreshScreen E).2 =
      [ [27, 91, 63, 50, 53, 108] ++ [27, 91, 72] ++ editorDrawRows (editorScroll E) [] ++
        ([27, 91] ++ fmtInt (E.cursorY - (editorScroll E).rowOffset + 1) ++ [59] ++
          fmtInt (E.cursorX + 1) ++ [72]) ++ [27, 91, 63, 50, 53, 104] ] := by
  have hf := editorScroll_frame E
  have hro := editorScroll_rowOffset E
  unfold int32Fields isInt32 at hint
  have hr : -10 ^ 10 < E.cursorY - (editorScroll E).rowOffset + 1 ∧
      E.cursorY - (editorScroll E).rowOffset + 1 < 10 ^ 10 := by
    rcases hro with h | h | h <;> rw [h] <;> constructor <;> omega
  have hc : -10 ^ 10 < E.cursorX + 1 ∧ E.cursorX + 1 < 10 ^ 10 := by
    constructor <;> omega
  unfold editorRefreshScreen
  simp only [hf.1, hf.2.1]
  rw [cursorEscape_whole _ _ hr hc, editorDrawRows_append]
  simp only [appendToBuffer_eq]
  simp

theorem byteCount_append (a b1 : List ReadResult) :
    byteCount (a ++ b1) = byteCount a + byteCount b1 := by
  induction a with
  | nil => simp [byteCount]
  | cons r a ih =>
    cases r with
    | byte c => show byteCount (a ++ b1) + 1 = byteCount a + 1 + byteCount b1; omega
    | timeout => exact ih
    | failed e => exact ih

theorem byteCount_noData (pre : List ReadResult)
    (hpre : ∀ r ∈ pre, r = .timeout ∨ r = .failed EAGAIN) : byteCount pre = 0 := by
  induction pre with
  | nil => rfl
  | cons r pre ih =>
    have ih1 := ih (fun x hx => hpre x (List.mem_cons_of_mem _ hx))
    rcases hpre r (List.mem_cons_self _ _) with rfl | rfl <;> simpa [byteCount] using ih1

/-- The wait loop uses up results that are not bytes and then one byte. -/
theorem waitByte_consumes (input : List ReadResult) (c : Int) (t : List ReadResult)
    (h : waitByte input = .key c t) :
    ∃ pre, input = pre ++ .byte c :: t ∧ byteCount pre = 0 := by
  induction input with
  | nil => simp [waitByte] at h
  | cons r input ih =>
    cases r with
    | byte b =>
      simp only [waitByte, KeyResult.key.injEq] at h
      exact ⟨[], by simp [h.1, h.2], rfl⟩
    | timeout =>
      simp only [waitByte] at h
      obtain ⟨pre, hpre, hcount⟩ := ih h
      exact ⟨.timeout :: pre, by rw [hpre]; rfl, by simpa [byteCount] using hcount⟩
    | failed e =>
      simp only [waitByte] at h
      split_ifs at h
      obtain ⟨pre, hpre, hcount⟩ := ih h
      exact ⟨.failed e :: pre, by rw [hpre]; rfl, by simpa [byteCount] using hcount⟩

/-- A follow-on read uses up at most one result. -/
theorem readSeq_consumes (t : List ReadResult) :
    ∃ u, t = u ++ (readSeq t).2 ∧ byteCount u ≤ 1 := by
  rcases t with _ | ⟨r, t⟩
  · exact ⟨[], rfl, by simp [byteCount]⟩
  · cases r with
    | byte b => exact ⟨[.byte b], rfl, by simp [byteCount]⟩
    | timeout => exact ⟨[.timeout], rfl, by simp [byteCount]⟩
    | failed e => exact ⟨[.failed e], rfl, by simp [byteCount]⟩

/-- After the first byte the decoder uses up at most three more bytes. -/
theorem decodeAfter_consumes (c : Int) (t : List ReadResult) (k : Int)
    (rest : List ReadResult) (h : decodeAfter c t = .key k rest) :
    ∃ u, t = u ++ rest ∧ byteCount u ≤ 3 := by
  obtain ⟨u1, h1, hc1⟩ := readSeq_consumes t
  obtain ⟨u2, h2, hc2⟩ := readSeq_consumes (readSeq t).2
  obtain ⟨u3, h3, hc3⟩ := readSeq_consumes (readSeq (readSeq t).2).2
  have e1 : ∃ u, t = u ++ (readSeq t).2 ∧ byteCount u ≤ 3 := ⟨u1, h1, by omega⟩
  have e2 : ∃ u, t = u ++ (readSeq (readSeq t).2).2 ∧ byteCount u ≤ 3 :=
    ⟨u1 ++ u2, by rw [List.append_assoc, ← h2, ← h1], by rw [byteCount_append]; omega⟩
  have e3 : ∃ u, t = u ++ (readSeq (readSeq (readSeq t).2).2).2 ∧ byteCount u ≤ 3 :=
    ⟨u1 ++ u2 ++ u3, by rw [List.append_assoc, List.append_assoc, ← h3, ← h2, ← h1],
      by rw [byteCount_append, byteCount_append]; omega⟩
  unfold decodeAfter at h
  by_cases hc : c = ESC
  · rw [if_pos hc] at h
    rcases hr1 : readSeq t with ⟨o1, r1⟩
    rw [hr1] at h e1 e2 e3
    simp only at h e1 e2 e3
    cases o1 with
    | none =>
      simp only [KeyResult.key.injEq] at h
      rw [← h.2]; exact e1
    | some s0 =>
      simp only at h
      rcases hr2 : readSeq r1 with ⟨o2, r2⟩
      rw [hr2] at h e2 e3
      simp only at h e2 e3
      cases o2 with
      | none =>
        simp only [KeyResult.key.injEq] at h
        rw [← h.2]; exact e2
      | some s1 =>
        simp only at h
        by_cases h0 : s0 = 91
        · rw [if_pos h0] at h
          by_cases hd : 48 ≤ s1 ∧ s1 ≤ 57
          · rw [if_pos hd] at h
            rcases hr3 : readSeq r2 with ⟨o3, r3⟩
            rw [hr3] at h e3
            simp only at h e3
            cases o3 with
            | none =>
              simp only [KeyResult.key.injEq] at h
              rw [← h.2]; exact e3
            | some s2 =>
              simp only at h
              split_ifs at h <;>
                (simp only [KeyResult.key.injEq] at h; rw [← h.2]; exact e3)
          · rw [if_neg hd] at h
            simp only [KeyResult.key.injEq] at h
            rw [← h.2]; exact e2
        · rw [if_neg h0] at h
          split_ifs at h <;>
            (simp only [KeyResult.key.injEq] at h; rw [← h.2]; exact e2)
  · rw [if_neg hc] at h
    simp only [KeyResult.key.injEq] at h
    exact ⟨[], by simp [h.2], by simp [byteCount]⟩

/-- C20: after any leading no-data results one call of `editorReadKey` uses up
exactly 1 byte when the first byte is not ESC; when the first byte is ESC and
the next bytes are there it uses up exactly 3 bytes, or exactly 4 when the two
follow-on bytes are `[` and a digit; it never uses up more than 4 bytes; and
the follow-on bytes it has read are gone even when the result is the literal
ESC, the next call starting after them. -/
theorem editorReadKey_lookahead (pre : List ReadResult)
    (hpre : ∀ r ∈ pre, r = .timeout ∨ r = .failed EAGAIN) :
    (∀ c t, c ≠ ESC → editorReadKey (pre ++ .byte c :: t) = .key c t) ∧
    (∀ s0 s1 t, ¬ (s0 = 91 ∧ 48 ≤ s1 ∧ s1 ≤ 57) →
      ∃ k, editorReadKey (pre ++ .byte ESC :: .byte s0 :: .byte s1 :: t) = .key k t) ∧
    (∀ d s2 t, 48 ≤ d → d ≤ 57 →
      ∃ k, editorReadKey (pre ++ .byte ESC :: .byte 91 :: .byte d :: .byte s2 :: t) =
        .key k t) ∧
    (∀ input k rest, editorReadKey input = .key k rest →
      ∃ used, input = used ++ rest ∧ byteCount used ≤ 4) ∧
    (∀ s0 s1 t, s0 ≠ 91 → s0 ≠ 79 →
      editorReadKey (pre ++ .byte ESC :: .byte s0 :: .byte s1 :: t) = .key ESC t) ∧
    (∀ d s2 t, 48 ≤ d → d ≤ 57 → s2 ≠ 126 →
      editorReadKey (pre ++ .byte ESC :: .byte 91 :: .byte d :: .byte s2 :: t) =
        .key ESC t) := by
  have hskip : ∀ input, editorReadKey (pre ++ input) = editorReadKey input := by
    intro input
    unfold editorReadKey
    rw [waitByte_skip pre input hpre]
  refine ⟨?_, ?_, ?_, ?_, ?_, ?_⟩
  · intro c t hc
    rw [hskip]
    simp [editorReadKey, waitByte, decodeAfter, hc]
  · intro s0 s1 t hnd
    rw [hskip]
    by_cases h0 : s0 = 91
    · have hd : ¬ (48 ≤ s1 ∧ s1 ≤ 57) := fun h => hnd ⟨h0, h⟩
      exact ⟨bracketKey s1, by simp [editorReadKey, waitByte, decodeAfter, readSeq, h0, hd]⟩
    · by_cases hO : s0 = 79
      · exact ⟨oKey s1, by simp [editorReadKey, waitByte, decodeAfter, readSeq, hO]⟩
      · exact ⟨ESC, by simp [editorReadKey, waitByte, decodeAfter, readSeq, h0, hO]⟩
  · intro d s2 t hlo hhi
    rw [hskip]
    by_cases h2 : s2 = 126
    · exact ⟨tildeKey d, by
        simp [editorReadKey, waitByte, decodeAfter, readSeq, hlo, hhi, h2]⟩
    · exact ⟨ESC, by simp [editorReadKey, waitByte, decodeAfter, readSeq, hlo, hhi, h2]⟩
  · intro input k rest h
    unfold editorReadKey at h
    rcases hw : waitByte input with ⟨c, t⟩ | x | _
    · rw [hw] at h
      simp only at h
      obtain ⟨p, hp, hp0⟩ := waitByte_consumes input c t hw
      obtain ⟨u, hu, hu3⟩ := decodeAfter_consumes c t k rest h
      refine ⟨p ++ .byte c :: u, ?_, ?_⟩
      · rw [hp, hu]; simp
      · rw [byteCount_append]
        simp only [byteCount]
        omega
    · rw [hw] at h; simp at h
    · rw [hw] at h; simp at h
  · intro s0 s1 t h0 hO
    rw [hskip]
    simp [editorReadKey, waitByte, decodeAfter, readSeq, h0, hO]
  · intro d s2 t hlo hhi h2
    rw [hskip]
    simp [editorReadKey, waitByte, decodeAfter, readSeq, hlo, hhi, h2]

theorem editorReadKey_lookahead_witness :
    (∀ r ∈ [ReadResult.timeout], r = .timeout ∨ r = .failed EAGAIN) ∧
    editorReadKey ([.timeout] ++ .byte 120 :: [.byte 121]) = .key 120 [.byte 121] ∧
    (∃ k, editorReadKey ([.timeout] ++ .byte ESC :: .byte 91 :: .byte 65 :: [.byte 121]) =
      .key k [.byte 121]) ∧
    (∃ k, editorReadKey ([.timeout] ++ .byte ESC :: .byte 91 :: .byte 53 :: .byte 126 ::
      [.byte 121]) = .key k [.byte 121]) ∧
    (∃ used, [ReadResult.byte 27, .byte 91, .byte 53, .byte 126, .byte 121] =
      used ++ [.byte 121] ∧ byteCount used ≤ 4) ∧
    editorReadKey ([.timeout] ++ .byte ESC :: .byte 120 :: .byte 121 :: [.byte 122]) =
      .key ESC [.byte 122] :=
  ⟨by decide,
   (editorReadKey_lookahead [.timeout] (by decide)).1 120 [.byte 121] (by decide),
   (editorReadKey_lookahead [.timeout] (by decide)).2.1 91 65 [.byte 121] (by decide),
   (editorReadKey_lookahead [.timeout] (by decide)).2.2.1 53 126 [.byte 121] (by decide)
     (by decide),
   (editorReadKey_lookahead [.timeout] (by decide)).2.2.2.1
     [.byte 27, .byte 91, .byte 53, .byte 126, .byte 121] PAGE_UP [.byte 121] (by decide),
   (editorReadKey_lookahead [.timeout] (by decide)).2.2.2.2.1 120 121 [.byte 122] (by decide)
     (by decide)⟩

/-! ## Cursor position reply: lemmas -/

theorem isDigit_iff (c : Int) : isDigit c = true ↔ 48 ≤ c ∧ c ≤ 57 := by
  simp [isDigit]

/-- The reading loop keeps the bytes in front of the first `'R'`. -/
theorem readReply_bytes (n : Nat) (bs : List Int) (rest : List ReadResult)
    (hlen : bs.length < n) (hR : (82 : Int) ∉ bs) :
    readReply n (bs.map .byte ++ .byte 82 :: rest) = (bs, rest) := by
  induction bs generalizing n with
  | nil =>
    rcases n with _ | n
    · simp at hlen
    · simp [readReply, readSeq]
  | cons b bs ih =>
    rcases n with _ | n
    · simp at hlen
    · have hb : b ≠ 82 := fun h => hR (by simp [h])
      have hrec := ih n (by simpa using hlen) (fun h => hR (List.mem_cons_of_mem _ h))
      simp only [List.map_cons, List.cons_append, readReply, readSeq_byte, if_neg hb, hrec]

/-- What the reading loop keeps: the bytes at the head of the input in front
of the first `'R'`, at most `n` of them. -/
theorem readReply_kept (n : Nat) (input : List ReadResult) :
    (readReply n input).1 = ((leadingBytes input).takeWhile (fun c => c ≠ 82)).take n := by
  induction n generalizing input with
  | zero => simp [readReply]
  | succ n ih =>
    rcases input with _ | ⟨r, input⟩
    · simp [readReply, readSeq, leadingBytes]
    · cases r with
      | byte c =>
        by_cases hc : c = 82
        · simp [readReply, readSeq, leadingBytes, hc]
        · simp [readReply, readSeq, leadingBytes, hc, ih]
      | timeout => simp [readReply, readSeq, leadingBytes]
      | failed e => simp [readReply, readSeq, leadingBytes]

/-- Where the reading loop stops: after the kept bytes comes the result that
stopped it, an `'R'` or a read without a byte, unless the room was used up or
the input ended. -/
theorem readReply_stop (n : Nat) (input : List ReadResult) :
    ∃ stop, input = (readReply n input).1.map .byte ++ stop ++ (readReply n input).2 ∧
      (stop = [] ∨ stop = [.byte 82] ∨ stop = [.timeout] ∨ ∃ e, stop = [.failed e]) ∧
      ((readReply n input).1.length = n → stop = []) ∧
      (stop = [] → (readReply n input).1.length = n ∨ (readReply n input).2 = []) := by
  induction n generalizing input with
  | zero => exact ⟨[], by simp [readReply], Or.inl rfl, fun _ => rfl, fun _ => Or.inl rfl⟩
  | succ n ih =>
    rcases input with _ | ⟨r, input⟩
    · exact ⟨[], by simp [readReply, readSeq], Or.inl rfl, fun _ => rfl, fun _ => Or.inr rfl⟩
    · cases r with
      | byte c =>
        by_cases hc : c = 82
        · refine ⟨[.byte 82], by simp [readReply, readSeq, hc], Or.inr (Or.inl rfl), ?_, ?_⟩
          · intro h; simp [readReply, readSeq, hc] at h
          · intro h; simp at h
        · obtain ⟨stop, h1, h2, h3, h4⟩ := ih input
          refine ⟨stop, ?_, h2, ?_, ?_⟩
          · simp only [readReply, readSeq_byte, if_neg hc, List.map_cons, List.cons_append]
            rw [← h1]
          · intro h
            apply h3
            simpa [readReply, readSeq, hc] using h
          · intro h
            rcases h4 h with h5 | h5
            · left; simp [readReply, readSeq, hc, h5]
            · right; simpa [readReply, readSeq, hc] using h5
      | timeout =>
        refine ⟨[.timeout], by simp [readReply, readSeq], Or.inr (Or.inr (Or.inl rfl)), ?_, ?_⟩
        · intro h; simp [readReply, readSeq] at h
        · intro h; simp at h
      | failed e =>
        refine ⟨[.failed e], by simp [readReply, readSeq], Or.inr (Or.inr (Or.inr ⟨e, rfl⟩)),
          ?_, ?_⟩
        · intro h; simp [readReply, readSeq] at h
        · intro h; simp at h

theorem scanDigits_numeral (ds tail : List Int) (acc : Nat)
    (hds : ∀ c ∈ ds, 48 ≤ c ∧ c ≤ 57) (htail : ∀ c, tail.head? = some c → isDigit c = false) :
    scanDigits (ds ++ tail) acc =
      (ds.foldl (fun a c => 10 * a + (c - 48).toNat) acc, tail) := by
  induction ds generalizing acc with
  | nil =>
    rcases tail with _ | ⟨c, tail⟩
    · rfl
    · have := htail c rfl
      simp [scanDigits, this]
  | cons d ds ih =>
    have hd : isDigit d = true := (isDigit_iff d).mpr (hds d (List.mem_cons_self _ _))
    simp only [List.cons_append, scanDigits, hd, if_true, List.foldl_cons]
    exact ih _ (fun c hc => hds c (List.mem_cons_of_mem _ hc))

theorem scanDigits_split (s : List Int) (acc : Nat) :
    ∃ ds, s = ds ++ (scanDigits s acc).2 ∧ (∀ c ∈ ds, 48 ≤ c ∧ c ≤ 57) ∧
      (∀ c, s.head? = some c → isDigit c = true → ds ≠ []) := by
  induction s generalizing acc with
  | nil => exact ⟨[], rfl, by simp, by simp⟩
  | cons c s ih =>
    by_cases hc : isDigit c = true
    · obtain ⟨ds, h1, h2, _⟩ := ih (10 * acc + (c - 48).toNat)
      refine ⟨c :: ds, ?_, ?_, by simp⟩
      · simp only [scanDigits, hc, if_true, List.cons_append]
        rw [← h1]
      · intro x hx
        rcases List.mem_cons.mp hx with rfl | hx
        · exact (isDigit_iff _).mp hc
        · exact h2 x hx
    · refine ⟨[], by simp [scanDigits, hc], by simp, ?_⟩
      intro x hx hd
      simp only [List.head?_cons, Option.some.injEq] at hx
      rw [hx] at hc
      exact absurd hd hc

/-- A successful `%d` has read white space, an optional sign and a digit
string from the head of the text. -/
theorem scanInt_beginsInt (s : List Int) (v : Int) (t : List Int)
    (h : scanInt s = some (v, t)) : beginsInt s t := by
  unfold scanInt at h
  simp only at h
  by_cases hsign : (s.dropWhile isSpace).head? = some 45 ∨ (s.dropWhile isSpace).head? = some 43
  · -- a sign is there
    simp only [if_pos hsign] at h
    by_cases hdig : Option.all isDigit (s.dropWhile isSpace).tail.head? = true ∧
        (s.dropWhile isSpace).tail ≠ []
    · rw [if_pos hdig] at h
      have ht : (scanDigits (s.dropWhile isSpace).tail 0).2 = t := by
        injection h with h
        exact congrArg Prod.snd h
      obtain ⟨ds, h1, h2, h3⟩ := scanDigits_split (s.dropWhile isSpace).tail 0
      have hne : ds ≠ [] := by
        rcases hs2 : (s.dropWhile isSpace).tail with _ | ⟨c, cs⟩
        · exact absurd hs2 hdig.2
        · have := hdig.1
          rw [hs2] at this h3
          exact h3 c rfl (by simpa using this)
      rcases hs1 : s.dropWhile isSpace with _ | ⟨x, xs⟩
      · rw [hs1] at hsign; simp at hsign
      · refine ⟨s.takeWhile isSpace, [x], ds, ?_, fun c hc => List.mem_takeWhile_imp hc, ?_,
          hne, h2⟩
        · rw [hs1] at h1 ht
          simp only [List.tail_cons] at h1 ht
          rw [← ht]
          calc s = s.takeWhile isSpace ++ s.dropWhile isSpace :=
                (List.takeWhile_append_dropWhile _ _).symm
            _ = s.takeWhile isSpace ++ (x :: xs) := by rw [hs1]
            _ = s.takeWhile isSpace ++ [x] ++ ds ++ (scanDigits xs 0).2 := by
                rw [List.append_assoc, List.append_assoc, ← h1]; rfl
        · rw [hs1] at hsign
          simp only [List.head?_cons, Option.some.injEq] at hsign
          rcases hsign with hx | hx
          · right; left; rw [hx]
          · right; right; rw [hx]
    · rw [if_neg hdig] at h
      simp at h
  · -- no sign
    simp only [if_neg hsign] at h
    by_cases hdig : Option.all isDigit (s.dropWhile isSpace).head? = true ∧
        s.dropWhile isSpace ≠ []
    · rw [if_pos hdig] at h
      have ht : (scanDigits (s.dropWhile isSpace) 0).2 = t := by
        injection h with h
        exact congrArg Prod.snd h
      obtain ⟨ds, h1, h2, h3⟩ := scanDigits_split (s.dropWhile isSpace) 0
      have hne : ds ≠ [] := by
        rcases hs2 : s.dropWhile isSpace with _ | ⟨c, cs⟩
        · exact absurd hs2 hdig.2
        · have := hdig.1
          rw [hs2] at this h3
          exact h3 c rfl (by simpa using this)
      refine ⟨s.takeWhile isSpace, [], ds, ?_, fun c hc => List.mem_takeWhile_imp hc,
        Or.inl rfl, hne, h2⟩
      rw [← ht]
      calc s = s.takeWhile isSpace ++ s.dropWhile isSpace :=
            (List.takeWhile_append_dropWhile _ _).symm
        _ = s.takeWhile isSpace ++ [] ++ ds ++ (scanDigits (s.dropWhile isSpace) 0).2 := by
            rw [List.append_nil, List.append_assoc, ← h1]
    · rw [if_neg hdig] at h
      simp at h

/-- A number in the range of `int` is stored as it is. -/
theorem storeInt_of_isInt32 (v : Int) (h : isInt32 v) : storeInt v = v := by
  obtain ⟨h1, h2⟩ := h
  unfold storeInt
  simp only
  rw [if_neg (by omega), if_neg (by omega)]
  omega

/-- What is stored is in the range of `int`. -/
theorem storeInt_isInt32 (v : Int) : isInt32 (storeInt v) := by
  unfold storeInt isInt32
  simp only
  omega

/-- On a digit string followed by something that is not a digit, `%d` reads
the number the string stands for and stores it as an `int`. -/
theorem scanInt_numeral (ds tail : List Int) (hds : isNumeral ds)
    (htail : ∀ c, tail.head? = some c → isDigit c = false) :
    scanInt (ds ++ tail) = some (storeInt (digitsValue ds : Int), tail) := by
  obtain ⟨hne, hall⟩ := hds
  obtain ⟨d, ds1, rfl⟩ := List.exists_cons_of_ne_nil hne
  have hd := hall d (List.mem_cons_self _ _)
  have hsp : isSpace d = false := by
    simp only [isSpace, Bool.or_eq_false_iff, decide_eq_false_iff_not, Bool.and_eq_false_iff]
    constructor
    · omega
    · right; omega
  have hdrop : List.dropWhile isSpace (d :: ds1 ++ tail) = d :: ds1 ++ tail := by
    simp [List.dropWhile, hsp]
  have hdig : isDigit d = true := (isDigit_iff d).mpr hd
  have hval := scanDigits_numeral (d :: ds1) tail 0 hall htail
  unfold scanInt
  simp only [hdrop]
  have h45 : ¬ ((d :: ds1 ++ tail).head? = some 45 ∨ (d :: ds1 ++ tail).head? = some 43) := by
    simp only [List.cons_append, List.head?_cons, Option.some.injEq]
    omega
  have h45a : ¬ (d :: ds1 ++ tail).head? = some 45 := fun h => h45 (Or.inl h)
  rw [if_neg h45, if_pos ⟨by simp [hdig], by simp⟩, if_neg h45a, hval]
  rfl

theorem beginsInt_append (s t x : List Int) (h : beginsInt s t) :
    beginsInt (s ++ x) (t ++ x) := by
  obtain ⟨ws, sign, ds, h1, h2, h3, h4⟩ := h
  exact ⟨ws, sign, ds, by rw [h1]; simp, h2, h3, h4⟩

theorem twoInts_append (s x : List Int) (h : twoInts s) : twoInts (s ++ x) := by
  obtain ⟨t1, t2, h1, h2⟩ := h
  exact ⟨t1 ++ x, t2 ++ x, by simpa using beginsInt_append _ _ x h1, beginsInt_append _ _ x h2⟩

/-- When `sscanf` makes both conversions the text holds two integers separated
by `';'`. -/
theorem sscanf2_two (s : List Int) (rows cols : Int) (h : (sscanf2 s rows cols).1 = 2) :
    twoInts s := by
  unfold sscanf2 at h
  rcases h1 : scanInt s with _ | ⟨r, s1⟩
  · rw [h1] at h
    simp only at h
    split_ifs at h
    all_goals omega
  · rw [h1] at h
    simp only at h
    by_cases h59 : s1.head? = some 59
    · rw [if_pos h59] at h
      rcases h2 : scanInt s1.tail with _ | ⟨c, s3⟩
      · rw [h2] at h
        simp at h
      · have hs1 : s1 = 59 :: s1.tail := by
          rcases s1 with _ | ⟨a, s1⟩
          · simp at h59
          · simp only [List.head?_cons, Option.some.injEq] at h59
            rw [h59]; rfl
        refine ⟨s1.tail, s3, ?_, scanInt_beginsInt _ _ _ h2⟩
        rw [← hs1]
        exact scanInt_beginsInt _ _ _ h1
    · rw [if_neg h59] at h
      simp at h

theorem getCursorPosition_wellFormed (ds1 ds2 : List Int) (rest : List ReadResult)
    (rows cols : Int) (h1 : isNumeral ds1) (h2 : isNumeral ds2)
    (hlen : (dsrReply ds1 ds2).length ≤ 31) :
    getCursorPosition true ((dsrReply ds1 ds2).map .byte ++ rest) rows cols =
      { ret := 0, rows := storeInt (digitsValue ds1 : Int),
        cols := storeInt (digitsValue ds2 : Int),
        rest := rest, writes := [[27, 91, 54, 110]] } := by
  have hbody : (dsrReply ds1 ds2).map ReadResult.byte ++ rest =
      ([27, 91] ++ ds1 ++ [59] ++ ds2).map ReadResult.byte ++ .byte 82 :: rest := by
    simp [dsrReply]
  have hR : (82 : Int) ∉ [27, 91] ++ ds1 ++ [59] ++ ds2 := by
    intro h
    simp at h
    rcases h with h | h
    · have := h1.2 _ h; omega
    · have := h2.2 _ h; omega
  have hkeep := readReply_bytes 31 ([27, 91] ++ ds1 ++ [59] ++ ds2) rest (by
    simp only [dsrReply, List.length_append, List.length_cons, List.length_nil] at hlen ⊢
    omega) hR
  have hnz : ∀ c ∈ ds1 ++ 59 :: ds2, c ≠ 0 := by
    intro c hc
    rcases List.mem_append.mp hc with h | h
    · have := h1.2 _ h; omega
    · rcases List.mem_cons.mp h with h | h
      · omega
      · have := h2.2 _ h; omega
  have hstr : List.takeWhile (fun c => decide (c ≠ 0)) (ds1 ++ 59 :: ds2) = ds1 ++ 59 :: ds2 := by
    rw [List.takeWhile_eq_self_iff]
    intro c hc
    simpa using hnz c hc
  have hs1 : scanInt (ds1 ++ 59 :: ds2) = some (storeInt (digitsValue ds1 : Int), 59 :: ds2) :=
    scanInt_numeral ds1 (59 :: ds2) h1 (by
      intro c hc
      simp only [List.head?_cons, Option.some.injEq] at hc
      rw [← hc]; decide)
  have hs2 : scanInt ds2 = some (storeInt (digitsValue ds2 : Int), []) := by
    have := scanInt_numeral ds2 [] h2 (by simp)
    simpa using this
  unfold getCursorPosition
  rw [hbody, hkeep]
  simp only [List.cons_append, List.nil_append, List.getD_cons_zero, List.getD_cons_succ,
    List.drop_succ_cons, List.drop_zero, List.append_assoc, List.singleton_append, hstr]
  simp [sscanf2, hs1, hs2]

/-- The value `getCursorPosition` returns is 0 or -1, and it is 0 only when
the bytes kept begin with ESC `[` and then hold two integers separated by
`';'`. -/
theorem getCursorPosition_ret (queryOk : Bool) (input : List ReadResult) (rows cols : Int) :
    ((getCursorPosition queryOk input rows cols).ret = 0 ∨
      (getCursorPosition queryOk input rows cols).ret = -1) ∧
    ((getCursorPosition queryOk input rows cols).ret = 0 →
      queryOk = true ∧ [27, 91] <+: (readReply 31 input).1 ∧
      twoInts ((readReply 31 input).1.drop 2)) := by
  unfold getCursorPosition
  by_cases hq : queryOk = false
  · simp [hq]
  · rw [if_neg hq]
    simp only
    by_cases hhead : (readReply 31 input).1.getD 0 0 ≠ 27 ∨ (readReply 31 input).1.getD 1 0 ≠ 91
    · rw [if_pos hhead]; simp
    · rw [if_neg hhead]
      simp only
      by_cases h2 : (sscanf2 (List.takeWhile (fun c => decide (c ≠ 0))
          (List.drop 2 (readReply 31 input).1)) rows cols).1 ≠ 2
      · rw [if_pos h2]; simp
      · rw [if_neg h2]
        refine ⟨Or.inl rfl, fun _ => ⟨by simpa using hq, ?_, ?_⟩⟩
        · simp only [ne_eq, not_or, not_not] at hhead
          rcases hb : (readReply 31 input).1 with _ | ⟨a, _ | ⟨b, tl⟩⟩
          · rw [hb] at hhead; simp at hhead
          · rw [hb] at hhead; simp at hhead
          · rw [hb] at hhead
            simp only [List.getD_cons_zero, List.getD_cons_succ] at hhead
            rw [hhead.1, hhead.2]
            exact ⟨tl, rfl⟩
        · have htwo := sscanf2_two _ rows cols (not_not.mp h2)
          have := twoInts_append _ (List.dropWhile (fun c => decide (c ≠ 0))
            (List.drop 2 (readReply 31 input).1)) htwo
          rwa [List.takeWhile_append_dropWhile] at this

/-- How `editorScroll` arrives at the new offset. -/
theorem editorScroll_cases (E : editorState) :
    ((editorScroll E).rowOffset = E.rowOffset ∧ E.rowOffset ≤ E.cursorY ∧
      E.cursorY < E.rowOffset + E.screenRows) ∨
    ((editorScroll E).rowOffset = E.cursorY ∧ E.cursorY < E.rowOffset ∧ 0 < E.screenRows) ∨
    ((editorScroll E).rowOffset = E.cursorY - E.screenRows + 1 ∧
      (E.rowOffset + E.screenRows ≤ E.cursorY ∨
        (E.cursorY < E.rowOffset ∧ E.screenRows ≤ 0))) := by
  by_cases h1 : E.cursorY < E.rowOffset
  · by_cases h2 : E.screenRows ≤ 0
    · right; right
      exact ⟨by simp [editorScroll, h1, h2], Or.inr ⟨h1, h2⟩⟩
    · right; left
      exact ⟨by simp [editorScroll, h1, h2], h1, by omega⟩
  · by_cases h2 : E.rowOffset + E.screenRows ≤ E.cursorY
    · right; right
      exact ⟨by simp [editorScroll, h1, h2], Or.inl h2⟩
    · left
      exact ⟨by simp [editorScroll, h1, h2], by omega, by omega⟩

theorem loopInvariant_scroll (E : editorState) (h : loopInvariant E) :
    loopInvariant (editorScroll E) ∧
    (editorScroll E).rowOffset ≤ (editorScroll E).cursorY := by
  obtain ⟨hv, hb, hr, hc, hl⟩ := h
  obtain ⟨f1, f2, f3, f4, f5, f6, _⟩ := editorScroll_frame E
  have ho := editorScroll_cases E
  unfold viewInvariant at hv
  unfold cursorInBounds at hb
  unfold loopInvariant viewInvariant cursorInBounds
  rw [f6]
  refine ⟨⟨⟨?_, ?_, ?_, ?_⟩, ⟨?_, ?_, ?_, ?_⟩, ?_, ?_, ?_⟩, ?_⟩ <;>
    rcases ho with h | h | h <;> omega

theorem loopInvariant_processKey (c : Int) (E E2 : editorState) (rest r : List ReadResult)
    (h : loopInvariant E) (hstep : processKey c E rest = .running E2 r) :
    loopInvariant E2 := by
  obtain ⟨hv, hb, hr, hc, hl⟩ := h
  by_cases hq : c = CTRL_KEY 113
  · rw [hq] at hstep
    simp [processKey] at hstep
  · obtain ⟨E1, h1, ho, hsr, hsc, htr, hrows⟩ := processKey_running c E rest hq
    obtain ⟨E1b, h1b, hb1⟩ := processKey_bounds c E rest hq hc hb
    rw [h1] at hstep h1b
    injection hstep with he _
    injection h1b with he2 _
    subst he
    subst he2
    unfold viewInvariant at hv
    have hb1c := hb1
    unfold cursorInBounds at hb1c
    unfold loopInvariant viewInvariant
    rw [ho, hsr, hsc, htr, hrows]
    exact ⟨⟨hv.1, hv.2.1, hb1c.2.2.1, by rw [← htr]; exact hb1c.2.2.2⟩, hb1, hr, hc, hl⟩

theorem loopInvariant_step (input : List ReadResult) (E E2 : editorState)
    (r : List ReadResult) (h : loopInvariant E)
    (hstep : editorProcessKeypress input E = .running E2 r) : loopInvariant E2 := by
  unfold editorProcessKeypress at hstep
  rcases hk : editorReadKey input with ⟨c, rest⟩ | x | _
  · rw [hk] at hstep
    exact loopInvariant_processKey c E E2 rest r h hstep
  · rw [hk] at hstep; simp at hstep
  · rw [hk] at hstep; simp at hstep

theorem loopInvariant_mainLoop (n : Nat) (input : List ReadResult) (E E2 : editorState)
    (rest : List ReadResult) (h : loopInvariant E)
    (hrun : (mainLoop n input E).2.2 = .running E2 rest) : loopInvariant E2 := by
  induction n generalizing input E with
  | zero =>
    simp only [mainLoop, StepResult.running.injEq] at hrun
    rw [← hrun.1]
    exact h
  | succ n ih =>
    simp only [mainLoop] at hrun
    rcases hstep : editorProcessKeypress input (editorRefreshScreen E).1 with ⟨E1, r⟩ | x | _
    · rw [hstep] at hrun
      simp only at hrun
      exact ih r E1 (loopInvariant_step input _ E1 r (loopInvariant_scroll E h).1 hstep) hrun
    · rw [hstep] at hrun; simp at hrun
    · rw [hstep] at hrun; simp at hrun

theorem loopInvariant_setup (E0 Es : editorState) (r c : Int) (hr : 1 ≤ r) (hc : 1 ≤ c)
    (arg : Option (Option (List Int))) (hstart : setup E0 (some (r, c)) arg = .ok Es) :
    loopInvariant Es := by
  unfold setup initEditor at hstart
  simp only at hstart
  rcases arg with _ | ⟨_ | content⟩
  · simp only [Except.ok.injEq] at hstart
    rw [← hstart]
    simp only [loopInvariant, viewInvariant, cursorInBounds, List.length_nil, Nat.cast_zero]
    refine ⟨⟨?_, ?_, ?_, ?_⟩, ⟨?_, ?_, ?_, ?_⟩, ?_, ?_, ?_⟩ <;> first | omega | trivial
  · simp [editorOpen] at hstart
  · obtain ⟨lines, _, hrows⟩ := readRows_spec (content.length + 1) content
      { E0 with cursorX := 0, cursorY := 0, rowOffset := 0, totalRows := 0, rows := [],
                screenRows := r, screenColumns := c } (by omega)
    simp only [editorOpen, hrows, Except.ok.injEq] at hstart
    rw [← hstart]
    simp only [loopInvariant, viewInvariant, cursorInBounds, List.nil_append, List.length_map,
      zero_add]
    refine ⟨⟨?_, ?_, ?_, ?_⟩, ⟨?_, ?_, ?_, ?_⟩, ?_, ?_, ?_⟩ <;> first | omega | trivial

/-- C18: in every state reached from `initEditor` on a screen of at least one
row and one column, with or without `editorOpen` after it, through any number
of rounds of the main loop (`editorRefreshScreen`, then a key that returns to
the loop), `0 ≤ rowOffset ≤ totalRows` and `0 ≤ cursorY ≤ totalRows` hold, also
after `editorScroll`, and then `rowOffset ≤ cursorY`; so every index
`fileRow = y + rowOffset` at which `editorDrawRows` reads `E.rows` (the branch
where `fileRow >= E.totalRows` is false) has `0 ≤ fileRow < totalRows` and lies
inside the row array. -/
theorem reachable_invariant (E0 Es : editorState) (r c : Int) (hr : 1 ≤ r) (hc : 1 ≤ c)
    (arg : Option (Option (List Int))) (hstart : setup E0 (some (r, c)) arg = .ok Es)
    (n : Nat) (input : List ReadResult) (E : editorState) (rest : List ReadResult)
    (hrun : (mainLoop n input Es).2.2 = .running E rest) :
    viewInvariant E ∧ viewInvariant (editorScroll E) ∧
    (editorScroll E).rowOffset ≤ (editorScroll E).cursorY ∧
    (∀ y : Nat, (y : Int) < (editorScroll E).screenRows →
      ¬ ((y : Int) + (editorScroll E).rowOffset ≥ (editorScroll E).totalRows) →
      0 ≤ (y : Int) + (editorScroll E).rowOffset ∧
      (y : Int) + (editorScroll E).rowOffset < (editorScroll E).totalRows ∧
      ((y : Int) + (editorScroll E).rowOffset).toNat < (editorScroll E).rows.length) := by
  have hE := loopInvariant_mainLoop n input Es E rest
    (loopInvariant_setup E0 Es r c hr hc arg hstart) hrun
  obtain ⟨hS, hle⟩ := loopInvariant_scroll E hE
  refine ⟨hE.1, hS.1, hle, ?_⟩
  intro y _ hread
  have hv := hS.1
  have hl := hS.2.2.2.2
  unfold viewInvariant at hv
  refine ⟨by omega, by omega, ?_⟩
  omega

theorem reachable_invariant_witness :
    (1 : Int) ≤ 2 ∧ (1 : Int) ≤ 3 ∧
    setup zeroState (some (2, 3)) (some (some [97, 10, 98, 10, 99, 10, 100])) =
      .ok (fourRowState 0 0) ∧
    (mainLoop 3 [.byte 27, .byte 91, .byte 54, .byte 126, .byte 27, .byte 91, .byte 54,
      .byte 126, .byte 27, .byte 91, .byte 66] (fourRowState 0 0)).2.2 =
      .running (fourRowState 4 3) [] ∧
    viewInvariant (fourRowState 4 3) ∧
    (editorScroll (fourRowState 4 3)).rowOffset ≤ (editorScroll (fourRowState 4 3)).cursorY :=
  ⟨by decide, by decide, rfl, by decide,
   (reachable_invariant zeroState (fourRowState 0 0) 2 3 (by decide) (by decide)
     (some (some [97, 10, 98, 10, 99, 10, 100])) rfl 3
     [.byte 27, .byte 91, .byte 54, .byte 126, .byte 27, .byte 91, .byte 54, .byte 126,
      .byte 27, .byte 91, .byte 66] (fourRowState 4 3) [] (by decide)).1,
   (reachable_invariant zeroState (fourRowState 0 0) 2 3 (by decide) (by decide)
     (some (some [97, 10, 98, 10, 99, 10, 100])) rfl 3
     [.byte 27, .byte 91, .byte 54, .byte 126, .byte 27, .byte 91, .byte 54, .byte 126,
      .byte 27, .byte 91, .byte 66] (fourRowState 4 3) [] (by decide)).2.2.1⟩

/-! ## Frames that can be drawn -/

theorem appendToBufferRun_some (buf s : List Int) (len : Int) (h0 : 0 ≤ len)
    (h1 : len.toNat ≤ s.length) :
    appendToBufferRun buf s len = some (appendToBuffer buf s len) := by
  unfold appendToBufferRun appendToBuffer
  rw [if_pos h0, if_pos h1]

/-- A call of `appendToBuffer` the process survives leaves the buffer
`appendToBuffer` gives. -/
theorem appendToBufferRun_cases (buf s : List Int) (len : Int) :
    appendToBufferRun buf s len = some (appendToBuffer buf s len) ∨
    appendToBufferRun buf s len = none := by
  unfold appendToBufferRun appendToBuffer
  by_cases h0 : 0 ≤ len
  · rw [if_pos h0]
    by_cases h1 : len.toNat ≤ s.length
    · rw [if_pos h1]; exact Or.inl rfl
    · rw [if_neg h1]; exact Or.inr rfl
  · rw [if_neg h0]
    by_cases h2 : (buf.length : Int) + len < 0
    · rw [if_pos h2]
      left
      have : len.toNat = 0 := by omega
      rw [this]
      simp
    · rw [if_neg h2]; exact Or.inr rfl

theorem appendSpacesRun_some (n : Nat) (buf : List Int) :
    appendSpacesRun n buf = some (appendSpaces n buf) := by
  induction n generalizing buf with
  | zero => rfl
  | succ n ih =>
    simp only [appendSpacesRun, appendSpaces]
    rw [appendToBufferRun_some buf [32] 1 (by decide) (by decide)]
    exact ih _

theorem drawRowContentRun_cases (E : editorState) (y : Int) (buf : List Int) :
    drawRowContentRun E y buf = some (drawRowContent E y buf) ∨
    drawRowContentRun E y buf = none := by
  unfold drawRowContentRun drawRowContent
  simp only
  by_cases hf : y + E.rowOffset ≥ E.totalRows
  · rw [if_pos hf, if_pos hf]
    by_cases hw : E.totalRows = 0 ∧ y = E.screenRows.tdiv 3
    · rw [if_pos hw, if_pos hw]
      by_cases hp : (E.screenColumns -
          (if ((welcomeFormat ++ KILO_VERSION).length : Int) > E.screenColumns
           then E.screenColumns else ((welcomeFormat ++ KILO_VERSION).length : Int))).tdiv 2 ≠ 0
      · simp only [if_pos hp, appendToBufferRun_some buf [126] 1 (by decide) (by decide),
          Option.some_bind, appendSpacesRun_some]
        exact appendToBufferRun_cases _ _ _
      · simp only [if_neg hp, Option.some_bind, appendSpacesRun_some]
        exact appendToBufferRun_cases _ _ _
    · rw [if_neg hw, if_neg hw]
      exact appendToBufferRun_cases _ _ _
  · rw [if_neg hf, if_neg hf]
    by_cases hin : 0 ≤ y + E.rowOffset ∧ (y + E.rowOffset).toNat < E.rows.length
    · rw [if_pos hin]
      exact appendToBufferRun_cases _ _ _
    · rw [if_neg hin]
      exact Or.inr rfl

theorem drawRowRun_cases (E : editorState) (y : Int) (buf : List Int) :
    drawRowRun E y buf = some (drawRow E y buf) ∨ drawRowRun E y buf = none := by
  unfold drawRowRun drawRow
  rcases drawRowContentRun_cases E y buf with h | h
  · left
    rw [h]
    simp only [Option.some_bind,
      appendToBufferRun_some _ [27, 91, 75] 3 (by decide) (by decide)]
    by_cases hl : y < E.screenRows - 1
    · simp only [if_pos hl, appendToBufferRun_some _ [13, 10] 2 (by decide) (by decide)]
    · simp only [if_neg hl]
  · right
    rw [h]
    rfl

theorem drawRowsFromRun_cases (E : editorState) (n : Nat) (y : Int) (buf : List Int) :
    drawRowsFromRun E n y buf = some (drawRowsFrom E n y buf) ∨
    drawRowsFromRun E n y buf = none := by
  induction n generalizing y buf with
  | zero => exact Or.inl rfl
  | succ n ih =>
    simp only [drawRowsFromRun, drawRowsFrom]
    rcases drawRowRun_cases E y buf with h | h
    · rw [h]
      exact ih _ _
    · right
      rw [h]
      rfl

/-- A call of `editorRefreshScreen` the process survives does what
`editorRefreshScreen` says. -/
theorem editorRefreshScreenRun_cases (E : editorState) :
    editorRefreshScreenRun E = some (editorRefreshScreen E) ∨ editorRefreshScreenRun E = none := by
  unfold editorRefreshScreenRun editorRefreshScreen
  simp only [appendToBufferRun_some [] [27, 91, 63, 50, 53, 108] 6 (by decide) (by decide),
    appendToBufferRun_some _ [27, 91, 72] 3 (by decide) (by decide), Option.some_bind]
  have hstr : ∀ t : List Int, ((strlen t : Nat) : Int).toNat ≤ t.length := by
    intro t
    unfold strlen
    rw [Int.toNat_ofNat]
    exact (List.takeWhile_prefix _).length_le
  rcases drawRowsFromRun_cases (editorScroll E) (editorScroll E).screenRows.toNat 0
      (appendToBuffer (appendToBuffer [] [27, 91, 63, 50, 53, 108] 6) [27, 91, 72] 3) with h | h
  · left
    unfold editorDrawRowsRun editorDrawRows
    rw [h]
    simp only [Option.some_bind]
    rw [appendToBufferRun_some _ _ _ (Int.ofNat_nonneg _) (hstr _)]
    simp only [Option.some_bind,
      appendToBufferRun_some _ [27, 91, 63, 50, 53, 104] 6 (by decide) (by decide)]
  · right
    unfold editorDrawRowsRun
    rw [h]
    rfl

theorem editorRefreshScreenRun_eq (E : editorState) (r : editorState × List (List Int))
    (h : editorRefreshScreenRun E = some r) : r = editorRefreshScreen E := by
  rcases editorRefreshScreenRun_cases E with h1 | h1
  · rw [h1] at h
    injection h with h
    exact h.symm
  · rw [h1] at h
    exact Option.noConfusion h

theorem drawRowContentRun_valid (E : editorState) (y : Nat) (buf : List Int)
    (h : drawValid E) : drawRowContentRun E y buf = some (drawRowContent E y buf) := by
  obtain ⟨hc, ⟨hlen, hrows⟩, ho, _⟩ := h
  have hw28 := welcome_length
  rcases drawRowContentRun_cases E y buf with h1 | h1
  · exact h1
  · exfalso
    unfold drawRowContentRun at h1
    simp only at h1
    by_cases hf : (y : Int) + E.rowOffset ≥ E.totalRows
    · rw [if_pos hf] at h1
      by_cases hw : E.totalRows = 0 ∧ (y : Int) = E.screenRows.tdiv 3
      · rw [if_pos hw] at h1
        have hsn : snprintf 80 (welcomeFormat ++ KILO_VERSION) = welcomeFormat ++ KILO_VERSION := by
          unfold snprintf
          exact List.take_of_length_le (by rw [hw28]; decide)
        have hlast : ∀ b, appendToBufferRun b (snprintf 80 (welcomeFormat ++ KILO_VERSION))
            (if ((welcomeFormat ++ KILO_VERSION).length : Int) > E.screenColumns
             then E.screenColumns else ((welcomeFormat ++ KILO_VERSION).length : Int)) ≠ none := by
          intro b
          rw [appendToBufferRun_some _ _ _ (by split_ifs <;> omega)
            (by rw [hsn, hw28]; split_ifs <;> omega)]
          exact Option.some_ne_none _
        by_cases hp : (E.screenColumns -
            (if ((welcomeFormat ++ KILO_VERSION).length : Int) > E.screenColumns
             then E.screenColumns else ((welcomeFormat ++ KILO_VERSION).length : Int))).tdiv 2 ≠ 0
        · simp only [if_pos hp, appendToBufferRun_some buf [126] 1 (by decide) (by decide),
            Option.some_bind, appendSpacesRun_some] at h1
          exact hlast _ h1
        · simp only [if_neg hp, Option.some_bind, appendSpacesRun_some] at h1
          exact hlast _ h1
      · rw [if_neg hw, appendToBufferRun_some buf [126] 1 (by decide) (by decide)] at h1
        exact Option.some_ne_none _ h1
    · rw [if_neg hf] at h1
      have hidx : ((y : Int) + E.rowOffset).toNat < E.rows.length := by omega
      have hmem : rowAt E ((y : Int) + E.rowOffset) ∈ E.rows := by
        unfold rowAt
        rw [if_pos (by omega), List.getD_eq_getElem _ _ hidx]
        exact List.getElem_mem _
      have hsz := hrows _ hmem
      rw [if_pos ⟨by omega, hidx⟩, appendToBufferRun_some _ _ _ (by split_ifs <;> omega)
        (by split_ifs <;> omega)] at h1
      exact Option.some_ne_none _ h1

theorem drawRowsFromRun_valid (E : editorState) (n y : Nat) (buf : List Int)
    (h : drawValid E) :
    drawRowsFromRun E n (y : Int) buf = some (drawRowsFrom E n (y : Int) buf) := by
  induction n generalizing y buf with
  | zero => rfl
  | succ n ih =>
    have hrow : drawRowRun E (y : Int) buf = some (drawRow E (y : Int) buf) := by
      rcases drawRowRun_cases E (y : Int) buf with h1 | h1
      · exact h1
      · exfalso
        unfold drawRowRun at h1
        rw [drawRowContentRun_valid E y buf h] at h1
        simp only [Option.some_bind,
          appendToBufferRun_some _ [27, 91, 75] 3 (by decide) (by decide)] at h1
        by_cases hl : (y : Int) < E.screenRows - 1
        · simp [if_pos hl, appendToBufferRun_some _ [13, 10] 2 (by decide) (by decide)] at h1
        · simp [if_neg hl] at h1
    simp only [drawRowsFromRun, drawRowsFrom]
    rw [hrow]
    exact ih (y + 1) _

theorem drawValid_scroll (E : editorState) (h : drawValid E) : drawValid (editorScroll E) := by
  obtain ⟨hc, ⟨hlen, hrows⟩, ho, hy⟩ := h
  obtain ⟨_, f2, _, f4, f5, f6, _⟩ := editorScroll_frame E
  have hcases := editorScroll_cases E
  unfold drawValid rowsValid
  rw [f2, f4, f5, f6]
  refine ⟨hc, ⟨hlen, hrows⟩, ?_, hy⟩
  rcases hcases with h | h | h <;> omega

/-- In a state in which the rendering is defined the process survives
`editorRefreshScreen`. -/
theorem editorRefreshScreenRun_valid (E : editorState) (h : drawValid E) :
    editorRefreshScreenRun E = some (editorRefreshScreen E) := by
  rcases editorRefreshScreenRun_cases E with h1 | h1
  · exact h1
  · exfalso
    have hS := drawValid_scroll E h
    have hd := drawRowsFromRun_valid (editorScroll E) (editorScroll E).screenRows.toNat 0
      (appendToBuffer (appendToBuffer [] [27, 91, 63, 50, 53, 108] 6) [27, 91, 72] 3) hS
    have hstr : ∀ t : List Int, ((strlen t : Nat) : Int).toNat ≤ t.length := by
      intro t
      unfold strlen
      rw [Int.toNat_ofNat]
      exact (List.takeWhile_prefix _).length_le
    unfold editorRefreshScreenRun editorDrawRowsRun at h1
    simp only [appendToBufferRun_some [] [27, 91, 63, 50, 53, 108] 6 (by decide) (by decide),
      appendToBufferRun_some _ [27, 91, 72] 3 (by decide) (by decide), Option.some_bind] at h1
    rw [Nat.cast_zero] at hd
    rw [hd] at h1
    simp only [Option.some_bind] at h1
    rw [appendToBufferRun_some _ _ _ (Int.ofNat_nonneg _) (hstr _)] at h1
    simp [appendToBufferRun_some _ [27, 91, 63, 50, 53, 104] 6 (by decide) (by decide)] at h1

theorem editorMoveCursor_cursorY (key : Int) (E : editorState) (h : 0 ≤ E.cursorY) :
    0 ≤ (editorMoveCursor key E).cursorY := by
  unfold editorMoveCursor
  split_ifs <;> (try simp only) <;> omega

theorem moveTimes_cursorY (key : Int) (n : Nat) (E : editorState) (h : 0 ≤ E.cursorY) :
    0 ≤ (moveTimes key n E).cursorY := by
  induction n generalizing E with
  | zero => exact h
  | succ n ih => exact ih _ (editorMoveCursor_cursorY key E h)

theorem processKey_cursorY (c : Int) (E E2 : editorState) (rest r : List ReadResult)
    (hy : 0 ≤ E.cursorY) (h : processKey c E rest = .running E2 r) : 0 ≤ E2.cursorY := by
  unfold processKey at h
  by_cases hq : c = CTRL_KEY 113
  · rw [if_pos hq] at h
    exact StepResult.noConfusion h
  rw [if_neg hq] at h
  by_cases h1 : c = HOME_KEY
  · rw [if_pos h1] at h; injection h with h _; rw [← h]; exact hy
  rw [if_neg h1] at h
  by_cases h2 : c = END_KEY
  · rw [if_pos h2] at h; injection h with h _; rw [← h]; exact hy
  rw [if_neg h2] at h
  by_cases h3 : c = PAGE_UP ∨ c = PAGE_DOWN
  · rw [if_pos h3] at h
    injection h with h _
    rw [← h]
    exact moveTimes_cursorY _ _ E hy
  rw [if_neg h3] at h
  by_cases h4 : c = ARROW_UP ∨ c = ARROW_DOWN ∨ c = ARROW_LEFT ∨ c = ARROW_RIGHT
  · rw [if_pos h4] at h
    injection h with h _
    rw [← h]
    exact editorMoveCursor_cursorY c E hy
  rw [if_neg h4] at h
  injection h with h _
  rw [← h]
  exact hy

theorem drawValid_step (input : List ReadResult) (E E2 : editorState) (r : List ReadResult)
    (h : drawValid E) (hstep : editorProcessKeypress input E = .running E2 r) :
    drawValid E2 := by
  obtain ⟨hc, ⟨hlen, hrows⟩, ho, hy⟩ := h
  unfold editorProcessKeypress at hstep
  rcases hk : editorReadKey input with ⟨c, rest⟩ | x | _
  · rw [hk] at hstep
    simp only at hstep
    have hcy := processKey_cursorY c E E2 rest r hy hstep
    by_cases hq : c = CTRL_KEY 113
    · rw [hq] at hstep
      simp [processKey] at hstep
    · obtain ⟨E1, h1, f1, _, f3, f4, f5⟩ := processKey_running c E rest hq
      rw [h1] at hstep
      injection hstep with he _
      subst he
      unfold drawValid rowsValid
      rw [f1, f3, f4, f5]
      exact ⟨hc, ⟨hlen, hrows⟩, ho, hcy⟩
  · rw [hk] at hstep; simp at hstep
  · rw [hk] at hstep; simp at hstep

/-- From a state in which the rendering is defined the loop is never killed:
it runs as `mainLoop` describes. -/
theorem runLoop_valid (n : Nat) (input : List ReadResult) (E : editorState)
    (h : drawValid E) :
    runLoop n input E =
      .stopped (mainLoop n input E).1 (mainLoop n input E).2.1 (mainLoop n input E).2.2 := by
  induction n generalizing input E with
  | zero => rfl
  | succ n ih =>
    have hS := drawValid_scroll E h
    have hd : editorRefreshScreenRun E =
        some ((editorRefreshScreen E).1, (editorRefreshScreen E).2) :=
      editorRefreshScreenRun_valid E h
    have hk : keypressDefined input (editorRefreshScreen E).1 := by
      unfold keypressDefined
      split
      · intro _
        show (editorRefreshScreenRun (editorScroll E)).isSome = true
        rw [editorRefreshScreenRun_valid _ hS]
        rfl
      · trivial
      · trivial
    simp only [runLoop, mainLoop]
    rw [hd]
    simp only
    rw [if_neg (not_not.mpr hk)]
    rcases hstep : editorProcessKeypress input (editorRefreshScreen E).1 with ⟨E1, t⟩ | x | _
    · simp only
      rw [ih t E1 (drawValid_step input _ E1 t hS hstep)]
    · rfl
    · rfl

theorem drawValid_setup (E0 Es : editorState) (r c : Int) (hc : 0 ≤ c)
    (arg : Option (Option (List Int))) (hstart : setup E0 (some (r, c)) arg = .ok Es) :
    drawValid Es := by
  unfold setup initEditor at hstart
  simp only at hstart
  rcases arg with _ | ⟨_ | content⟩
  · simp only [Except.ok.injEq] at hstart
    rw [← hstart]
    exact ⟨hc, ⟨rfl, by simp⟩, le_refl _, le_refl _⟩
  · simp [editorOpen] at hstart
  · obtain ⟨lines, _, hrows⟩ := readRows_spec (content.length + 1) content
      { E0 with cursorX := 0, cursorY := 0, rowOffset := 0, totalRows := 0, rows := [],
                screenRows := r, screenColumns := c } (by omega)
    simp only [editorOpen, hrows, Except.ok.injEq] at hstart
    rw [← hstart]
    refine ⟨hc, ⟨by simp, ?_⟩, le_refl _, le_refl _⟩
    intro x hx
    simp only [List.nil_append, List.mem_map] at hx
    obtain ⟨ln, _, rfl⟩ := hx
    rfl

/-- A run is killed only on a screen whose probed number of columns is
negative, and then in raw mode. -/
theorem main_killed (fuel : Nat) (env : Env) (events : List Event) (tty : termios)
    (h : main fuel env = .killed events tty) :
    env.getOk = true ∧ env.rawOk = true ∧
    (getWindowSize env.ioctl env.moveOk env.queryOk env.input 0 0).ret ≠ -1 ∧
    (getWindowSize env.ioctl env.moveOk env.queryOk env.input 0 0).cols < 0 ∧
    tty = rawAttrs env.tty := by
  unfold main at h
  simp only at h
  rcases hg : env.getOk with _ | _
  · simp [enableRawMode, hg] at h
  · rcases hr : env.rawOk with _ | _
    · simp [enableRawMode, hg, hr] at h
    · simp only [enableRawMode, hg, hr, Bool.true_eq_false, if_false] at h
      have hz : getWindowSize env.ioctl env.moveOk env.queryOk env.input 0 0 =
          getWindowSize env.ioctl env.moveOk env.queryOk env.input zeroState.screenRows
            zeroState.screenColumns := rfl
      rw [hz]
      generalize getWindowSize env.ioctl env.moveOk env.queryOk env.input zeroState.screenRows
        zeroState.screenColumns = p at h ⊢
      by_cases hret : p.ret = -1
      · rw [if_pos hret] at h
        simp [setup, initEditor] at h
      · rw [if_neg hret] at h
        rcases hs : setup { zeroState with originalTermios := env.tty }
            (some (p.rows, p.cols)) env.arg with x | E2
        · rw [hs] at h
          exact Run.noConfusion h
        · rw [hs] at h
          simp only at h
          refine ⟨rfl, rfl, hret, ?_, ?_⟩
          · by_contra hcols
            have hv := drawValid_setup _ E2 _ _ (not_lt.mp hcols) env.arg hs
            rw [runLoop_valid fuel _ E2 hv] at h
            rcases hres : (mainLoop fuel p.rest E2).2.2 with _ | _ | _ <;> rw [hres] at h <;>
              exact Run.noConfusion h
          · rcases hl : runLoop fuel p.rest E2 with ⟨f1, El, res⟩ | f1
            · rw [hl] at h
              rcases res with _ | _ | _ <;> simp at h
            · rw [hl] at h
              simp only [Run.killed.injEq] at h
              exact h.2.symm

theorem drawValid_mainLoop (n : Nat) (input : List ReadResult) (E E2 : editorState)
    (rest : List ReadResult) (h : drawValid E)
    (hrun : (mainLoop n input E).2.2 = .running E2 rest) : drawValid E2 := by
  induction n generalizing input E with
  | zero =>
    simp only [mainLoop, StepResult.running.injEq] at hrun
    rw [← hrun.1]
    exact h
  | succ n ih =>
    simp only [mainLoop] at hrun
    rcases hstep : editorProcessKeypress input (editorRefreshScreen E).1 with ⟨E1, r⟩ | x | _
    · rw [hstep] at hrun
      simp only at hrun
      exact ih r E1 (drawValid_step input _ E1 r (drawValid_scroll E h) hstep) hrun
    · rw [hstep] at hrun; simp at hrun
    · rw [hstep] at hrun; simp at hrun

theorem exitEvents_die (s : String) :
    exitEvents (die s) =
      [.write [27, 91, 50, 74], .write [27, 91, 72], .perror s, .exit 1] := rfl

theorem waitByte_died (input : List ReadResult) (x : Exit) (h : waitByte input = .died x) :
    x = die "read" := by
  induction input with
  | nil => simp [waitByte] at h
  | cons r input ih =>
    cases r with
    | byte b => simp [waitByte] at h
    | timeout => exact ih (by simpa [waitByte] using h)
    | failed e =>
      simp only [waitByte] at h
      split_ifs at h
      · injection h with h; exact h.symm
      · exact ih h

/-- After the first byte the decoder always returns a key. -/
theorem decodeAfter_key (c : Int) (t : List ReadResult) :
    ∃ k rest, decodeAfter c t = .key k rest := by
  unfold decodeAfter
  by_cases hc : c = ESC
  · rw [if_pos hc]
    rcases readSeq t with ⟨_ | s0, r1⟩
    · exact ⟨_, _, rfl⟩
    · simp only
      rcases readSeq r1 with ⟨_ | s1, r2⟩
      · exact ⟨_, _, rfl⟩
      · simp only
        by_cases h0 : s0 = 91
        · rw [if_pos h0]
          by_cases hd : 48 ≤ s1 ∧ s1 ≤ 57
          · rw [if_pos hd]
            rcases readSeq r2 with ⟨_ | s2, r3⟩
            · exact ⟨_, _, rfl⟩
            · simp only
              split_ifs <;> exact ⟨_, _, rfl⟩
          · rw [if_neg hd]; exact ⟨_, _, rfl⟩
        · rw [if_neg h0]
          split_ifs <;> exact ⟨_, _, rfl⟩
  · rw [if_neg hc]; exact ⟨_, _, rfl⟩

theorem editorReadKey_died (input : List ReadResult) (x : Exit)
    (h : editorReadKey input = .died x) : x = die "read" := by
  unfold editorReadKey at h
  rcases hw : waitByte input with ⟨c, t⟩ | y | _
  · rw [hw] at h
    simp only at h
    obtain ⟨k, rest, hk⟩ := decodeAfter_key c t
    rw [hk] at h
    exact KeyResult.noConfusion h
  · rw [hw] at h
    simp only [KeyResult.died.injEq] at h
    rw [← h]
    exact waitByte_died input y hw
  · rw [hw] at h
    exact KeyResult.noConfusion h

/-- The two ways `editorProcessKeypress` ends the process: `die("read")`, or
the quit key with `exit(0)` after one frame. -/
theorem editorProcessKeypress_exited (input : List ReadResult) (E : editorState) (x : Exit)
    (h : editorProcessKeypress input E = .exited x) :
    x = die "read" ∨
    x = { writes := (editorRefreshScreen E).2, diagnostic := none, status := 0 } := by
  unfold editorProcessKeypress at h
  rcases hk : editorReadKey input with ⟨c, rest⟩ | y | _
  · rw [hk] at h
    simp only at h
    by_cases hq : c = CTRL_KEY 113
    · right
      rw [hq] at h
      simp only [processKey, if_true, StepResult.exited.injEq] at h
      exact h.symm
    · obtain ⟨E1, h1, _⟩ := processKey_running c E rest hq
      rw [h1] at h
      exact StepResult.noConfusion h
  · rw [hk] at h
    simp only [StepResult.exited.injEq] at h
    left
    rw [← h]
    exact editorReadKey_died input y hk
  · rw [hk] at h
    exact StepResult.noConfusion h

theorem processKey_termios (c : Int) (E E2 : editorState) (rest r : List ReadResult)
    (h : processKey c E rest = .running E2 r) : E2.originalTermios = E.originalTermios := by
  unfold processKey at h
  by_cases hq : c = CTRL_KEY 113
  · rw [if_pos hq] at h
    exact StepResult.noConfusion h
  rw [if_neg hq] at h
  by_cases h1 : c = HOME_KEY
  · rw [if_pos h1] at h; injection h with h _; rw [← h]
  rw [if_neg h1] at h
  by_cases h2 : c = END_KEY
  · rw [if_pos h2] at h; injection h with h _; rw [← h]
  rw [if_neg h2] at h
  by_cases h3 : c = PAGE_UP ∨ c = PAGE_DOWN
  · rw [if_pos h3] at h
    injection h with h _
    rw [← h]
    exact (moveTimes_frame _ _ E).2.2.2.2.2
  rw [if_neg h3] at h
  by_cases h4 : c = ARROW_UP ∨ c = ARROW_DOWN ∨ c = ARROW_LEFT ∨ c = ARROW_RIGHT
  · rw [if_pos h4] at h
    injection h with h _
    rw [← h]
    exact (editorMoveCursor_frame c E).2.2.2.2.2
  rw [if_neg h4] at h
  injection h with h _
  rw [← h]

theorem editorProcessKeypress_termios (input : List ReadResult) (E E2 : editorState)
    (r : List ReadResult) (h : editorProcessKeypress input E = .running E2 r) :
    E2.originalTermios = E.originalTermios := by
  unfold editorProcessKeypress at h
  rcases hk : editorReadKey input with ⟨c, rest⟩ | y | _
  · rw [hk] at h
    exact processKey_termios c E E2 rest r h
  · rw [hk] at h; exact StepResult.noConfusion h
  · rw [hk] at h; exact StepResult.noConfusion h

theorem lastState_termios (input : List ReadResult) (E : editorState) :
    (lastState input E).originalTermios = E.originalTermios := by
  unfold lastState
  rcases editorReadKey input with ⟨c, rest⟩ | y | _
  · simp only
    split_ifs
    · exact (editorScroll_frame E).2.2.2.2.2.2
    · rfl
  · rfl
  · rfl

/-- The main loop never changes the saved terminal attributes, and it ends the
process only through `die("read")` or through `exit(0)` on the quit key. -/
theorem mainLoop_end (n : Nat) (input : List ReadResult) (E : editorState) :
    (mainLoop n input E).2.1.originalTermios = E.originalTermios ∧
    ∀ x, (mainLoop n input E).2.2 = .exited x →
      x = die "read" ∨ (x.diagnostic = none ∧ x.status = 0) := by
  induction n generalizing input E with
  | zero => exact ⟨rfl, fun x h => by simp [mainLoop] at h⟩
  | succ n ih =>
    simp only [mainLoop]
    rcases hstep : editorProcessKeypress input (editorRefreshScreen E).1 with ⟨E1, r⟩ | y | _
    · simp only
      obtain ⟨h1, h2⟩ := ih r E1
      refine ⟨?_, h2⟩
      rw [h1, editorProcessKeypress_termios input _ E1 r hstep]
      exact (editorScroll_frame E).2.2.2.2.2.2
    · simp only
      refine ⟨?_, ?_⟩
      · rw [lastState_termios]
        exact (editorScroll_frame E).2.2.2.2.2.2
      · intro x hx
        injection hx with hx
        rw [← hx]
        rcases editorProcessKeypress_exited input _ y hstep with h | h
        · exact Or.inl h
        · right; rw [h]; exact ⟨rfl, rfl⟩
    · simp only
      exact ⟨(editorScroll_frame E).2.2.2.2.2.2, fun x hx => StepResult.noConfusion hx⟩

theorem setup_end (E : editorState) (size : Option (Int × Int))
    (arg : Option (Option (List Int))) :
    (∀ E2, setup E size arg = .ok E2 → E2.originalTermios = E.originalTermios) ∧
    (∀ x, setup E size arg = .error x → x = die "getWindowSize" ∨ x = die "fopen") := by
  unfold setup initEditor
  rcases size with _ | ⟨r, c⟩
  · exact ⟨fun E2 h => by simp at h, fun x h => by
      simp only [Except.error.injEq] at h
      exact Or.inl h.symm⟩
  · simp only
    rcases arg with _ | ⟨_ | content⟩
    · exact ⟨fun E2 h => by
        simp only [Except.ok.injEq] at h
        rw [← h], fun x h => by simp at h⟩
    · exact ⟨fun E2 h => by simp [editorOpen] at h, fun x h => by
        simp only [editorOpen, Except.error.injEq] at h
        exact Or.inr h.symm⟩
    · obtain ⟨lines, _, hrows⟩ := readRows_spec (content.length + 1) content
        { E with cursorX := 0, cursorY := 0, rowOffset := 0, totalRows := 0, rows := [],
                 screenRows := r, screenColumns := c } (by omega)
      exact ⟨fun E2 h => by
        simp only [editorOpen, hrows, Except.ok.injEq] at h
        rw [← h], fun x h => by simp [editorOpen] at h⟩

/-- A run of the loop that is not killed is the run `mainLoop` describes. -/
theorem runLoop_stopped (n : Nat) (input : List ReadResult) (E : editorState)
    (frames : List (List Int)) (Elast : editorState) (r : StepResult)
    (h : runLoop n input E = .stopped frames Elast r) :
    mainLoop n input E = (frames, Elast, r) := by
  induction n generalizing input E frames Elast r with
  | zero =>
    simp only [runLoop, LoopRun.stopped.injEq] at h
    obtain ⟨h1, h2, h3⟩ := h
    simp only [mainLoop, ← h1, ← h2, ← h3]
  | succ n ih =>
    simp only [runLoop] at h
    rcases hr : editorRefreshScreenRun E with _ | ⟨E1, frs⟩
    · rw [hr] at h
      exact LoopRun.noConfusion h
    · have heq := editorRefreshScreenRun_eq E _ hr
      rw [hr] at h
      simp only at h
      by_cases hk : keypressDefined input E1
      · rw [if_neg (not_not.mpr hk)] at h
        simp only [mainLoop, ← heq]
        rcases hstep : editorProcessKeypress input E1 with ⟨E2, t⟩ | x | _
        · rw [hstep] at h
          simp only at h
          rcases hrec : runLoop n t E2 with ⟨f1, El1, r1⟩ | f1
          · rw [hrec] at h
            simp only [LoopRun.stopped.injEq] at h
            obtain ⟨h1, h2, h3⟩ := h
            simp only [ih t E2 f1 El1 r1 hrec, ← h1, ← h2, ← h3]
          · rw [hrec] at h
            exact LoopRun.noConfusion h
        · rw [hstep] at h
          simp only [LoopRun.stopped.injEq] at h
          obtain ⟨h1, h2, h3⟩ := h
          rw [← h1, ← h2, ← h3]
        · rw [hstep] at h
          simp only [LoopRun.stopped.injEq] at h
          obtain ⟨h1, h2, h3⟩ := h
          rw [← h1, ← h2, ← h3]
      · rw [if_pos hk] at h
        exact LoopRun.noConfusion h

/-- Every way `main` ends is a call of `exit`, made by `die` or by the quit
key, followed by the handlers; the handler is registered exactly when
`tcgetattr` has succeeded, and the saved attributes are then those the
terminal had at the start. -/
theorem main_shape (fuel : Nat) (env : Env) (e : Ended) (h : main fuel env = .ended e) :
    ∃ E before x,
      e = runExit E env.getOk env.restoreOk
        (if env.getOk = true ∧ env.rawOk = true then rawAttrs env.tty else env.tty) before x ∧
      (env.getOk = true → E.originalTermios = env.tty) ∧
      ((∃ s, x = die s) ∨ (x.diagnostic = none ∧ x.status = 0)) ∧
      (env.getOk = false → before = [] ∧ x = die "tcgetattr") ∧
      (env.getOk = true → env.rawOk = false →
        before = [.tcsetattr (rawAttrs env.tty) false] ∧ x = die "tcsetattr") ∧
      (env.getOk = true → env.rawOk = true →
        ∃ later, before = .tcsetattr (rawAttrs env.tty) true :: later) := by
  unfold main at h
  simp only at h
  rcases hg : env.getOk with _ | _
  · simp only [enableRawMode, hg, if_true, Run.ended.injEq] at h
    exact ⟨zeroState, [], die "tcgetattr", by rw [← h]; simp, by simp, Or.inl ⟨_, rfl⟩,
      fun _ => ⟨rfl, rfl⟩, fun hf => by simp at hf, fun hf => by simp at hf⟩
  · rcases hr : env.rawOk with _ | _
    · simp only [enableRawMode, hg, hr, Bool.true_eq_false, if_false, if_true,
        Run.ended.injEq] at h
      exact ⟨{ zeroState with originalTermios := env.tty },
        [.tcsetattr (rawAttrs env.tty) false], die "tcsetattr",
        by rw [← h]; simp, fun _ => rfl, Or.inl ⟨_, rfl⟩, fun hf => by simp at hf,
        fun _ _ => ⟨rfl, rfl⟩, fun _ hf => by simp at hf⟩
    · simp only [enableRawMode, hg, hr, Bool.true_eq_false, if_false] at h
      rcases hs : setup { zeroState with originalTermios := env.tty }
          (if (getWindowSize env.ioctl env.moveOk env.queryOk env.input zeroState.screenRows
                zeroState.screenColumns).ret = -1 then none
           else some ((getWindowSize env.ioctl env.moveOk env.queryOk env.input
                zeroState.screenRows zeroState.screenColumns).rows,
              (getWindowSize env.ioctl env.moveOk env.queryOk env.input zeroState.screenRows
                zeroState.screenColumns).cols)) env.arg with x | E2
      · rw [hs] at h
        simp only [Run.ended.injEq] at h
        have hx := (setup_end _ _ _).2 x hs
        refine ⟨{ zeroState with originalTermios := env.tty },
          Event.tcsetattr (rawAttrs env.tty) true ::
            List.map Event.write (getWindowSize env.ioctl env.moveOk env.queryOk env.input
              zeroState.screenRows zeroState.screenColumns).writes,
          x, by rw [← h]; simp, fun _ => rfl, ?_, fun hf => by simp at hf,
          fun _ hf => by simp at hf, fun _ _ => ⟨_, rfl⟩⟩
        rcases hx with hx | hx
        · exact Or.inl ⟨_, hx⟩
        · exact Or.inl ⟨_, hx⟩
      · rw [hs] at h
        simp only at h
        have hE2 := (setup_end _ _ _).1 E2 hs
        rcases hl : runLoop fuel (getWindowSize env.ioctl env.moveOk env.queryOk env.input
            zeroState.screenRows zeroState.screenColumns).rest E2 with ⟨frames, Elast, res⟩ | f
        · have hend := mainLoop_end fuel (getWindowSize env.ioctl env.moveOk env.queryOk
              env.input zeroState.screenRows zeroState.screenColumns).rest E2
          rw [runLoop_stopped _ _ _ _ _ _ hl] at hend
          rw [hl] at h
          simp only at hend
          cases res with
          | running E3 r => simp at h
          | waiting => simp at h
          | exited x =>
            simp only [Run.ended.injEq] at h
            refine ⟨Elast,
              Event.tcsetattr (rawAttrs env.tty) true ::
                (List.map Event.write (getWindowSize env.ioctl env.moveOk env.queryOk env.input
                  zeroState.screenRows zeroState.screenColumns).writes ++
                  List.map Event.write frames),
              x, by rw [← h]; simp, fun _ => by rw [hend.1, hE2], ?_,
              fun hf => by simp at hf, fun _ hf => by simp at hf, fun _ _ => ⟨_, rfl⟩⟩
            rcases hend.2 x rfl with hx | hx
            · exact Or.inl ⟨_, hx⟩
            · exact Or.inr hx
        · rw [hl] at h
          simp at h

/-- C16, as the code has it: every fatal path (failure of `tcgetattr` or
`tcsetattr`, of `fopen`, of a read while waiting for a key, of the window size
probe) goes through `die`, which writes the clear-screen sequence `ESC[2J`,
`ESC[H`, then reports the diagnostic and calls `exit(1)`; `die` does not
restore the terminal configuration: that is done by the exit handler
`disableRawMode`, registered once `tcgetattr` has succeeded, which runs
during `exit`, after the report.  So when the handler's `tcsetattr` succeeds
the last event of every run that ends through `exit` is the restore and the
terminal has its original attributes; when `tcgetattr` fails nothing was
changed; when the `tcsetattr` of `enableRawMode` fails that call is followed
by `die("tcsetattr")`; when the handler's `tcsetattr` fails it calls `die`
again and the attributes stay as they were.  A process that is killed while it
draws calls neither `die` nor `exit` and leaves the terminal in raw mode; that
happens only when the size probe gave a negative number of columns. -/
theorem fatal_teardown (fuel : Nat) (env : Env) (e : Ended)
    (hmain : main fuel env = .ended e) :
    (∀ s, exitEvents (die s) =
      [.write [27, 91, 50, 74], .write [27, 91, 72], .perror s, .exit 1]) ∧
    (∀ E tty setOk, (enableRawMode E tty false setOk).fatal = some (die "tcgetattr")) ∧
    (∀ E tty, (enableRawMode E tty true false).fatal = some (die "tcsetattr")) ∧
    (∀ E, disableRawMode E false = .error (die "tcsetattr")) ∧
    (∀ E, editorOpen none E = .error (die "fopen")) ∧
    (∀ E, initEditor E none = .error (die "getWindowSize")) ∧
    (∀ input x, editorReadKey input = .died x → x = die "read") ∧
    (e.status ≠ 0 → ∃ s before after, e.events = before ++ exitEvents (die s) ++ after) ∧
    (env.getOk = true → env.restoreOk = true →
      ∃ before x, e.events = before ++ exitEvents x ++ [.tcsetattr env.tty true] ∧
        e.tty = env.tty ∧ e.status = x.status) ∧
    (env.getOk = false →
      e = { events := exitEvents (die "tcgetattr"), tty := env.tty, status := 1 }) ∧
    (env.getOk = true → env.restoreOk = false →
      ∃ before x, e.events = before ++ exitEvents x ++ [.tcsetattr env.tty false] ++
          exitEvents (die "tcsetattr") ∧
        e.status = 1 ∧
        e.tty = (if env.rawOk = true then rawAttrs env.tty else env.tty)) ∧
    (env.getOk = true → env.rawOk = false →
      ∃ after, e.events =
        [.tcsetattr (rawAttrs env.tty) false] ++ exitEvents (die "tcsetattr") ++ after) ∧
    (env.getOk = true → env.rawOk = true →
      ∃ later, e.events = .tcsetattr (rawAttrs env.tty) true :: later) ∧
    (∀ fuel1 env1 events tty, main fuel1 env1 = .killed events tty →
      (getWindowSize env1.ioctl env1.moveOk env1.queryOk env1.input 0 0).cols < 0 ∧
      tty = rawAttrs env1.tty) := by
  obtain ⟨E, before, x, he, horig, hx, hno, hraw, hset⟩ := main_shape fuel env e hmain
  refine ⟨fun _ => rfl, fun _ _ _ => rfl, fun _ _ => rfl, fun _ => rfl, fun _ => rfl,
    fun _ => rfl, editorReadKey_died, ?_, ?_, ?_, ?_, ?_, ?_, ?_⟩
  · intro hst
    rcases hg : env.getOk with _ | _
    · obtain ⟨hb, hxd⟩ := hno hg
      rw [hg, hb, hxd] at he
      exact ⟨"tcgetattr", [], [], by rw [he]; simp [runExit]⟩
    · rcases hr : env.restoreOk with _ | _
      · rw [hg, hr] at he
        exact ⟨"tcsetattr", before ++ exitEvents x ++ [.tcsetattr E.originalTermios false], [],
          by rw [he]; simp [runExit, disableRawMode]⟩
      · rw [hg, hr] at he
        rcases hx with ⟨s, hs⟩ | ⟨_, h0⟩
        · exact ⟨s, before, [.tcsetattr E.originalTermios true],
            by rw [he, hs]; simp [runExit, disableRawMode]⟩
        · exfalso
          apply hst
          rw [he]
          simpa [runExit, disableRawMode] using h0
  · intro hg hr
    have ho := horig hg
    rw [hg, hr] at he
    exact ⟨before, x, by rw [he]; simp [runExit, disableRawMode, ho],
      by rw [he]; simp [runExit, disableRawMode, ho],
      by rw [he]; simp [runExit, disableRawMode]⟩
  · intro hg
    obtain ⟨hb, hxd⟩ := hno hg
    rw [hg, hb, hxd] at he
    rw [he]
    simp [runExit, hg, die]
  · intro hg hr
    have ho := horig hg
    rw [hg, hr] at he
    refine ⟨before, x, by rw [he]; simp [runExit, disableRawMode, ho],
      by rw [he]; simp [runExit, disableRawMode, die], ?_⟩
    rw [he]
    simp [runExit, disableRawMode]
  · intro hg hr
    obtain ⟨hb, hxd⟩ := hraw hg hr
    rw [hg, hb, hxd] at he
    rcases hro : env.restoreOk with _ | _
    · rw [hro] at he
      exact ⟨[.tcsetattr E.originalTermios false] ++ exitEvents (die "tcsetattr"),
        by rw [he]; simp [runExit, disableRawMode]⟩
    · rw [hro] at he
      exact ⟨[.tcsetattr E.originalTermios true], by rw [he]; simp [runExit, disableRawMode]⟩
  · intro hg hr
    obtain ⟨later, hl⟩ := hset hg hr
    rw [hg, hl] at he
    rcases hro : env.restoreOk with _ | _
    · rw [hro] at he
      exact ⟨later ++ exitEvents x ++ [.tcsetattr E.originalTermios false] ++
        exitEvents (die "tcsetattr"), by rw [he]; simp [runExit, disableRawMode]⟩
    · rw [hro] at he
      exact ⟨later ++ exitEvents x ++ [.tcsetattr E.originalTermios true],
        by rw [he]; simp [runExit, disableRawMode]⟩
  · intro fuel1 env1 events tty hk
    obtain ⟨_, _, _, hcols, htty⟩ := main_killed fuel1 env1 events tty hk
    exact ⟨hcols, htty⟩

theorem fatal_teardown_witness :
    main 1 readErrorEnv = .ended readErrorEnd ∧
    (∃ before x, readErrorEnd.events =
        before ++ exitEvents x ++ [.tcsetattr readErrorEnv.tty true] ∧
      readErrorEnd.tty = readErrorEnv.tty ∧ readErrorEnd.status = x.status) ∧
    (∃ s before after, readErrorEnd.events = before ++ exitEvents (die s) ++ after) ∧
    main 0 rawFailEnv = .ended rawFailEnd ∧
    (∃ after, rawFailEnd.events =
      [.tcsetattr (rawAttrs rawFailEnv.tty) false] ++ exitEvents (die "tcsetattr") ++ after) :=
  ⟨by decide,
   (fatal_teardown 1 readErrorEnv readErrorEnd (by decide)).2.2.2.2.2.2.2.2.1 rfl rfl,
   (fatal_teardown 1 readErrorEnv readErrorEnd (by decide)).2.2.2.2.2.2.2.1 (by decide),
   by decide,
   (fatal_teardown 0 rawFailEnv rawFailEnd (by decide)).2.2.2.2.2.2.2.2.2.2.2.1 rfl rfl⟩

/-- C16, counterexample: in the run `readErrorEnv` raw mode is on when a read
fails; `die("read")` writes the two clear-screen sequences, reports and calls
`exit(1)` without touching the terminal attributes, and the restore comes
last, after the report. -/
theorem fatal_teardown_restore_after_report :
    main 1 readErrorEnv = .ended readErrorEnd ∧
    exitEvents (die "read") =
      [.write [27, 91, 50, 74], .write [27, 91, 72], .perror "read", .exit 1] ∧
    readErrorEnd.events.indexOf (.perror "read") = 4 ∧
    readErrorEnd.events.indexOf (.tcsetattr readErrorEnv.tty true) = 6 := by
  decide

end Kilo
